import Mathlib

/-!
# Set Covering heuristics: GRASP construction, repair and local search

Shallow embedding of `scp_problem.hpp`, `scp_grasp.hpp`, `scp_repair.hpp` and
`scp_local_search.hpp`.

Conventions of the embedding.

* `std::set<int>` is a strictly ascending `List Nat`; iteration over a set is
  iteration over the list, `insert` is `set_insert`, `erase` is `List.erase`,
  `find(i) != end()` is `List.contains`.
* `std::vector<int>` is a `List Int`; `v[j]` is `vget v j`, `++v[j]` is
  `vadd v j 1`, `--v[j]` is `vadd v j (-1)`.
* the costs, the scores and `_z` are rationals in the main embedding: every
  operation on a `double` is taken without rounding (exact arithmetic), and the
  initial `+infinity` of `c_min` is `none : Option ℚ`. The sections on `double`
  repeat the numeric parts with the IEEE 754 rounding of the type; the names of
  these definitions end in `_fl`.
* `std::rand()` is a stream `draws : Nat → Nat` read at an increasing position.
* every `while` loop takes a `fuel : Nat` and answers `none` when the fuel does
  not suffice: in the selection loops the fuel bounds the number of items
  picked, in the exchange loops the number of exchanges performed.
* after an exchange the headers of the `for` loops of `run_1_1` and `run_2_1`
  increment an iterator that the exchange has erased. `run_1_1` and `run_2_1`
  follow the execution in which this increment has no effect; `run_1_1_strict`,
  `run_2_1_strict` and `run_strict` follow the C++ standard, for which it is
  undefined behaviour.
-/

/-! ## Containers -/

/-- The member `std::set<int>::insert` on an ascending list. -/
def set_insert (k : Nat) : List Nat → List Nat
  | [] => [k]
  | a :: l => if k < a then k :: a :: l else if k = a then a :: l else a :: set_insert k l

/-- Read access `v[j]` of a `std::vector<int>`. -/
def vget (v : List Int) (j : Nat) : Int := v.getD j 0

/-- In-place update `v[j] += d` of a `std::vector<int>` (`++v[j]`, `--v[j]`). -/
def vadd (v : List Int) (j : Nat) (d : Int) : List Int := v.set j (v.getD j 0 + d)

/-! ## scp_problem -/

/-- Set Cover Problem instance: costs `c` of the items, covering sets `S` of the requirements. -/
structure scp_problem where
  c : List ℚ
  S : List (List Nat)
  deriving DecidableEq

/-- Number of items, `c.size()`. -/
def scp_problem.num_elements (p : scp_problem) : Nat := p.c.length

/-- Number of requirements, `S.size()`. -/
def scp_problem.num_sets (p : scp_problem) : Nat := p.S.length

/-- Objective value `z(x)`: the costs of the members of `x` accumulated in iteration order,
in exact arithmetic (`scp_problem.z_fl` is the sum in `double`). -/
def scp_problem.z (p : scp_problem) (x : List Nat) : ℚ :=
  x.foldl (fun obj i => obj + p.c.getD i 0) 0

/-- Feasibility test `check(x)`: every `S[j]` has a member found in `x`. -/
def scp_problem.check (p : scp_problem) (x : List Nat) : Bool :=
  p.S.all (fun s => s.any (fun i => x.contains i))

/-- Instance test `check()`: no `S[j]` is empty. -/
def scp_problem.check_instance (p : scp_problem) : Bool :=
  p.S.all (fun s => !s.isEmpty)

/-- Acceptance test `check(x, obj, epsilon)`, in exact arithmetic: no rounding, no infinity
and no NaN (`scp_problem.check_obj_fl` is the test in `double`). -/
def scp_problem.check_obj (p : scp_problem) (x : List Nat) (obj epsilon : ℚ) : Bool :=
  let diff := p.z x - obj
  decide (-epsilon ≤ diff) && decide (diff ≤ epsilon) && p.check x

/-- A well-formed instance: every `S[j]` is a set (strictly ascending) of item indices below `m`. -/
def scp_problem.WellFormed (p : scp_problem) : Prop :=
  ∀ s ∈ p.S, s.Sorted (· < ·) ∧ ∀ i ∈ s, i < p.c.length

instance (p : scp_problem) : Decidable p.WellFormed := by
  unfold scp_problem.WellFormed; infer_instance

/-- A selection: a set (strictly ascending) of item indices below `m`. -/
def scp_problem.Selection (p : scp_problem) (x : List Nat) : Prop :=
  x.Sorted (· < ·) ∧ ∀ i ∈ x, i < p.c.length

instance (p : scp_problem) (x : List Nat) : Decidable (p.Selection x) := by
  unfold scp_problem.Selection; infer_instance

/-! ## scp_problem::reduce -/

/-- The body of the loop `while ( it != S[j].end() )` of `reduce` at the member `k`:
`S[j].erase( it++ ); S[j].insert( k-1 )`. -/
def reduce_shift (s : List Nat) (k : Nat) : List Nat := set_insert (k - 1) (s.erase k)

/-- What `reduce` does to one set `S[j]` for an item `i` found in no set: from
`it = S[j].lower_bound( i )`, when `it` is not the end, the member `*it` is erased when it
is `i` and stepped over otherwise, then every later member `k` is erased and `k-1`
inserted. -/
def reduce_set (i : Nat) (s : List Nat) : List Nat :=
  match s.dropWhile (fun k => decide (k < i)) with
  | [] => s
  | h :: rest => rest.foldl reduce_shift (if h = i then s.erase h else s)

/-- One turn of the loop of `reduce` over the items: when no set holds `i`, every set is
renumbered by `reduce_set`. -/
def reduce_step (S : List (List Nat)) (i : Nat) : List (List Nat) :=
  if S.any (fun s => s.contains i) then S else S.map (reduce_set i)

/-- The member `reduce()`: `c` is left as it is, `S` goes through the loop over `[0, m)`. -/
def scp_problem.reduce (p : scp_problem) : scp_problem :=
  { p with S := (List.range p.num_elements).foldl reduce_step p.S }

/-! ## The reverse index built by `read` -/

/-- The statement `_T[*it].insert( j )`. -/
def T_insert (j : Nat) (T : List (List Nat)) (it : Nat) : List (List Nat) :=
  T.set it (set_insert j (T.getD it []))

/-- The loop `for j in [j0, n)` of `read`, over the remaining sets of `S`. -/
def read_loop : Nat → List (List Nat) → List (List Nat) → List (List Nat)
  | _, [], T => T
  | j, s :: rest, T => read_loop (j + 1) rest (s.foldl (T_insert j) T)

/-- The vector `_T` after `read( instance )`: resized to `m` empty sets, then filled from `S`. -/
def read_T (p : scp_problem) : List (List Nat) :=
  read_loop 0 p.S (List.replicate p.num_elements [])

/-! ## Pieces shared by `scp_grasp::run` and `scp_repair::run` -/

/-- One turn of the first loop of `run` on `c_min`: `if ( _c[i] < c_min ) c_min = _c[i]`. -/
def c_min_step (c : List ℚ) (c_min : Option ℚ) (i : Nat) : Option ℚ :=
  match c_min with
  | none => some (c.getD i 0)
  | some a => if c.getD i 0 < a then some (c.getD i 0) else some a

/-- The value of `c_min` after the first loop of `run`. -/
def c_min_of (c : List ℚ) (m : Nat) : Option ℚ :=
  (List.range m).foldl (c_min_step c) none

/-- The vector `u` after the first loop of `run`: `u[i] = _T[i].size()`. -/
def u_init (T : List (List Nat)) (m : Nat) : List Int :=
  (List.range m).map (fun i => ((T.getD i []).length : Int))

/-- The entry `e[i]` of the score vector: `u[i] / (1 + _c[i] - c_min)` for a candidate, else `0`,
in exact arithmetic (`e_at_fl` is the quotient in `double`). With `c_min` still infinite the
quotient is a zero. -/
def e_at (c : List ℚ) (c_min : Option ℚ) (u : List Int) (i : Nat) : ℚ :=
  if vget u i > 0 then
    match c_min with
    | some a => (vget u i : ℚ) / (1 + c.getD i 0 - a)
    | none => 0
  else 0

/-- One turn of the loop computing `e_min` and `e_max`. -/
def e_bounds_step (c : List ℚ) (c_min : Option ℚ) (u : List Int) (b : ℚ × ℚ) (i : Nat) : ℚ × ℚ :=
  if vget u i > 0 then
    if i > 0 then
      (if e_at c c_min u i < b.1 then e_at c c_min u i else b.1,
       if e_at c c_min u i > b.2 then e_at c c_min u i else b.2)
    else (e_at c c_min u i, e_at c c_min u i)
  else b

/-- The pair `(e_min, e_max)` after the scoring loop, both starting from `0`. -/
def e_bounds (c : List ℚ) (c_min : Option ℚ) (u : List Int) (m : Nat) : ℚ × ℚ :=
  (List.range m).foldl (e_bounds_step c c_min u) (0, 0)

/-- The threshold `e_limit = e_min + alpha * ( e_max - e_min )`, in exact arithmetic
(`e_limit_fl` is the threshold in `double`). -/
def e_limit (alpha : ℚ) (b : ℚ × ℚ) : ℚ := b.1 + alpha * (b.2 - b.1)

/-- The restricted candidate list: items with `u[i] > 0 && e[i] + epsilon >= e_limit`, ascending. -/
def build_rcl (c : List ℚ) (c_min : Option ℚ) (alpha epsilon : ℚ) (u : List Int) (m : Nat) :
    List Nat :=
  (List.range m).filter (fun i =>
    decide (vget u i > 0) &&
      decide (e_at c c_min u i + epsilon ≥ e_limit alpha (e_bounds c c_min u m)))

/-- The inner loop of `_add`: `--u[*it]` for every member of `_S[j]`. -/
def u_release (S : List (List Nat)) (u : List Int) (j : Nat) : List Int :=
  (S.getD j []).foldl (fun u it => vadd u it (-1)) u

/-- One turn of the loop of `_add` over `_T[i]`, on the triple `(n, u, v)`. -/
def add_step (S : List (List Nat)) (a : Int × List Int × List Int) (jt : Nat) :
    Int × List Int × List Int :=
  if vget a.2.2 jt = 0 then (a.1 + 1, u_release S a.2.1 jt, vadd a.2.2 jt 1)
  else (a.1, a.2.1, vadd a.2.2 jt 1)

/-- The loop of `_add` over `_T[i]`: the returned count and the updated `u`, `v`. -/
def add_loop (S T : List (List Nat)) (i : Nat) (u v : List Int) : Int × List Int × List Int :=
  (T.getD i []).foldl (add_step S) (0, u, v)

/-! ## scp_grasp -/

/-- The object `scp_grasp`: parameters, the instance as read, the selection and its cost. -/
structure scp_grasp where
  alpha : ℚ
  epsilon : ℚ
  _c : List ℚ
  _S : List (List Nat)
  _T : List (List Nat)
  _x : List Nat
  _z : ℚ
  deriving DecidableEq

/-- The constructor `scp_grasp( a, eps )`. -/
def scp_grasp.init (a eps : ℚ) : scp_grasp :=
  { alpha := a, epsilon := eps, _c := [], _S := [], _T := [], _x := [], _z := 0 }

/-- The member `read( instance )`. -/
def scp_grasp.read (g : scp_grasp) (p : scp_problem) : scp_grasp :=
  { g with _c := p.c, _S := p.S, _T := read_T p }

/-- The member `_add( i, u, v )`: the object, the returned count, `u` and `v` afterwards. -/
def scp_grasp._add (g : scp_grasp) (i : Nat) (u v : List Int) :
    scp_grasp × Int × List Int × List Int :=
  ({ g with _x := set_insert i g._x, _z := g._z + g._c.getD i 0 }, add_loop g._S g._T i u v)

/-- The selection loop `while ( num_covered < n )` of `scp_grasp::run`. The answer holds the
returned boolean, the object and the position reached in the stream of draws. -/
def scp_grasp.loop (draws : Nat → Nat) (c_min : Option ℚ) :
    Nat → scp_grasp → List Int → List Int → Int → Nat → Option (Bool × scp_grasp × Nat)
  | 0, g, _, _, num_covered, t =>
    if num_covered < (g._S.length : Int) then none else some (true, g, t)
  | fuel + 1, g, u, v, num_covered, t =>
    if num_covered < (g._S.length : Int) then
      let rcl := build_rcl g._c c_min g.alpha g.epsilon u g._T.length
      if rcl.isEmpty then some (false, g, t)
      else
        let k := rcl.getD (draws t % rcl.length) 0
        let r := g._add k u v
        scp_grasp.loop draws c_min fuel r.1 r.2.2.1 r.2.2.2 (num_covered + r.2.1) (t + 1)
    else some (true, g, t)

/-- The score `e[i]` computed by a turn of the selection loop of `scp_grasp::run` in the
state `u`, with `c_min` as the first loop of `run` leaves it. -/
def scp_grasp.score (g : scp_grasp) (u : List Int) (i : Nat) : ℚ :=
  e_at g._c (c_min_of g._c g._T.length) u i

/-- The pair `(e_min, e_max)` computed by a turn of the selection loop of `scp_grasp::run`
in the state `u`. -/
def scp_grasp.bounds (g : scp_grasp) (u : List Int) : ℚ × ℚ :=
  e_bounds g._c (c_min_of g._c g._T.length) u g._T.length

/-- The threshold `e_limit` computed by a turn of the selection loop of `scp_grasp::run` in
the state `u`. -/
def scp_grasp.limit (g : scp_grasp) (u : List Int) : ℚ :=
  e_limit g.alpha (e_bounds g._c (c_min_of g._c g._T.length) u g._T.length)

/-- The list `rcl` built by a turn of the selection loop of `scp_grasp::run` in the state
`u`. -/
def scp_grasp.rcl (g : scp_grasp) (u : List Int) : List Nat :=
  build_rcl g._c (c_min_of g._c g._T.length) g.alpha g.epsilon u g._T.length

/-- The member `run()`. -/
def scp_grasp.run (g : scp_grasp) (draws : Nat → Nat) (fuel : Nat) :
    Option (Bool × scp_grasp × Nat) :=
  scp_grasp.loop draws (c_min_of g._c g._T.length) fuel { g with _z := 0, _x := [] }
    (u_init g._T g._T.length) (List.replicate g._S.length 0) 0 0

/-- The states `(object, u, v, num_covered)` in which the test `num_covered < n` of the
selection loop of `scp_grasp::run` is evaluated, in order: the loop of `scp_grasp.loop` with
every state it passes through recorded, for at most `fuel` picks. -/
def scp_grasp.visited (draws : Nat → Nat) (c_min : Option ℚ) :
    Nat → scp_grasp → List Int → List Int → Int → Nat →
      List (scp_grasp × List Int × List Int × Int)
  | 0, g, u, v, num_covered, _ => [(g, u, v, num_covered)]
  | fuel + 1, g, u, v, num_covered, t =>
    (g, u, v, num_covered) ::
      (if num_covered < (g._S.length : Int) then
        let rcl := build_rcl g._c c_min g.alpha g.epsilon u g._T.length
        if rcl.isEmpty then []
        else
          let k := rcl.getD (draws t % rcl.length) 0
          let r := g._add k u v
          scp_grasp.visited draws c_min fuel r.1 r.2.2.1 r.2.2.2 (num_covered + r.2.1) (t + 1)
      else [])

/-- The states visited by the selection loop in a call of `run()`. -/
def scp_grasp.run_visited (g : scp_grasp) (draws : Nat → Nat) (fuel : Nat) :
    List (scp_grasp × List Int × List Int × Int) :=
  scp_grasp.visited draws (c_min_of g._c g._T.length) fuel { g with _z := 0, _x := [] }
    (u_init g._T g._T.length) (List.replicate g._S.length 0) 0 0

/-! ## The construction with every access tested -/

/-- A loop whose body may fault: `none` as soon as one turn answers `none`. -/
def foldl_checked {α β : Type} (f : β → α → Option β) : β → List α → Option β
  | b, [] => some b
  | b, a :: l => (f b a).bind fun b' => foldl_checked f b' l

/-- Read access `v[j]` with the index tested: `none` when `j` is not below `v.size()`. -/
def vget_checked (v : List Int) (j : Nat) : Option Int :=
  if j < v.length then some (vget v j) else none

/-- Update `v[j] += d` with the index tested. -/
def vadd_checked (v : List Int) (j : Nat) (d : Int) : Option (List Int) :=
  if j < v.length then some (vadd v j d) else none

/-- The inner loop of `_add` with the accesses `_S[j]` and `u[*it]` tested. -/
def u_release_checked (S : List (List Nat)) (u : List Int) (j : Nat) : Option (List Int) :=
  if j < S.length then foldl_checked (fun u it => vadd_checked u it (-1)) u (S.getD j [])
  else none

/-- One turn of the loop of `_add` with the accesses `v[*jt]`, `_S[*jt]`, `u[*it]` tested. -/
def add_step_checked (S : List (List Nat)) (a : Int × List Int × List Int) (jt : Nat) :
    Option (Int × List Int × List Int) :=
  (vget_checked a.2.2 jt).bind fun vj =>
    if vj = 0 then
      (u_release_checked S a.2.1 jt).bind fun u' =>
        (vadd_checked a.2.2 jt 1).map fun v' => (a.1 + 1, u', v')
    else (vadd_checked a.2.2 jt 1).map fun v' => (a.1, a.2.1, v')

/-- The loop of `_add` over `_T[i]` with the access `_T[i]` tested. -/
def add_loop_checked (S T : List (List Nat)) (i : Nat) (u v : List Int) :
    Option (Int × List Int × List Int) :=
  if i < T.length then foldl_checked (add_step_checked S) (0, u, v) (T.getD i []) else none

/-- The member `_add( i, u, v )` with the accesses `_c[i]`, `_T[i]`, `v[*jt]`, `_S[*jt]`
and `u[*it]` tested. -/
def scp_grasp._add_checked (g : scp_grasp) (i : Nat) (u v : List Int) :
    Option (scp_grasp × Int × List Int × List Int) :=
  if i < g._c.length then
    (add_loop_checked g._S g._T i u v).map fun r =>
      (({ g with _x := set_insert i g._x, _z := g._z + g._c.getD i 0 } : scp_grasp), r)
  else none

/-- One turn of the first loop of `run` on the pair `(u, c_min)`, with the accesses `u[i]`,
`_T[i]` and `_c[i]` tested. -/
def init_step_checked (c : List ℚ) (T : List (List Nat)) (a : List Int × Option ℚ) (i : Nat) :
    Option (List Int × Option ℚ) :=
  if i < a.1.length ∧ i < T.length ∧ i < c.length then
    some (a.1.set i ((T.getD i []).length : Int), c_min_step c a.2 i)
  else none

/-- The first loop of `run`, from `u( m, 0 )` and `c_min` infinite. -/
def init_checked (c : List ℚ) (T : List (List Nat)) (m : Nat) : Option (List Int × Option ℚ) :=
  foldl_checked (init_step_checked c T) (List.replicate m 0, none) (List.range m)

/-- The quotient `double( u[i] ) / ( 1 + _c[i] - c_min )` with the access `_c[i]` and the
divisor tested: `none` when `i` is not an index of `_c` or the divisor is zero. -/
def score_checked (c : List ℚ) (c_min : Option ℚ) (ui : Int) (i : Nat) : Option ℚ :=
  if i < c.length then
    match c_min with
    | some a => if 1 + c.getD i 0 - a = 0 then none else some ((ui : ℚ) / (1 + c.getD i 0 - a))
    | none => some 0
  else none

/-- One turn of the scoring loop on `(e, (e_min, e_max))`, with the accesses `u[i]`, `_c[i]`,
`e[i]` and the divisor tested. -/
def score_step_checked (c : List ℚ) (c_min : Option ℚ) (u : List Int)
    (a : List ℚ × ℚ × ℚ) (i : Nat) : Option (List ℚ × ℚ × ℚ) :=
  (vget_checked u i).bind fun ui =>
    if ui > 0 then
      (score_checked c c_min ui i).bind fun ei =>
        if i < a.1.length then
          some (a.1.set i ei,
            if i > 0 then
              (if ei < a.2.1 then ei else a.2.1, if ei > a.2.2 then ei else a.2.2)
            else (ei, ei))
        else none
    else some a

/-- One turn of the loop filling `rcl`, with the accesses `u[i]` and `e[i]` tested. -/
def rcl_step_checked (u : List Int) (e : List ℚ) (epsilon lim : ℚ) (rcl : List Nat) (i : Nat) :
    Option (List Nat) :=
  (vget_checked u i).bind fun ui =>
    if ui > 0 then
      if i < e.length then some (if e.getD i 0 + epsilon ≥ lim then rcl ++ [i] else rcl)
      else none
    else some rcl

/-- The list `rcl` of a turn of the selection loop: `e( m, 0 )`, the scoring loop, the
threshold, the loop filling `rcl`; every access tested. -/
def rcl_checked (c : List ℚ) (c_min : Option ℚ) (alpha epsilon : ℚ) (u : List Int) (m : Nat) :
    Option (List Nat) :=
  (foldl_checked (score_step_checked c c_min u) (List.replicate m 0, 0, 0) (List.range m)).bind
    fun a => foldl_checked (rcl_step_checked u a.1 epsilon (e_limit alpha a.2)) [] (List.range m)

/-- The selection loop of `scp_grasp::run` with every access tested. The outer `none` is a
fault (an index out of bounds, a division or a remainder by zero); the inner answer is
that of `scp_grasp.loop`. -/
def scp_grasp.loop_checked (draws : Nat → Nat) (c_min : Option ℚ) :
    Nat → scp_grasp → List Int → List Int → Int → Nat →
      Option (Option (Bool × scp_grasp × Nat))
  | 0, g, _, _, num_covered, t =>
    if num_covered < (g._S.length : Int) then some none else some (some (true, g, t))
  | fuel + 1, g, u, v, num_covered, t =>
    if num_covered < (g._S.length : Int) then
      (rcl_checked g._c c_min g.alpha g.epsilon u g._T.length).bind fun rcl =>
        if rcl.isEmpty then some (some (false, g, t))
        else if rcl.length ≠ 0 ∧ draws t % rcl.length < rcl.length then
          (g._add_checked (rcl.getD (draws t % rcl.length) 0) u v).bind fun r =>
            scp_grasp.loop_checked draws c_min fuel r.1 r.2.2.1 r.2.2.2 (num_covered + r.2.1)
              (t + 1)
        else none
    else some (some (true, g, t))

/-- The member `run()` with every access tested. -/
def scp_grasp.run_checked (g : scp_grasp) (draws : Nat → Nat) (fuel : Nat) :
    Option (Option (Bool × scp_grasp × Nat)) :=
  (init_checked g._c g._T g._T.length).bind fun a =>
    scp_grasp.loop_checked draws a.2 fuel { g with _z := 0, _x := [] } a.1
      (List.replicate g._S.length 0) 0 0

/-! ## scp_repair -/

/-- The object `scp_repair`. -/
structure scp_repair where
  alpha : ℚ
  epsilon : ℚ
  _c : List ℚ
  _S : List (List Nat)
  _T : List (List Nat)
  _x : List Nat
  _z : ℚ
  deriving DecidableEq

/-- The constructor `scp_repair( eps )`: `alpha` starts at `1`. -/
def scp_repair.init (eps : ℚ) : scp_repair :=
  { alpha := 1, epsilon := eps, _c := [], _S := [], _T := [], _x := [], _z := 0 }

/-- The member `read( instance )`. -/
def scp_repair.read (r : scp_repair) (p : scp_problem) : scp_repair :=
  { r with _c := p.c, _S := p.S, _T := read_T p }

/-- The member `read( x )`. -/
def scp_repair.read_x (r : scp_repair) (x : List Nat) : scp_repair :=
  { r with _x := x }

/-- The member `_add( i, u, v )`: it adds the cost and updates `u`, `v`, and leaves `_x` alone.
The sum `_z += _c[i]` is exact (`scp_repair.run_fl` accumulates `_z` in `double`). -/
def scp_repair._add (r : scp_repair) (i : Nat) (u v : List Int) :
    scp_repair × Int × List Int × List Int :=
  ({ r with _z := r._z + r._c.getD i 0 }, add_loop r._S r._T i u v)

/-- One turn of the loop of `scp_repair::run` over the seed: `num_covered += _add( *it, u, v )`. -/
def scp_repair.seed_step (a : scp_repair × List Int × List Int × Int) (it : Nat) :
    scp_repair × List Int × List Int × Int :=
  let r := a.1._add it a.2.1 a.2.2.1
  (r.1, r.2.2.1, r.2.2.2, a.2.2.2 + r.2.1)

/-- The selection loop `while ( num_covered < n )` of `scp_repair::run`. -/
def scp_repair.loop (draws : Nat → Nat) (c_min : Option ℚ) :
    Nat → scp_repair → List Int → List Int → Int → Nat → Option (Bool × scp_repair × Nat)
  | 0, r, _, _, num_covered, t =>
    if num_covered < (r._S.length : Int) then none else some (true, r, t)
  | fuel + 1, r, u, v, num_covered, t =>
    if num_covered < (r._S.length : Int) then
      let rcl := build_rcl r._c c_min r.alpha r.epsilon u r._T.length
      if rcl.isEmpty then some (false, r, t)
      else
        let k := rcl.getD (draws t % rcl.length) 0
        let a := ({ r with _x := set_insert k r._x } : scp_repair)._add k u v
        scp_repair.loop draws c_min fuel a.1 a.2.2.1 a.2.2.2 (num_covered + a.2.1) (t + 1)
    else some (true, r, t)

/-- The state `(object, u, v, num_covered)` of `scp_repair::run` when the selection loop is
entered: `_z` reset, `u` initialised, then `_add` applied to every member of the seed `_x`. -/
def scp_repair.seeded (r : scp_repair) : scp_repair × List Int × List Int × Int :=
  r._x.foldl scp_repair.seed_step
    ({ r with _z := 0 }, u_init r._T r._T.length, List.replicate r._S.length 0, 0)

/-- The member `run()`. -/
def scp_repair.run (r : scp_repair) (draws : Nat → Nat) (fuel : Nat) :
    Option (Bool × scp_repair × Nat) :=
  scp_repair.loop draws (c_min_of r._c r._T.length) fuel r.seeded.1 r.seeded.2.1 r.seeded.2.2.1
    r.seeded.2.2.2 0

/-- The states `(object, u, v, num_covered)` in which the test `num_covered < n` of the
selection loop of `scp_repair::run` is evaluated, in order. -/
def scp_repair.visited (draws : Nat → Nat) (c_min : Option ℚ) :
    Nat → scp_repair → List Int → List Int → Int → Nat →
      List (scp_repair × List Int × List Int × Int)
  | 0, r, u, v, num_covered, _ => [(r, u, v, num_covered)]
  | fuel + 1, r, u, v, num_covered, t =>
    (r, u, v, num_covered) ::
      (if num_covered < (r._S.length : Int) then
        let rcl := build_rcl r._c c_min r.alpha r.epsilon u r._T.length
        if rcl.isEmpty then []
        else
          let k := rcl.getD (draws t % rcl.length) 0
          let a := ({ r with _x := set_insert k r._x } : scp_repair)._add k u v
          scp_repair.visited draws c_min fuel a.1 a.2.2.1 a.2.2.2 (num_covered + a.2.1) (t + 1)
      else [])

/-- The states visited by the selection loop in a call of `run()`. -/
def scp_repair.run_visited (r : scp_repair) (draws : Nat → Nat) (fuel : Nat) :
    List (scp_repair × List Int × List Int × Int) :=
  scp_repair.visited draws (c_min_of r._c r._T.length) fuel r.seeded.1 r.seeded.2.1
    r.seeded.2.2.1 r.seeded.2.2.2 0

/-! ## scp_local_search -/

/-- The object `scp_local_search`. -/
structure scp_local_search where
  _c : List ℚ
  _S : List (List Nat)
  _T : List (List Nat)
  _x : List Nat
  _z : ℚ
  deriving DecidableEq

/-- The flag `_1_0 = (1 << 0)`. -/
def scp_local_search._1_0 : Nat := 1 <<< 0

/-- The flag `_1_1 = (1 << 1)`. -/
def scp_local_search._1_1 : Nat := 1 <<< 1

/-- The flag `_2_1 = (1 << 2)`. -/
def scp_local_search._2_1 : Nat := 1 <<< 2

/-- The constructor `scp_local_search()`. -/
def scp_local_search.init : scp_local_search :=
  { _c := [], _S := [], _T := [], _x := [], _z := 0 }

/-- The member `read( instance )`. -/
def scp_local_search.read (ls : scp_local_search) (p : scp_problem) : scp_local_search :=
  { ls with _c := p.c, _S := p.S, _T := read_T p }

/-- The member `read( x )`. -/
def scp_local_search.read_x (ls : scp_local_search) (x : List Nat) : scp_local_search :=
  { ls with _x := x }

/-- The loop `for jt in _T[i]: v[jt] += d` (`d` is `1` for `++`, `-1` for `--`). -/
def v_shift (T : List (List Nat)) (d : Int) (v : List Int) (i : Nat) : List Int :=
  (T.getD i []).foldl (fun v jt => vadd v jt d) v

/-- One turn of the first loop of `run`: `_z += _c[*it]` and `++v[*jt]` over `_T[*it]`. -/
def ls_init_step (c : List ℚ) (T : List (List Nat)) (a : ℚ × List Int) (it : Nat) :
    ℚ × List Int :=
  (a.1 + c.getD it 0, v_shift T 1 a.2 it)

/-- The flag `is_useless` after the test loop of `run_1_0`: no `jt` in `_T[*it]` has `v[jt] <= 1`. -/
def is_useless (T : List (List Nat)) (v : List Int) (it : Nat) : Bool :=
  (T.getD it []).all (fun jt => !decide (vget v jt ≤ 1))

/-- One turn of the loop of `run_1_0` over the selection. -/
def run_1_0_step (a : scp_local_search × List Int) (it : Nat) : scp_local_search × List Int :=
  if is_useless a.1._T a.2 it then
    ({ a.1 with _z := a.1._z - a.1._c.getD it 0, _x := a.1._x.erase it }, v_shift a.1._T (-1) a.2 it)
  else a

/-- The member `run_1_0( v )`: one pass over the selection in ascending order. -/
def scp_local_search.run_1_0 (ls : scp_local_search) (v : List Int) :
    scp_local_search × List Int :=
  ls._x.foldl run_1_0_step (ls, v)

/-- The call `std::includes( a.begin(), a.end(), b.begin(), b.end() )` on two sets. -/
def includes (a b : List Nat) : Bool := b.all (fun j => a.contains j)

/-- The set `to_cover` of `run_1_1`: the members `jt` of `_T[*it]` with `v[jt] <= 1`. -/
def to_cover_1 (T : List (List Nat)) (v : List Int) (it : Nat) : List Nat :=
  (T.getD it []).filter (fun jt => decide (vget v jt ≤ 1))

/-- The test of `run_1_1` on the candidate `i` against the selected `it`. -/
def cond_1_1 (ls : scp_local_search) (v : List Int) (it i : Nat) : Bool :=
  decide (ls._c.getD i 0 - ls._c.getD it 0 < 0) && !ls._x.contains i &&
    includes (ls._T.getD i []) (to_cover_1 ls._T v it)

/-- One scan of `run_1_1`: the first pair `(it, i)`, `it` ascending in `_x` and then `i`
ascending in `[0, m)`, that passes the test; `none` when the scan ends with `improved` false. -/
def find_1_1 (ls : scp_local_search) (v : List Int) : Option (Nat × Nat) :=
  ls._x.findSome? (fun it =>
    ((List.range ls._T.length).find? (cond_1_1 ls v it)).map (fun i => (it, i)))

/-- The exchange of `run_1_1`: `it` leaves, `i` enters. The update `_z += _c[i] - _c[*it]` is
exact (`z_swap_1_1_fl` is the update in `double`). -/
def apply_1_1 (ls : scp_local_search) (v : List Int) (it i : Nat) :
    scp_local_search × List Int :=
  ({ ls with _z := ls._z + (ls._c.getD i 0 - ls._c.getD it 0),
             _x := set_insert i (ls._x.erase it) },
   v_shift ls._T 1 (v_shift ls._T (-1) v it) i)

/-- The member `run_1_1( v )`: scans restarted after every exchange, until a scan finds none.
An exchange erases `it` and sets `improved`; the header of the loop over `it` then applies
`++it` to the erased iterator, which the standard leaves undefined
(`scp_local_search.run_1_1_strict`). This definition follows the execution in which that
increment has no effect: the test `!improved` ends the loop and the next turn of the
`while` loop scans from `_x.begin()`. -/
def scp_local_search.run_1_1 :
    Nat → scp_local_search → List Int → Option (scp_local_search × List Int)
  | 0, ls, v =>
    match find_1_1 ls v with
    | none => some (ls, v)
    | some _ => none
  | fuel + 1, ls, v =>
    match find_1_1 ls v with
    | none => some (ls, v)
    | some p =>
      scp_local_search.run_1_1 fuel (apply_1_1 ls v p.1 p.2).1 (apply_1_1 ls v p.1 p.2).2

/-- The pairs `(*it, *jt)` visited by `run_2_1`: `it` ascending, `jt` after `it`. -/
def pairs : List Nat → List (Nat × Nat)
  | [] => []
  | a :: l => l.map (fun b => (a, b)) ++ pairs l

/-- The vector `v_ij` of `run_2_1`: `v` decremented over `_T[*it]` and over `_T[*jt]`. -/
def v_without (T : List (List Nat)) (v : List Int) (it jt : Nat) : List Int :=
  v_shift T (-1) (v_shift T (-1) v it) jt

/-- The set `to_cover` of `run_2_1`: every `j` in `[0, n)` with `v_ij[j] <= 0`. -/
def to_cover_2 (n : Nat) (v_ij : List Int) : List Nat :=
  (List.range n).filter (fun j => decide (vget v_ij j ≤ 0))

/-- The test of `run_2_1` on the candidate `i` against the selected pair. -/
def cond_2_1 (ls : scp_local_search) (v : List Int) (it jt i : Nat) : Bool :=
  decide (ls._c.getD i 0 - ls._c.getD it 0 - ls._c.getD jt 0 < 0) && !ls._x.contains i &&
    includes (ls._T.getD i []) (to_cover_2 ls._S.length (v_without ls._T v it jt))

/-- One scan of `run_2_1`: the first triple `(it, jt, i)` that passes the test. -/
def find_2_1 (ls : scp_local_search) (v : List Int) : Option (Nat × Nat × Nat) :=
  (pairs ls._x).findSome? (fun p =>
    ((List.range ls._T.length).find? (cond_2_1 ls v p.1 p.2)).map (fun i => (p.1, p.2, i)))

/-- The exchange of `run_2_1`: `it` and `jt` leave, `i` enters, `v` becomes `v_ij` plus `_T[i]`.
The update `_z += _c[i] - _c[*it] - _c[*jt]` is exact. -/
def apply_2_1 (ls : scp_local_search) (v : List Int) (it jt i : Nat) :
    scp_local_search × List Int :=
  ({ ls with _z := ls._z + (ls._c.getD i 0 - ls._c.getD it 0 - ls._c.getD jt 0),
             _x := set_insert i ((ls._x.erase it).erase jt) },
   v_shift ls._T 1 (v_without ls._T v it jt) i)

/-- The member `run_2_1( v )`: as `run_1_1`. An exchange erases `it` and `jt` and sets
`improved`; the headers of the loops over `jt` and over `it` then increment the erased
iterators, which the standard leaves undefined (`scp_local_search.run_2_1_strict`). This
definition follows the execution in which these increments have no effect: the tests
`!improved` end the loops and the next turn of the `while` loop scans the pairs from
`_x.begin()`. -/
def scp_local_search.run_2_1 :
    Nat → scp_local_search → List Int → Option (scp_local_search × List Int)
  | 0, ls, v =>
    match find_2_1 ls v with
    | none => some (ls, v)
    | some _ => none
  | fuel + 1, ls, v =>
    match find_2_1 ls v with
    | none => some (ls, v)
    | some p =>
      scp_local_search.run_2_1 fuel (apply_2_1 ls v p.1 p.2.1 p.2.2).1
        (apply_2_1 ls v p.1 p.2.1 p.2.2).2

/-- The state `(object, v)` of `run` after its first loop. -/
def scp_local_search.start (ls : scp_local_search) : scp_local_search × List Int :=
  let a := ls._x.foldl (ls_init_step ls._c ls._T) (0, List.replicate ls._S.length 0)
  ({ ls with _z := a.1 }, a.2)

/-- The member `run( exchanges )`: the returned boolean and the object. -/
def scp_local_search.run (ls : scp_local_search) (exchanges : Nat) (fuel : Nat) :
    Option (Bool × scp_local_search) :=
  let s0 := ls.start
  let s1 := if exchanges &&& scp_local_search._1_0 ≠ 0 then s0.1.run_1_0 s0.2 else s0
  (if exchanges &&& scp_local_search._1_1 ≠ 0 then scp_local_search.run_1_1 fuel s1.1 s1.2
    else some s1).bind fun s2 =>
  (if exchanges &&& scp_local_search._2_1 ≠ 0 then scp_local_search.run_2_1 fuel s2.1 s2.2
    else some s2).bind fun s3 =>
  some (true, s3.1)

/-! ## The exchange loops under the iterator rules of the C++ standard -/

/-- The member `run_1_1( v )` under the rules of the standard, `none` standing for
undefined behaviour. A scan that finds no exchange leaves `improved` false and the member
returns. An exchange calls `_x.erase( it )` and sets `improved`; the loop over `i` ends,
and the header of the loop over `it` then applies `++it` to the iterator just erased,
before its test `!improved` is evaluated: the increment of an invalidated iterator is
undefined. -/
def scp_local_search.run_1_1_strict (ls : scp_local_search) (v : List Int) :
    Option (scp_local_search × List Int) :=
  match find_1_1 ls v with
  | none => some (ls, v)
  | some _ => none

/-- The member `run_2_1( v )` under the rules of the standard, `none` standing for
undefined behaviour. An exchange calls `_x.erase( it )`, `_x.erase( jt )` and sets
`improved`; the loop over `i` ends, and the header of the loop over `jt` then applies
`++jt` to the iterator just erased (and, next, the header of the loop over `it` applies
`++it` to the other one): the increment of an invalidated iterator is undefined. -/
def scp_local_search.run_2_1_strict (ls : scp_local_search) (v : List Int) :
    Option (scp_local_search × List Int) :=
  match find_2_1 ls v with
  | none => some (ls, v)
  | some _ => none

/-- The member `run( exchanges )` under the rules of the standard: `none` is undefined
behaviour, reached as soon as `run_1_1` or `run_2_1` performs an exchange. -/
def scp_local_search.run_strict (ls : scp_local_search) (exchanges : Nat) :
    Option (Bool × scp_local_search) :=
  let s0 := ls.start
  let s1 := if exchanges &&& scp_local_search._1_0 ≠ 0 then s0.1.run_1_0 s0.2 else s0
  (if exchanges &&& scp_local_search._1_1 ≠ 0 then scp_local_search.run_1_1_strict s1.1 s1.2
    else some s1).bind fun s2 =>
  (if exchanges &&& scp_local_search._2_1 ≠ 0 then scp_local_search.run_2_1_strict s2.1 s2.2
    else some s2).bind fun s3 =>
  some (true, s3.1)

/-! ## The type `double`: IEEE 754 binary64 with round-to-nearest

A `double` is finite (given by the rational it denotes), an infinity or a NaN. Every
operation rounds its exact result to the nearest representable value, a tie going to the
even mantissa; results of magnitude `2^1024 - 2^970` or more overflow to an infinity. The
two zeros are not told apart: a non-zero value divided by zero gives the infinity of the
sign of the dividend. -/

/-- The power `2^e` for an integer exponent `e`. -/
def pow2 (e : Int) : ℚ :=
  if 0 ≤ e then ((2 ^ e.toNat : Nat) : ℚ) else 1 / ((2 ^ (-e).toNat : Nat) : ℚ)

/-- The integer `floor( log2( n ) )` of a natural number `n ≥ 1`, by at most `fuel`
halvings. -/
def log2_nat : Nat → Nat → Nat
  | 0, _ => 0
  | fuel + 1, n => if 2 ≤ n then log2_nat fuel (n / 2) + 1 else 0

/-- The integer `floor( log2( a ) )` of a positive rational `a`. -/
def ilog2 (a : ℚ) : Int :=
  if a < pow2 ((log2_nat a.num.natAbs a.num.natAbs : Int) - (log2_nat a.den a.den : Int)) then
    (log2_nat a.num.natAbs a.num.natAbs : Int) - (log2_nat a.den a.den : Int) - 1
  else (log2_nat a.num.natAbs a.num.natAbs : Int) - (log2_nat a.den a.den : Int)

/-- The integer nearest to a non-negative rational, a tie going to the even one. -/
def round_even (m : ℚ) : Int :=
  if m - (m.floor : ℚ) < 1 / 2 then m.floor
  else if m - (m.floor : ℚ) > 1 / 2 then m.floor + 1
  else if m.floor % 2 = 0 then m.floor else m.floor + 1

/-- The multiple of the unit in the last place nearest to a positive rational `a`: the
unit is `2^(e - 52)` with `e = floor( log2( a ) )`, and `2^(-1074)` below `2^(-1022)`. -/
def round_abs (a : ℚ) : ℚ :=
  (round_even (a / pow2 (max (ilog2 a) (-1022) - 52)) : ℚ) * pow2 (max (ilog2 a) (-1022) - 52)

/-- A value of the type `double`. -/
inductive double where
  | fin (q : ℚ)
  | inf (neg : Bool)
  | nan
  deriving DecidableEq

/-- The `double` nearest to a rational: the rounding applied to the exact result of every
operation, and to a decimal number when it is read. -/
def double.round (q : ℚ) : double :=
  if q = 0 then double.fin 0
  else if q < 0 then
    (if round_abs (-q) ≥ pow2 1024 then double.inf true else double.fin (-round_abs (-q)))
  else (if round_abs q ≥ pow2 1024 then double.inf false else double.fin (round_abs q))

/-- The conversion `double( i )` of an `int`. -/
def double.of_int (i : Int) : double := double.round (i : ℚ)

/-- Unary minus. -/
def double.neg : double → double
  | double.fin a => double.fin (-a)
  | double.inf s => double.inf (!s)
  | double.nan => double.nan

/-- The sum `a + b`. -/
def double.add : double → double → double
  | double.fin a, double.fin b => double.round (a + b)
  | double.fin _, double.inf s => double.inf s
  | double.inf s, double.fin _ => double.inf s
  | double.inf s, double.inf t => if s = t then double.inf s else double.nan
  | _, _ => double.nan

/-- The difference `a - b`. -/
def double.sub (a b : double) : double := a.add b.neg

/-- The product `a * b`. -/
def double.mul : double → double → double
  | double.fin a, double.fin b => double.round (a * b)
  | double.fin a, double.inf s =>
    if a = 0 then double.nan else double.inf (xor s (decide (a < 0)))
  | double.inf s, double.fin b =>
    if b = 0 then double.nan else double.inf (xor s (decide (b < 0)))
  | double.inf s, double.inf t => double.inf (xor s t)
  | _, _ => double.nan

/-- The quotient `a / b`. -/
def double.div : double → double → double
  | double.fin a, double.fin b =>
    if b = 0 then (if a = 0 then double.nan else double.inf (decide (a < 0)))
    else double.round (a / b)
  | double.fin _, double.inf _ => double.fin 0
  | double.inf s, double.fin b => double.inf (xor s (decide (b < 0)))
  | _, _ => double.nan

/-- The comparison `a < b`: false as soon as an operand is a NaN. -/
def double.lt : double → double → Bool
  | double.fin a, double.fin b => decide (a < b)
  | double.fin _, double.inf s => !s
  | double.inf s, double.fin _ => s
  | double.inf s, double.inf t => s && !t
  | _, _ => false

/-- The comparison `a <= b`: false as soon as an operand is a NaN. -/
def double.le : double → double → Bool
  | double.fin a, double.fin b => decide (a ≤ b)
  | double.fin _, double.inf s => !s
  | double.inf s, double.fin _ => s
  | double.inf s, double.inf t => s || !t
  | _, _ => false

/-! ## The arithmetic of the heuristics in `double`

The definitions below repeat, with the operations of `double`, the parts of the members
whose result depends on the rounding. A cost `_c[i]`, `alpha` and `epsilon` are the
`double` nearest to the number held by the object. -/

/-- The cost `_c[i]` as a `double`. -/
def cost_fl (c : List ℚ) (i : Nat) : double := double.round (c.getD i 0)

/-- One turn of the first loop of `run` on `c_min`, in `double`. -/
def c_min_step_fl (c : List ℚ) (c_min : double) (i : Nat) : double :=
  if (cost_fl c i).lt c_min then cost_fl c i else c_min

/-- The value of `c_min` after the first loop of `run`, from `+infinity`, in `double`. -/
def c_min_fl (c : List ℚ) (m : Nat) : double :=
  (List.range m).foldl (c_min_step_fl c) (double.inf false)

/-- The divisor `1 + _c[i] - c_min` of a score, in `double`. -/
def divisor_fl (c : List ℚ) (c_min : double) (i : Nat) : double :=
  ((double.fin 1).add (cost_fl c i)).sub c_min

/-- The entry `e[i]`: `double( u[i] ) / ( 1 + _c[i] - c_min )` for a candidate, else `0`. -/
def e_at_fl (c : List ℚ) (c_min : double) (u : List Int) (i : Nat) : double :=
  if vget u i > 0 then (double.of_int (vget u i)).div (divisor_fl c c_min i) else double.fin 0

/-- One turn of the loop computing `e_min` and `e_max`, in `double`. -/
def e_bounds_step_fl (c : List ℚ) (c_min : double) (u : List Int) (b : double × double)
    (i : Nat) : double × double :=
  if vget u i > 0 then
    if i > 0 then
      (if (e_at_fl c c_min u i).lt b.1 then e_at_fl c c_min u i else b.1,
       if b.2.lt (e_at_fl c c_min u i) then e_at_fl c c_min u i else b.2)
    else (e_at_fl c c_min u i, e_at_fl c c_min u i)
  else b

/-- The pair `(e_min, e_max)` after the scoring loop, in `double`. -/
def e_bounds_fl (c : List ℚ) (c_min : double) (u : List Int) (m : Nat) : double × double :=
  (List.range m).foldl (e_bounds_step_fl c c_min u) (double.fin 0, double.fin 0)

/-- The threshold `e_limit = e_min + alpha * ( e_max - e_min )`, in `double`. -/
def e_limit_fl (alpha : double) (b : double × double) : double :=
  b.1.add (alpha.mul (b.2.sub b.1))

/-- The list `rcl`: the items with `u[i] > 0 && e[i] + epsilon >= e_limit`, in `double`. -/
def build_rcl_fl (c : List ℚ) (c_min alpha epsilon : double) (u : List Int) (m : Nat) :
    List Nat :=
  (List.range m).filter (fun i =>
    decide (vget u i > 0) &&
      (e_limit_fl alpha (e_bounds_fl c c_min u m)).le ((e_at_fl c c_min u i).add epsilon))

/-- The selection loop of `scp_grasp::run` with the scores and `_z` in `double`, on the
state `(_x, _z, u, v, num_covered)`. The answer holds the returned boolean, `x()`, `z()`
and the position reached in the stream of draws. -/
def scp_grasp.loop_fl (g : scp_grasp) (draws : Nat → Nat) (c_min : double) :
    Nat → List Nat → double → List Int → List Int → Int → Nat →
      Option (Bool × List Nat × double × Nat)
  | 0, x, z, _, _, num_covered, t =>
    if num_covered < (g._S.length : Int) then none else some (true, x, z, t)
  | fuel + 1, x, z, u, v, num_covered, t =>
    if num_covered < (g._S.length : Int) then
      let rcl := build_rcl_fl g._c c_min (double.round g.alpha) (double.round g.epsilon) u
        g._T.length
      if rcl.isEmpty then some (false, x, z, t)
      else
        let k := rcl.getD (draws t % rcl.length) 0
        let r := add_loop g._S g._T k u v
        scp_grasp.loop_fl g draws c_min fuel (set_insert k x) (z.add (cost_fl g._c k))
          r.2.1 r.2.2 (num_covered + r.1) (t + 1)
    else some (true, x, z, t)

/-- The member `scp_grasp::run()` with the scores and `_z` in `double`. -/
def scp_grasp.run_fl (g : scp_grasp) (draws : Nat → Nat) (fuel : Nat) :
    Option (Bool × List Nat × double × Nat) :=
  g.loop_fl draws (c_min_fl g._c g._T.length) fuel [] (double.fin 0)
    (u_init g._T g._T.length) (List.replicate g._S.length 0) 0 0

/-- One turn of the loop of `scp_repair::run` over the seed, with `_z` in `double`, on
`(_z, u, v, num_covered)`. -/
def scp_repair.seed_step_fl (r : scp_repair) (a : double × List Int × List Int × Int)
    (it : Nat) : double × List Int × List Int × Int :=
  (a.1.add (cost_fl r._c it), (add_loop r._S r._T it a.2.1 a.2.2.1).2.1,
    (add_loop r._S r._T it a.2.1 a.2.2.1).2.2, a.2.2.2 + (add_loop r._S r._T it a.2.1 a.2.2.1).1)

/-- The selection loop of `scp_repair::run` with the scores and `_z` in `double`. -/
def scp_repair.loop_fl (r : scp_repair) (draws : Nat → Nat) (c_min : double) :
    Nat → List Nat → double → List Int → List Int → Int → Nat →
      Option (Bool × List Nat × double × Nat)
  | 0, x, z, _, _, num_covered, t =>
    if num_covered < (r._S.length : Int) then none else some (true, x, z, t)
  | fuel + 1, x, z, u, v, num_covered, t =>
    if num_covered < (r._S.length : Int) then
      let rcl := build_rcl_fl r._c c_min (double.round r.alpha) (double.round r.epsilon) u
        r._T.length
      if rcl.isEmpty then some (false, x, z, t)
      else
        let k := rcl.getD (draws t % rcl.length) 0
        let a := add_loop r._S r._T k u v
        scp_repair.loop_fl r draws c_min fuel (set_insert k x) (z.add (cost_fl r._c k))
          a.2.1 a.2.2 (num_covered + a.1) (t + 1)
    else some (true, x, z, t)

/-- The member `scp_repair::run()` with the scores and `_z` in `double`: `_z` reset, `u`
initialised, `_add` applied to every member of the seed `_x`, then the selection loop. -/
def scp_repair.run_fl (r : scp_repair) (draws : Nat → Nat) (fuel : Nat) :
    Option (Bool × List Nat × double × Nat) :=
  r.loop_fl draws (c_min_fl r._c r._T.length) fuel r._x
    (r._x.foldl r.seed_step_fl
      (double.fin 0, u_init r._T r._T.length, List.replicate r._S.length 0, 0)).1
    (r._x.foldl r.seed_step_fl
      (double.fin 0, u_init r._T r._T.length, List.replicate r._S.length 0, 0)).2.1
    (r._x.foldl r.seed_step_fl
      (double.fin 0, u_init r._T r._T.length, List.replicate r._S.length 0, 0)).2.2.1
    (r._x.foldl r.seed_step_fl
      (double.fin 0, u_init r._T r._T.length, List.replicate r._S.length 0, 0)).2.2.2 0

/-- The objective value `z(x)` accumulated in `double`. -/
def scp_problem.z_fl (p : scp_problem) (x : List Nat) : double :=
  x.foldl (fun obj i => obj.add (cost_fl p.c i)) (double.fin 0)

/-- The acceptance test `check(x, obj, epsilon)` in `double`. -/
def scp_problem.check_obj_fl (p : scp_problem) (x : List Nat) (obj epsilon : double) : Bool :=
  epsilon.neg.le ((p.z_fl x).sub obj) && ((p.z_fl x).sub obj).le epsilon && p.check x

/-- The pair `(_z, v)` of `scp_local_search::run` after its first loop, `_z` in `double`. -/
def scp_local_search.start_fl (ls : scp_local_search) : double × List Int :=
  ls._x.foldl (fun a it => (a.1.add (cost_fl ls._c it), v_shift ls._T 1 a.2 it))
    (double.fin 0, List.replicate ls._S.length 0)

/-- The test of `run_1_1` with the difference `_c[i] - _c[*it]` in `double`. -/
def cond_1_1_fl (ls : scp_local_search) (v : List Int) (it i : Nat) : Bool :=
  ((cost_fl ls._c i).sub (cost_fl ls._c it)).lt (double.fin 0) && !ls._x.contains i &&
    includes (ls._T.getD i []) (to_cover_1 ls._T v it)

/-- One scan of `run_1_1` with the test in `double`. -/
def find_1_1_fl (ls : scp_local_search) (v : List Int) : Option (Nat × Nat) :=
  ls._x.findSome? (fun it =>
    ((List.range ls._T.length).find? (cond_1_1_fl ls v it)).map (fun i => (it, i)))

/-- The update `_z += _c[i] - _c[*it]` of the exchange of `run_1_1`, in `double`. -/
def z_swap_1_1_fl (c : List ℚ) (z : double) (it i : Nat) : double :=
  z.add ((cost_fl c i).sub (cost_fl c it))

/-- The member `run_1_1( v )` with `_z` in `double`, carried next to the object (whose
field `_z` is not read): as `scp_local_search.run_1_1`, with the test and the update of
`_z` in `double`. -/
def scp_local_search.run_1_1_fl :
    Nat → scp_local_search → double → List Int → Option (scp_local_search × double × List Int)
  | 0, ls, z, v =>
    match find_1_1_fl ls v with
    | none => some (ls, z, v)
    | some _ => none
  | fuel + 1, ls, z, v =>
    match find_1_1_fl ls v with
    | none => some (ls, z, v)
    | some p =>
      scp_local_search.run_1_1_fl fuel (apply_1_1 ls v p.1 p.2).1
        (z_swap_1_1_fl ls._c z p.1 p.2) (apply_1_1 ls v p.1 p.2).2

/-! ## The rule of the 1-0 exchange in the words of the specification -/

/-- The number of members of the selection `x` that cover requirement `j`: the items `i` of
`x` with `j` in `_T[i]`. -/
def cover_count (T : List (List Nat)) (x : List Nat) (j : Nat) : Nat :=
  x.countP (fun i => decide (j ∈ T.getD i []))

/-- The 1-0 rule as the specification words it, on the pair (current selection, cost): the
items of the list are visited once, in order; an item is removed exactly when every
requirement it covers is covered by at least two currently selected items, and its cost is
then subtracted. -/
def drop_rule (c : List ℚ) (T : List (List Nat)) : List Nat → List Nat × ℚ → List Nat × ℚ
  | [], s => s
  | it :: rest, s =>
    if (T.getD it []).all (fun j => decide (2 ≤ cover_count T s.1 j)) then
      drop_rule c T rest (s.1.erase it, s.2 - c.getD it 0)
    else drop_rule c T rest s

/-- The residual-benefit bookkeeping in the words of the specification: `u[i]` is the number
of requirements of `_T[i]` covered by no selected item, `v[j]` is the number of selected
items covering `j`, `num_covered` is the number of requirements with `v[j] > 0`, and no
`u[i]` is negative. -/
def residual_ok (S T : List (List Nat)) (x : List Nat) (u v : List Int) (num_covered : Int) :
    Prop :=
  (∀ i, vget u i
    = (((T.getD i []).countP (fun j => decide (∀ k ∈ x, j ∉ T.getD k [])) : Nat) : Int)) ∧
  (∀ j, vget v j = ((x.countP (fun k => decide (j ∈ T.getD k [])) : Nat) : Int)) ∧
  num_covered = (((List.range S.length).countP (fun j => decide (vget v j > 0)) : Nat) : Int) ∧
  ∀ i, 0 ≤ vget u i

/-! ## The objects as the caller sets them up -/

/-- A `scp_grasp` object with `alpha`, `epsilon` set and the instance read. -/
def grasp_object (p : scp_problem) (alpha epsilon : ℚ) : scp_grasp :=
  (scp_grasp.init alpha epsilon).read p

/-- A `scp_repair` object with `alpha`, `epsilon` set, the instance and the seed `x0` read. -/
def repair_object (p : scp_problem) (alpha epsilon : ℚ) (x0 : List Nat) : scp_repair :=
  (({ scp_repair.init epsilon with alpha := alpha } : scp_repair).read p).read_x x0

/-- A `scp_local_search` object with the instance and the selection `x0` read. -/
def ls_object (p : scp_problem) (x0 : List Nat) : scp_local_search :=
  (scp_local_search.init.read p).read_x x0

/-! ## Instances of the scenarios -/

/-- The three-item instance of the end-to-end scenario. -/
def inst3 : scp_problem :=
  { c := [1, 1, 3], S := [[0, 2], [0, 1, 2], [1, 2]] }

/-- Two requirements, three items: item 2 covers both and costs less than item 0. -/
def inst_swap : scp_problem :=
  { c := [5, 1, 2], S := [[0, 2], [1, 2]] }

/-- One item, two requirements; nothing covers the second requirement. -/
def inst_empty : scp_problem :=
  { c := [1], S := [[0], []] }

/-- Three requirements, five items: item 3 covers all three, item 4 covers nothing. -/
def inst_pair : scp_problem :=
  { c := [4, 4, 2, 6, 1], S := [[0, 3], [1, 3], [2, 3]] }

/-- Four requirements, three items: item 0 covers the first requirement only, item 1 the
second, item 2 the last three at five times the cost. -/
def inst_rcl : scp_problem :=
  { c := [1, 1, 5], S := [[0], [1, 2], [2], [2]] }

/-- One requirement, three items: items 1 and 2 cover it, item 0 is in no set. -/
def inst_gap : scp_problem :=
  { c := [1, 1, 1], S := [[1, 2]] }

/-- Three items of costs 9, 3, 1 and three requirements: item 0 covers the first, item 1
the other two, item 2 none. -/
def inst_round : scp_problem :=
  { c := [9, 3, 1], S := [[0], [1], [1]] }

/-- One item of cost `2^53` covering one requirement. -/
def inst_big : scp_problem :=
  { c := [9007199254740992], S := [[0]] }

/-- One item of cost `0.13` covering one requirement. -/
def inst_cents : scp_problem :=
  { c := [13 / 100], S := [[0]] }

/-- Three items of costs `0.1`, `0.2`, `0.3`, each the only cover of one requirement. -/
def inst_tenths : scp_problem :=
  { c := [1 / 10, 2 / 10, 3 / 10], S := [[0], [1], [2]] }

/-- Two items of cost `2^1023`; item 0 covers the one requirement. -/
def inst_overflow : scp_problem :=
  { c := [pow2 1023, pow2 1023], S := [[0]] }

/-- Three items of costs `0.2`, `0.1`, `0.1`: items 0 and 2 cover the first requirement,
item 1 the second. -/
def inst_fifth : scp_problem :=
  { c := [2 / 10, 1 / 10, 1 / 10], S := [[0, 2], [1]] }


/-! ## Predicates used by the proofs -/

/-- The fields of a `scp_repair` object seen as a `scp_grasp` object (the two classes declare
the same members). -/
def scp_repair.as_grasp (r : scp_repair) : scp_grasp :=
  { alpha := r.alpha, epsilon := r.epsilon, _c := r._c, _S := r._S, _T := r._T,
    _x := r._x, _z := r._z }

/-- The objects hold an instance and its reverse index: `_T` has one set per item, the sets of
`_S` and `_T` are strictly ascending, the members of `_S[j]` are item indices, and
`j ∈ _T[i]` exactly when `j` is a requirement with `i ∈ _S[j]`. -/
structure Indexed (c : List ℚ) (S T : List (List Nat)) : Prop where
  lenT : T.length = c.length
  sortedS : ∀ j, (S.getD j []).Sorted (· < ·)
  sortedT : ∀ i, (T.getD i []).Sorted (· < ·)
  ltS : ∀ j i, i ∈ S.getD j [] → i < c.length
  memT : ∀ i j, j ∈ T.getD i [] ↔ (j < S.length ∧ i ∈ S.getD j [])

/-- The bookkeeping of the selection loops: for the applied items `x`, `v[j]` counts the items
of `x` covering `j`, `u[i]` counts the requirements of `_T[i]` not yet covered, `num_covered`
counts the covered requirements and `z` is the cost of `x`. -/
structure SelInv (c : List ℚ) (S T : List (List Nat)) (x : List Nat) (z : ℚ)
    (u v : List Int) (num_covered : Int) : Prop where
  lenu : u.length = c.length
  lenv : v.length = S.length
  nodup : x.Nodup
  xlt : ∀ i ∈ x, i < c.length
  vcount : ∀ j, vget v j = (cover_count T x j : Int)
  ucount : ∀ i, vget u i = (((T.getD i []).countP (fun j => decide (vget v j = 0)) : Nat) : Int)
  ncount : num_covered = (((List.range S.length).countP (fun j => decide (vget v j > 0)) : Nat) : Int)
  zsum : z = (x.map (fun i => c.getD i 0)).sum

/-- The bookkeeping of the local search: `v[j]` counts the selected items covering `j` and
`z` is the cost of the selection. -/
structure LSInv (c : List ℚ) (S T : List (List Nat)) (x : List Nat) (z : ℚ)
    (v : List Int) : Prop where
  lenv : v.length = S.length
  nodup : x.Nodup
  xlt : ∀ i ∈ x, i < c.length
  vcount : ∀ j, vget v j = (cover_count T x j : Int)
  zsum : z = (x.map (fun i => c.getD i 0)).sum

/-- The number of items strictly cheaper than item `i`. -/
def cheaper_count (c : List ℚ) (i : Nat) : Nat :=
  (List.range c.length).countP (fun k => decide (c.getD k 0 < c.getD i 0))

/-- The measure that every 1-1 exchange decreases: over the selection, the numbers of
strictly cheaper items added up. -/
def swap_potential (c : List ℚ) (x : List Nat) : Nat :=
  (x.map (cheaper_count c)).sum

/-! ## Containers: lemmas -/

theorem length_vadd (v : List Int) (j : Nat) (d : Int) : (vadd v j d).length = v.length := by
  simp [vadd]

theorem vget_of_le (v : List Int) (k : Nat) (h : v.length ≤ k) : vget v k = 0 := by
  unfold vget; exact List.getD_eq_default _ _ h

theorem vget_vadd (v : List Int) (j k : Nat) (d : Int) :
    vget (vadd v j d) k = vget v k + if k = j ∧ k < v.length then d else 0 := by
  unfold vget vadd
  by_cases hk : k < v.length
  · by_cases hj : k = j
    · subst hj
      simp [List.getD_eq_getElem?_getD, List.getElem?_set, hk]
    · have hj2 : j ≠ k := fun h => hj h.symm
      simp [List.getD_eq_getElem?_getD, List.getElem?_set, hj, hj2]
  · have h1 : v.length ≤ k := Nat.le_of_not_lt hk
    have h2 : (v.set j (v.getD j 0 + d)).length ≤ k := by simpa using h1
    rw [List.getD_eq_default _ _ h1, List.getD_eq_default _ _ h2]
    simp [hk]

theorem length_foldl_vadd (d : Int) (L : List Nat) (v : List Int) :
    (L.foldl (fun v j => vadd v j d) v).length = v.length := by
  induction L generalizing v with
  | nil => rfl
  | cons a L ih => simp [List.foldl_cons, ih, length_vadd]

theorem vget_foldl_vadd (d : Int) (L : List Nat) (hnd : L.Nodup) (v : List Int) (k : Nat) :
    vget (L.foldl (fun v j => vadd v j d) v) k
      = vget v k + if k ∈ L ∧ k < v.length then d else 0 := by
  induction L generalizing v with
  | nil => simp
  | cons a L ih =>
    have hnd2 := List.nodup_cons.mp hnd
    rw [List.foldl_cons, ih hnd2.2, vget_vadd, length_vadd]
    by_cases hka : k = a
    · subst hka
      simp [hnd2.1]
    · simp [hka]

theorem mem_set_insert (k a : Nat) (l : List Nat) : a ∈ set_insert k l ↔ a = k ∨ a ∈ l := by
  induction l with
  | nil => simp [set_insert]
  | cons b l ih =>
    unfold set_insert
    split_ifs with h1 h2
    · simp
    · subst h2; simp
    · simp [ih]; tauto

theorem set_insert_perm (k : Nat) (l : List Nat) (h : k ∉ l) : (set_insert k l).Perm (k :: l) := by
  induction l with
  | nil => simp [set_insert]
  | cons b l ih =>
    have hb : k ≠ b := fun e => h (by simp [e])
    have hl : k ∉ l := fun e => h (by simp [e])
    unfold set_insert
    split_ifs with h1
    · exact List.Perm.refl _
    · exact ((ih hl).cons b).trans (List.Perm.swap k b l)

theorem set_insert_of_mem (k : Nat) (l : List Nat) (hs : l.Sorted (· < ·)) (h : k ∈ l) :
    set_insert k l = l := by
  induction l with
  | nil => simp at h
  | cons b l ih =>
    unfold set_insert
    have hs2 := List.sorted_cons.mp hs
    rcases List.mem_cons.mp h with e | e
    · subst e; simp
    · have hb : b < k := hs2.1 k e
      have h1 : ¬ k < b := by omega
      have h2 : ¬ k = b := by omega
      simp [h1, h2, ih hs2.2 e]

theorem sorted_set_insert (k : Nat) (l : List Nat) (hs : l.Sorted (· < ·)) :
    (set_insert k l).Sorted (· < ·) := by
  induction l with
  | nil => simp [set_insert]
  | cons b l ih =>
    have hs2 := List.sorted_cons.mp hs
    unfold set_insert
    split_ifs with h1 h2
    · refine List.sorted_cons.mpr ⟨?_, hs⟩
      intro a ha
      rcases List.mem_cons.mp ha with e | e
      · omega
      · have := hs2.1 a e; omega
    · exact hs
    · refine List.sorted_cons.mpr ⟨?_, ih hs2.2⟩
      intro a ha
      rcases (mem_set_insert k a l).mp ha with e | e
      · omega
      · exact hs2.1 a e

theorem foldl_add_eq_sum (f : Nat → ℚ) (x : List Nat) (a : ℚ) :
    x.foldl (fun obj i => obj + f i) a = a + (x.map f).sum := by
  induction x generalizing a with
  | nil => simp
  | cons b x ih => simp [List.foldl_cons, ih, add_assoc]

/-- The cost of a selection as a sum: `Σ_{i ∈ x} c[i]`. -/
theorem z_eq_sum (p : scp_problem) (x : List Nat) :
    p.z x = (x.map (fun i => p.c.getD i 0)).sum := by
  unfold scp_problem.z
  rw [foldl_add_eq_sum]; simp

theorem check_iff (p : scp_problem) (x : List Nat) :
    p.check x = true ↔ ∀ j, j < p.S.length → ∃ i, i ∈ p.S.getD j [] ∧ i ∈ x := by
  unfold scp_problem.check
  simp only [List.all_eq_true, List.any_eq_true, List.contains_eq_any_beq, List.any_eq_true, beq_iff_eq]
  constructor
  · intro h j hj
    have := h (p.S.getD j []) (by
      rw [List.getD_eq_getElem _ _ hj]; exact List.getElem_mem _)
    simpa using this
  · intro h s hs
    obtain ⟨j, hj, rfl⟩ := List.getElem_of_mem hs
    have := h j hj
    rw [List.getD_eq_getElem _ _ hj] at this
    simpa using this

/-! ## The reverse index: lemmas -/

theorem getD_T_insert (j : Nat) (T : List (List Nat)) (it i : Nat) :
    (T_insert j T it).getD i []
      = if i = it ∧ i < T.length then set_insert j (T.getD i []) else T.getD i [] := by
  unfold T_insert
  by_cases hk : i < T.length
  · by_cases hj : i = it
    · subst hj
      simp [List.getD_eq_getElem?_getD, List.getElem?_set, hk]
    · have hj2 : it ≠ i := fun h => hj h.symm
      simp [List.getD_eq_getElem?_getD, List.getElem?_set, hj, hj2]
  · have h1 : T.length ≤ i := Nat.le_of_not_lt hk
    have h2 : (T.set it (set_insert j (T.getD it []))).length ≤ i := by simpa using h1
    rw [List.getD_eq_default _ _ h1, List.getD_eq_default _ _ h2]
    simp [hk]

theorem length_foldl_T_insert (j : Nat) (s : List Nat) (T : List (List Nat)) :
    (s.foldl (T_insert j) T).length = T.length := by
  induction s generalizing T with
  | nil => rfl
  | cons a s ih => simp [List.foldl_cons, ih, T_insert]

theorem mem_foldl_T_insert (j : Nat) (s : List Nat) (T : List (List Nat)) (i k : Nat) :
    k ∈ (s.foldl (T_insert j) T).getD i []
      ↔ k ∈ T.getD i [] ∨ (k = j ∧ i ∈ s ∧ i < T.length) := by
  induction s generalizing T with
  | nil => simp
  | cons a s ih =>
    have hl : (T_insert j T a).length = T.length := by simp [T_insert]
    rw [List.foldl_cons, ih, getD_T_insert, hl]
    by_cases h : i = a ∧ i < T.length
    · rw [if_pos h, mem_set_insert]
      obtain ⟨h1, h2⟩ := h
      subst h1
      simp [h2]; tauto
    · rw [if_neg h]
      simp only [List.mem_cons]
      constructor
      · rintro (h1 | ⟨h1, h2, h3⟩)
        · exact Or.inl h1
        · exact Or.inr ⟨h1, Or.inr h2, h3⟩
      · rintro (h1 | ⟨h1, h2 | h2, h3⟩)
        · exact Or.inl h1
        · exact absurd ⟨h2, h3⟩ h
        · exact Or.inr ⟨h1, h2, h3⟩

theorem sorted_foldl_T_insert (j : Nat) (s : List Nat) (T : List (List Nat))
    (hT : ∀ i, (T.getD i []).Sorted (· < ·)) (i : Nat) :
    ((s.foldl (T_insert j) T).getD i []).Sorted (· < ·) := by
  induction s generalizing T with
  | nil => exact hT i
  | cons a s ih =>
    rw [List.foldl_cons]
    apply ih
    intro i2
    rw [getD_T_insert]
    split_ifs
    · exact sorted_set_insert _ _ (hT i2)
    · exact hT i2

theorem length_read_loop (j0 : Nat) (rest T : List (List Nat)) :
    (read_loop j0 rest T).length = T.length := by
  induction rest generalizing j0 T with
  | nil => rfl
  | cons s rest ih => simp [read_loop, ih, length_foldl_T_insert]

theorem sorted_read_loop (j0 : Nat) (rest T : List (List Nat))
    (hT : ∀ i, (T.getD i []).Sorted (· < ·)) (i : Nat) :
    ((read_loop j0 rest T).getD i []).Sorted (· < ·) := by
  induction rest generalizing j0 T with
  | nil => exact hT i
  | cons s rest ih =>
    unfold read_loop
    exact ih _ _ (sorted_foldl_T_insert j0 s T hT)

theorem mem_read_loop (j0 : Nat) (rest T : List (List Nat)) (i k : Nat) :
    k ∈ (read_loop j0 rest T).getD i []
      ↔ k ∈ T.getD i [] ∨
        (i < T.length ∧ j0 ≤ k ∧ k - j0 < rest.length ∧ i ∈ rest.getD (k - j0) []) := by
  induction rest generalizing j0 T with
  | nil => simp [read_loop]
  | cons s rest ih =>
    unfold read_loop
    rw [ih, length_foldl_T_insert, mem_foldl_T_insert]
    constructor
    · rintro ((h | ⟨h1, h2, h3⟩) | ⟨h1, h2, h3, h4⟩)
      · exact Or.inl h
      · subst h1
        exact Or.inr ⟨h3, le_refl _, by simp, by simpa using h2⟩
      · refine Or.inr ⟨h1, by omega, by simp; omega, ?_⟩
        have e : k - j0 = (k - (j0 + 1)) + 1 := by omega
        rw [e, List.getD_cons_succ]
        exact h4
    · rintro (h | ⟨h1, h2, h3, h4⟩)
      · exact Or.inl (Or.inl h)
      · by_cases e : k = j0
        · subst e
          simp at h4
          exact Or.inl (Or.inr ⟨rfl, h4, h1⟩)
        · have e2 : k - j0 = (k - (j0 + 1)) + 1 := by omega
          rw [e2, List.getD_cons_succ] at h4
          simp at h3
          exact Or.inr ⟨h1, by omega, by omega, h4⟩

theorem getD_replicate_nil (m i : Nat) : (List.replicate m ([] : List Nat)).getD i [] = [] := by
  by_cases h : i < m
  · rw [List.getD_eq_getElem _ _ (by simpa using h)]; simp
  · exact List.getD_eq_default _ _ (by simpa using h)

theorem mem_of_mem_getD (S : List (List Nat)) (j i : Nat) (h : i ∈ S.getD j []) :
    j < S.length ∧ S.getD j [] ∈ S := by
  by_cases hj : j < S.length
  · refine ⟨hj, ?_⟩
    rw [List.getD_eq_getElem _ _ hj]; exact List.getElem_mem _
  · rw [List.getD_eq_default _ _ (Nat.le_of_not_lt hj)] at h
    simp at h

/-- After `read( instance )` on a well-formed instance the object holds the instance and
its reverse index. -/
theorem indexed_read_T (p : scp_problem) (hwf : p.WellFormed) : Indexed p.c p.S (read_T p) := by
  refine ⟨?_, ?_, ?_, ?_, ?_⟩
  · simp [read_T, length_read_loop, scp_problem.num_elements]
  · intro j
    by_cases hj : j < p.S.length
    · rw [List.getD_eq_getElem _ _ hj]
      exact (hwf _ (List.getElem_mem _)).1
    · rw [List.getD_eq_default _ _ (Nat.le_of_not_lt hj)]; exact List.sorted_nil
  · intro i
    apply sorted_read_loop
    intro i2
    rw [getD_replicate_nil]; exact List.sorted_nil
  · intro j i h
    exact (hwf _ (mem_of_mem_getD _ _ _ h).2).2 i h
  · intro i j
    unfold read_T
    rw [mem_read_loop, getD_replicate_nil]
    simp only [List.not_mem_nil, false_or, Nat.zero_le, true_and, Nat.sub_zero,
      List.length_replicate, scp_problem.num_elements]
    constructor
    · rintro ⟨_, h2, h3⟩; exact ⟨h2, h3⟩
    · rintro ⟨h2, h3⟩
      exact ⟨(hwf _ (mem_of_mem_getD _ _ _ h3).2).2 i h3, h2, h3⟩

/-! ## Counting lemmas -/

theorem countP_split (P Q : Nat → Bool) (L : List Nat) :
    L.countP P = L.countP (fun j => P j && Q j) + L.countP (fun j => P j && !Q j) := by
  induction L with
  | nil => simp
  | cons a L ih =>
    simp only [List.countP_cons, ih]
    cases P a <;> cases Q a <;> simp <;> omega

theorem countP_swap (P : Nat → Bool) (A B : List Nat) (hA : A.Nodup) (hB : B.Nodup) :
    A.countP (fun j => P j && decide (j ∈ B)) = B.countP (fun j => P j && decide (j ∈ A)) := by
  rw [List.countP_eq_length_filter, List.countP_eq_length_filter]
  apply List.Perm.length_eq
  apply (List.perm_ext_iff_of_nodup (hA.filter _) (hB.filter _)).mpr
  intro a
  simp only [List.mem_filter, Bool.and_eq_true, decide_eq_true_eq]
  tauto

theorem vget_u_release (S : List (List Nat)) (u : List Int) (j i : Nat)
    (hS : (S.getD j []).Nodup) :
    vget (u_release S u j) i = vget u i + if i ∈ S.getD j [] ∧ i < u.length then -1 else 0 := by
  unfold u_release
  exact vget_foldl_vadd (-1) _ hS u i

theorem length_u_release (S : List (List Nat)) (u : List Int) (j : Nat) :
    (u_release S u j).length = u.length := by
  unfold u_release
  exact length_foldl_vadd (-1) _ u

/-- The effect of the loop of `_add` over a set `L` of requirements. -/
theorem add_fold_spec (S : List (List Nat)) (hS : ∀ j, (S.getD j []).Nodup)
    (L : List Nat) (hL : L.Nodup) (n0 : Int) (u v : List Int) :
    (L.foldl (add_step S) (n0, u, v)).1
        = n0 + ((L.countP (fun j => decide (vget v j = 0)) : Nat) : Int) ∧
    (L.foldl (add_step S) (n0, u, v)).2.1.length = u.length ∧
    (L.foldl (add_step S) (n0, u, v)).2.2.length = v.length ∧
    (∀ i, vget (L.foldl (add_step S) (n0, u, v)).2.1 i
        = vget u i - ((L.countP (fun j => decide (vget v j = 0) &&
            decide (i ∈ S.getD j [] ∧ i < u.length)) : Nat) : Int)) ∧
    (∀ k, vget (L.foldl (add_step S) (n0, u, v)).2.2 k
        = vget v k + if k ∈ L ∧ k < v.length then 1 else 0) := by
  induction L generalizing n0 u v with
  | nil => simp
  | cons a L ih =>
    have hnd := List.nodup_cons.mp hL
    have hv : ∀ j ∈ L, vget (vadd v a 1) j = vget v j := by
      intro j hj
      have : j ≠ a := fun e => hnd.1 (e ▸ hj)
      simp [vget_vadd, this]
    have hc1 : L.countP (fun j => decide (vget (vadd v a 1) j = 0))
        = L.countP (fun j => decide (vget v j = 0)) := by
      apply List.countP_congr
      intro j hj
      simp [hv j hj]
    rw [List.foldl_cons]
    by_cases h0 : vget v a = 0
    · have hstep : add_step S (n0, u, v) a = (n0 + 1, u_release S u a, vadd v a 1) := by
        simp [add_step, h0]
      rw [hstep]
      obtain ⟨i1, i2, i3, i4, i5⟩ := ih hnd.2 (n0 + 1) (u_release S u a) (vadd v a 1)
      refine ⟨?_, ?_, ?_, ?_, ?_⟩
      · rw [i1, hc1, List.countP_cons]
        simp [h0]; ring
      · rw [i2, length_u_release]
      · rw [i3, length_vadd]
      · intro i
        rw [i4, vget_u_release S u a i (hS a), length_u_release, List.countP_cons]
        have hc2 : L.countP (fun j => decide (vget (vadd v a 1) j = 0) &&
              decide (i ∈ S.getD j [] ∧ i < u.length))
            = L.countP (fun j => decide (vget v j = 0) &&
              decide (i ∈ S.getD j [] ∧ i < u.length)) := by
          apply List.countP_congr
          intro j hj
          simp [hv j hj]
        rw [hc2]
        by_cases hi : i ∈ S.getD a [] ∧ i < u.length
        · have e : (decide (vget v a = 0) && decide (i ∈ S.getD a [] ∧ i < u.length)) = true := by
            rw [decide_eq_true h0, decide_eq_true hi]; rfl
          rw [if_pos hi, if_pos e]; push_cast; ring
        · have e : ¬ (decide (vget v a = 0) && decide (i ∈ S.getD a [] ∧ i < u.length)) = true := by
            rw [decide_eq_false hi]; simp
          rw [if_neg hi, if_neg e]; push_cast; ring
      · intro k
        rw [i5, vget_vadd, length_vadd]
        by_cases hk : k = a
        · subst hk; simp [hnd.1]
        · simp [hk]
    · have hstep : add_step S (n0, u, v) a = (n0, u, vadd v a 1) := by
        simp [add_step, h0]
      rw [hstep]
      obtain ⟨i1, i2, i3, i4, i5⟩ := ih hnd.2 n0 u (vadd v a 1)
      refine ⟨?_, i2, ?_, ?_, ?_⟩
      · rw [i1, hc1, List.countP_cons]
        simp [h0]
      · rw [i3, length_vadd]
      · intro i
        rw [i4, List.countP_cons]
        have hc2 : L.countP (fun j => decide (vget (vadd v a 1) j = 0) &&
              decide (i ∈ S.getD j [] ∧ i < u.length))
            = L.countP (fun j => decide (vget v j = 0) &&
              decide (i ∈ S.getD j [] ∧ i < u.length)) := by
          apply List.countP_congr
          intro j hj
          simp [hv j hj]
        rw [hc2]
        simp [h0]
      · intro k
        rw [i5, vget_vadd, length_vadd]
        by_cases hk : k = a
        · subst hk; simp [hnd.1]
        · simp [hk]

/-! ## The bookkeeping of the selection loops -/

theorem cover_count_cons (T : List (List Nat)) (k : Nat) (x : List Nat) (j : Nat) :
    cover_count T (k :: x) j = cover_count T x j + if j ∈ T.getD k [] then 1 else 0 := by
  unfold cover_count
  rw [List.countP_cons]
  by_cases h : j ∈ T.getD k []
  · rw [if_pos h, if_pos (decide_eq_true h)]
  · rw [if_neg h, if_neg (by rw [decide_eq_false h]; simp)]

theorem cover_count_perm (T : List (List Nat)) (x y : List Nat) (h : x.Perm y) (j : Nat) :
    cover_count T x j = cover_count T y j := by
  unfold cover_count
  exact h.countP_eq _

theorem cover_count_pos (T : List (List Nat)) (x : List Nat) (j : Nat) :
    0 < cover_count T x j ↔ ∃ i, i ∈ x ∧ j ∈ T.getD i [] := by
  unfold cover_count
  rw [List.countP_pos_iff]
  simp

theorem selinv_add (c : List ℚ) (S T : List (List Nat)) (hI : Indexed c S T)
    (x : List Nat) (z : ℚ) (u v : List Int) (nc : Int) (h : SelInv c S T x z u v nc)
    (k : Nat) (hk : k < c.length) (hkx : k ∉ x) (x' : List Nat) (hp : x'.Perm (k :: x)) :
    SelInv c S T x' (z + c.getD k 0) (add_loop S T k u v).2.1 (add_loop S T k u v).2.2
      (nc + (add_loop S T k u v).1) := by
  have hSnd : ∀ j, (S.getD j []).Nodup := fun j => (hI.sortedS j).nodup
  have hTnd : ∀ i, (T.getD i []).Nodup := fun i => (hI.sortedT i).nodup
  obtain ⟨a1, a2, a3, a4, a5⟩ := add_fold_spec S hSnd (T.getD k []) (hTnd k) 0 u v
  have hTn : ∀ j, j ∈ T.getD k [] → j < S.length := fun j hj => ((hI.memT k j).mp hj).1
  have hv0 : ∀ j, 0 ≤ vget v j := fun j => by rw [h.vcount]; exact Int.natCast_nonneg _
  have hv1 : ∀ j, vget (add_loop S T k u v).2.2 j = vget v j + if j ∈ T.getD k [] then 1 else 0 := by
    intro j
    unfold add_loop
    rw [a5]
    by_cases hj : j ∈ T.getD k []
    · have : j < v.length := by rw [h.lenv]; exact hTn j hj
      rw [if_pos ⟨hj, this⟩, if_pos hj]
    · rw [if_neg hj, if_neg (fun e => hj e.1)]
  have hz1 : ∀ j, vget (add_loop S T k u v).2.2 j = 0 ↔ (vget v j = 0 ∧ j ∉ T.getD k []) := by
    intro j
    rw [hv1]
    have := hv0 j
    by_cases hj : j ∈ T.getD k []
    · rw [if_pos hj]; constructor
      · intro e; omega
      · intro e; exact absurd hj e.2
    · rw [if_neg hj, add_zero]; constructor
      · intro e; exact ⟨e, hj⟩
      · intro e; exact e.1
  refine ⟨?_, ?_, ?_, ?_, ?_, ?_, ?_, ?_⟩
  · unfold add_loop; rw [a2]; exact h.lenu
  · unfold add_loop; rw [a3]; exact h.lenv
  · exact hp.nodup_iff.mpr (List.nodup_cons.mpr ⟨hkx, h.nodup⟩)
  · intro i hi
    rcases List.mem_cons.mp (hp.subset hi) with e | e
    · exact e ▸ hk
    · exact h.xlt i e
  · intro j
    rw [hv1, cover_count_perm T x' (k :: x) hp, cover_count_cons, h.vcount]
    push_cast
    by_cases hj : j ∈ T.getD k [] <;> simp [hj]
  · intro i
    have e1 : (T.getD k []).countP (fun j => decide (vget v j = 0) &&
          decide (i ∈ S.getD j [] ∧ i < u.length))
        = (T.getD k []).countP (fun j => decide (vget v j = 0) && decide (j ∈ T.getD i [])) := by
      apply List.countP_congr
      intro j hj
      have hm := hI.memT i j
      have hjn := hTn j hj
      have hlt : i ∈ S.getD j [] → i < u.length := fun e => by
        rw [h.lenu]; exact hI.ltS j i e
      have : (i ∈ S.getD j [] ∧ i < u.length) ↔ j ∈ T.getD i [] := by
        rw [hm]; constructor
        · intro e; exact ⟨hjn, e.1⟩
        · intro e; exact ⟨e.2, hlt e.2⟩
      simp only [Bool.and_eq_true, decide_eq_true_eq, this]
    have e2 := countP_swap (fun j => decide (vget v j = 0)) (T.getD k []) (T.getD i [])
      (hTnd k) (hTnd i)
    have e3 := countP_split (fun j => decide (vget v j = 0)) (fun j => decide (j ∈ T.getD k []))
      (T.getD i [])
    have e4 : (T.getD i []).countP (fun j => decide (vget (add_loop S T k u v).2.2 j = 0))
        = (T.getD i []).countP (fun j => decide (vget v j = 0) && !decide (j ∈ T.getD k [])) := by
      apply List.countP_congr
      intro j _
      simp only [decide_eq_true_eq, Bool.and_eq_true, Bool.not_eq_true', decide_eq_false_iff_not]
      exact hz1 j
    have e5 : vget (add_loop S T k u v).2.1 i = vget u i -
        (((T.getD k []).countP (fun j => decide (vget v j = 0) &&
          decide (i ∈ S.getD j [] ∧ i < u.length)) : Nat) : Int) := a4 i
    rw [e5, e4, e1, e2, h.ucount i, e3]
    push_cast; ring
  · have e3 := countP_split (fun j => decide (vget (add_loop S T k u v).2.2 j > 0))
      (fun j => decide (vget v j > 0)) (List.range S.length)
    have e4 : (List.range S.length).countP (fun j =>
          decide (vget (add_loop S T k u v).2.2 j > 0) && decide (vget v j > 0))
        = (List.range S.length).countP (fun j => decide (vget v j > 0)) := by
      apply List.countP_congr
      intro j _
      simp only [decide_eq_true_eq, Bool.and_eq_true]
      rw [hv1]
      constructor
      · intro e; exact e.2
      · intro e; refine ⟨?_, e⟩
        split_ifs <;> omega
    have e5 : (List.range S.length).countP (fun j =>
          decide (vget (add_loop S T k u v).2.2 j > 0) && !decide (vget v j > 0))
        = (List.range S.length).countP (fun j =>
          decide (vget v j = 0) && decide (j ∈ T.getD k [])) := by
      apply List.countP_congr
      intro j _
      simp only [decide_eq_true_eq, Bool.and_eq_true, Bool.not_eq_true', decide_eq_false_iff_not]
      rw [hv1]
      have := hv0 j
      by_cases hj : j ∈ T.getD k []
      · rw [if_pos hj]; constructor
        · intro e; exact ⟨by omega, hj⟩
        · intro e; exact ⟨by omega, by omega⟩
      · rw [if_neg hj]; constructor
        · intro e; omega
        · intro e; exact absurd e.2 hj
    have e6 := countP_swap (fun j => decide (vget v j = 0)) (List.range S.length) (T.getD k [])
      (List.nodup_range _) (hTnd k)
    have e7 : (T.getD k []).countP (fun j => decide (vget v j = 0) &&
          decide (j ∈ List.range S.length))
        = (T.getD k []).countP (fun j => decide (vget v j = 0)) := by
      apply List.countP_congr
      intro j hj
      have := hTn j hj
      simp [this]
    have e8 : (add_loop S T k u v).1
        = 0 + (((T.getD k []).countP (fun j => decide (vget v j = 0)) : Nat) : Int) := a1
    rw [e8, e3, e4, e5, e6, e7, h.ncount]
    push_cast; ring
  · rw [(hp.map _).sum_eq, List.map_cons, List.sum_cons, h.zsum]; ring

theorem vget_replicate_zero (n j : Nat) : vget (List.replicate n (0 : Int)) j = 0 := by
  unfold vget
  by_cases h : j < n
  · rw [List.getD_eq_getElem _ _ (by simpa using h)]; simp
  · exact List.getD_eq_default _ _ (by simpa using h)

theorem vget_u_init (T : List (List Nat)) (i : Nat) :
    vget (u_init T T.length) i = ((T.getD i []).length : Int) := by
  unfold vget u_init
  by_cases h : i < T.length
  · rw [List.getD_eq_getElem _ _ (by simpa using h)]; simp
  · have h2 : T.length ≤ i := Nat.le_of_not_lt h
    rw [List.getD_eq_default _ _ (by simpa using h2), List.getD_eq_default _ _ h2]; simp

/-- The bookkeeping holds when the selection loop of `scp_grasp::run` is entered. -/
theorem selinv_init (c : List ℚ) (S T : List (List Nat)) (hI : Indexed c S T) :
    SelInv c S T [] 0 (u_init T T.length) (List.replicate S.length 0) 0 := by
  refine ⟨?_, ?_, ?_, ?_, ?_, ?_, ?_, ?_⟩
  · simp [u_init, hI.lenT]
  · simp
  · exact List.nodup_nil
  · intro i hi; simp at hi
  · intro j; rw [vget_replicate_zero]; simp [cover_count]
  · intro i
    rw [vget_u_init]
    congr 1
    symm
    rw [List.countP_eq_length]
    intro j _
    simp [vget_replicate_zero]
  · symm
    have : (List.range S.length).countP
        (fun j => decide (vget (List.replicate S.length (0 : Int)) j > 0)) = 0 := by
      rw [List.countP_eq_zero]
      intro j _
      simp [vget_replicate_zero]
    rw [this]; rfl
  · simp

theorem mem_build_rcl (c : List ℚ) (c_min : Option ℚ) (alpha epsilon : ℚ) (u : List Int)
    (m k : Nat) :
    k ∈ build_rcl c c_min alpha epsilon u m ↔
      k < m ∧ vget u k > 0 ∧
        e_at c c_min u k + epsilon ≥ e_limit alpha (e_bounds c c_min u m) := by
  unfold build_rcl
  simp [List.mem_filter]

theorem getD_mod_mem (rcl : List Nat) (h : rcl ≠ []) (r : Nat) :
    rcl.getD (r % rcl.length) 0 ∈ rcl := by
  have hpos : 0 < rcl.length := List.length_pos.mpr h
  rw [List.getD_eq_getElem _ _ (Nat.mod_lt r hpos)]
  exact List.getElem_mem _

/-- A candidate (`u[k] > 0`) is not selected yet, and `_add` counts at least one newly
covered requirement for it. -/
theorem selinv_candidate (c : List ℚ) (S T : List (List Nat)) (hI : Indexed c S T)
    (x : List Nat) (z : ℚ) (u v : List Int) (nc : Int) (h : SelInv c S T x z u v nc)
    (k : Nat) (hk : vget u k > 0) :
    k ∉ x ∧ 1 ≤ (add_loop S T k u v).1 := by
  have hSnd : ∀ j, (S.getD j []).Nodup := fun j => (hI.sortedS j).nodup
  have hTnd : ∀ i, (T.getD i []).Nodup := fun i => (hI.sortedT i).nodup
  obtain ⟨a1, -⟩ := add_fold_spec S hSnd (T.getD k []) (hTnd k) 0 u v
  have hu := h.ucount k
  constructor
  · intro hx
    rw [hu] at hk
    have hpos : 0 < (T.getD k []).countP (fun j => decide (vget v j = 0)) := by
      exact_mod_cast hk
    rw [List.countP_pos_iff] at hpos
    obtain ⟨j, hj, hj0⟩ := hpos
    simp only [decide_eq_true_eq] at hj0
    rw [h.vcount] at hj0
    have : 0 < cover_count T x j := (cover_count_pos T x j).mpr ⟨k, hx, hj⟩
    omega
  · unfold add_loop
    rw [a1, ← hu]; omega

/-- With `num_covered ≥ n` every requirement has a selected covering item. -/
theorem selinv_full (c : List ℚ) (S T : List (List Nat)) (hI : Indexed c S T)
    (x : List Nat) (z : ℚ) (u v : List Int) (nc : Int) (h : SelInv c S T x z u v nc)
    (hn : (S.length : Int) ≤ nc) (j : Nat) (hj : j < S.length) :
    ∃ i, i ∈ S.getD j [] ∧ i ∈ x := by
  have h1 := h.ncount
  have h2 : (List.range S.length).countP (fun j => decide (vget v j > 0))
      ≤ (List.range S.length).length := List.countP_le_length _
  rw [List.length_range] at h2
  have h3 : (List.range S.length).countP (fun j => decide (vget v j > 0))
      = (List.range S.length).length := by
    rw [List.length_range]; omega
  rw [List.countP_eq_length] at h3
  have h4 := h3 j (List.mem_range.mpr hj)
  simp only [decide_eq_true_eq] at h4
  rw [h.vcount] at h4
  have h5 : 0 < cover_count T x j := by exact_mod_cast h4
  obtain ⟨i, hi, hji⟩ := (cover_count_pos T x j).mp h5
  exact ⟨i, ((hI.memT i j).mp hji).2, hi⟩

/-- With `num_covered < n` some requirement has `v[j] = 0`. -/
theorem selinv_not_full (c : List ℚ) (S T : List (List Nat))
    (x : List Nat) (z : ℚ) (u v : List Int) (nc : Int) (h : SelInv c S T x z u v nc)
    (hn : nc < (S.length : Int)) : ∃ j, j < S.length ∧ vget v j = 0 := by
  by_contra hcon
  push_neg at hcon
  have h3 : (List.range S.length).countP (fun j => decide (vget v j > 0))
      = (List.range S.length).length := by
    rw [List.countP_eq_length]
    intro j hj
    have := hcon j (List.mem_range.mp hj)
    have h0 : 0 ≤ vget v j := by rw [h.vcount]; exact Int.natCast_nonneg _
    simp only [decide_eq_true_eq]
    omega
  rw [List.length_range] at h3
  have := h.ncount
  rw [h3] at this
  omega

/-- The selection loop of `scp_grasp::run`: what holds of every answer. -/
theorem grasp_loop_spec (draws : Nat → Nat) (c_min : Option ℚ) (fuel : Nat) :
    ∀ (g : scp_grasp) (u v : List Int) (nc : Int) (t : Nat),
      Indexed g._c g._S g._T → SelInv g._c g._S g._T g._x g._z u v nc →
      ∀ (b : Bool) (g' : scp_grasp) (t' : Nat),
        scp_grasp.loop draws c_min fuel g u v nc t = some (b, g', t') →
        (g'._c = g._c ∧ g'._S = g._S ∧ g'._T = g._T ∧ g'.alpha = g.alpha ∧
          g'.epsilon = g.epsilon) ∧
        (∃ u' v' nc', SelInv g._c g._S g._T g'._x g'._z u' v' nc' ∧
          (b = true → (g._S.length : Int) ≤ nc') ∧
          (b = false → nc' < (g._S.length : Int) ∧
            build_rcl g._c c_min g.alpha g.epsilon u' g._T.length = [])) ∧
        g._x ⊆ g'._x := by
  induction fuel with
  | zero =>
    intro g u v nc t _ h b g' t' hr
    simp only [scp_grasp.loop] at hr
    split_ifs at hr with h1
    simp only [Option.some.injEq, Prod.mk.injEq] at hr
    obtain ⟨rfl, rfl, rfl⟩ := hr
    refine ⟨⟨rfl, rfl, rfl, rfl, rfl⟩, ⟨u, v, nc, h, ?_, ?_⟩, List.Subset.refl _⟩
    · intro _; omega
    · intro e; simp at e
  | succ fuel ih =>
    intro g u v nc t hI h b g' t' hr
    simp only [scp_grasp.loop] at hr
    split_ifs at hr with h1 h2
    · simp only [Option.some.injEq, Prod.mk.injEq] at hr
      obtain ⟨rfl, rfl, rfl⟩ := hr
      refine ⟨⟨rfl, rfl, rfl, rfl, rfl⟩, ⟨u, v, nc, h, ?_, ?_⟩, List.Subset.refl _⟩
      · intro e; simp at e
      · intro _; exact ⟨h1, List.isEmpty_iff.mp h2⟩
    · have hne : build_rcl g._c c_min g.alpha g.epsilon u g._T.length ≠ [] :=
        fun e => h2 (List.isEmpty_iff.mpr e)
      have hk := (mem_build_rcl _ _ _ _ _ _ _).mp (getD_mod_mem _ hne (draws t))
      have hkc : (build_rcl g._c c_min g.alpha g.epsilon u g._T.length).getD
          (draws t % (build_rcl g._c c_min g.alpha g.epsilon u g._T.length).length) 0
            < g._c.length := by rw [← hI.lenT]; exact hk.1
      have hcand := selinv_candidate _ _ _ hI _ _ _ _ _ h _ hk.2.1
      have hinv := selinv_add _ _ _ hI _ _ _ _ _ h _ hkc hcand.1 _
        (set_insert_perm _ _ hcand.1)
      obtain ⟨q1, q2, q3⟩ := ih (g._add _ u v).1 _ _ _ _ hI hinv b g' t' hr
      refine ⟨q1, q2, ?_⟩
      intro a ha
      apply q3
      exact (mem_set_insert _ _ _).mpr (Or.inr ha)
    · simp only [Option.some.injEq, Prod.mk.injEq] at hr
      obtain ⟨rfl, rfl, rfl⟩ := hr
      refine ⟨⟨rfl, rfl, rfl, rfl, rfl⟩, ⟨u, v, nc, h, ?_, ?_⟩, List.Subset.refl _⟩
      · intro _; omega
      · intro e; simp at e

/-- The selection loop of `scp_grasp::run` ends: every pick covers a new requirement, so
`n - num_covered` picks suffice. -/
theorem grasp_loop_total (draws : Nat → Nat) (c_min : Option ℚ) (fuel : Nat) :
    ∀ (g : scp_grasp) (u v : List Int) (nc : Int) (t : Nat),
      Indexed g._c g._S g._T → SelInv g._c g._S g._T g._x g._z u v nc →
      (g._S.length : Int) - nc ≤ fuel →
      ∃ r, scp_grasp.loop draws c_min fuel g u v nc t = some r := by
  induction fuel with
  | zero =>
    intro g u v nc t _ _ hf
    simp only [scp_grasp.loop]
    split_ifs with h1
    · simp at hf; omega
    · exact ⟨_, rfl⟩
  | succ fuel ih =>
    intro g u v nc t hI h hf
    simp only [scp_grasp.loop]
    split_ifs with h1 h2
    · exact ⟨_, rfl⟩
    · have hne : build_rcl g._c c_min g.alpha g.epsilon u g._T.length ≠ [] :=
        fun e => h2 (List.isEmpty_iff.mpr e)
      have hk := (mem_build_rcl _ _ _ _ _ _ _).mp (getD_mod_mem _ hne (draws t))
      have hkc : (build_rcl g._c c_min g.alpha g.epsilon u g._T.length).getD
          (draws t % (build_rcl g._c c_min g.alpha g.epsilon u g._T.length).length) 0
            < g._c.length := by rw [← hI.lenT]; exact hk.1
      have hcand := selinv_candidate _ _ _ hI _ _ _ _ _ h _ hk.2.1
      have hinv := selinv_add _ _ _ hI _ _ _ _ _ h _ hkc hcand.1 _
        (set_insert_perm _ _ hcand.1)
      apply ih (g._add _ u v).1 _ _ _ _ hI hinv
      have := hcand.2
      simp only [scp_grasp._add]
      push_cast at hf ⊢
      omega
    · exact ⟨_, rfl⟩

/-! ## Scores and the restricted candidate list -/

/-- After the first loop of `run` over a non-empty cost vector, `c_min` is the least cost. -/
theorem c_min_of_spec (c : List ℚ) (m : Nat) (hm : 0 < m) :
    ∃ a, c_min_of c m = some a ∧ (∀ i, i < m → a ≤ c.getD i 0) ∧ ∃ i, i < m ∧ a = c.getD i 0 := by
  induction m with
  | zero => omega
  | succ k ih =>
    unfold c_min_of at ih ⊢
    rw [List.range_succ, List.foldl_append, List.foldl_cons, List.foldl_nil]
    by_cases hk : 0 < k
    · obtain ⟨a, h1, h2, i0, h3, h4⟩ := ih hk
      rw [h1]
      have hstep : c_min_step c (some a) k
          = if c.getD k 0 < a then some (c.getD k 0) else some a := rfl
      rw [hstep]
      by_cases hlt : c.getD k 0 < a
      · refine ⟨c.getD k 0, by rw [if_pos hlt], ?_, k, by omega, rfl⟩
        intro i hi
        by_cases e : i = k
        · rw [e]
        · exact le_of_lt (lt_of_lt_of_le hlt (h2 i (by omega)))
      · refine ⟨a, by rw [if_neg hlt], ?_, i0, by omega, h4⟩
        intro i hi
        by_cases e : i = k
        · rw [e]; exact not_lt.mp hlt
        · exact h2 i (by omega)
    · have : k = 0 := by omega
      subst this
      refine ⟨c.getD 0 0, rfl, ?_, 0, by omega, rfl⟩
      intro i hi
      have : i = 0 := by omega
      rw [this]

/-- The score of a candidate is positive: the denominator `1 + c[i] - c_min` is at least `1`. -/
theorem e_at_pos (c : List ℚ) (m : Nat) (u : List Int) (i : Nat) (hi : i < m)
    (hu : vget u i > 0) : 0 < e_at c (c_min_of c m) u i := by
  obtain ⟨a, h1, h2, -⟩ := c_min_of_spec c m (by omega)
  rw [h1]
  unfold e_at
  rw [if_pos hu]
  have hd : (0 : ℚ) < 1 + c.getD i 0 - a := by
    have := h2 i hi
    linarith
  have hn : (0 : ℚ) < (vget u i : ℚ) := by exact_mod_cast hu
  exact div_pos hn hd

/-- The values of `e_min` and `e_max` after the first `k` turns of the scoring loop. -/
theorem e_bounds_fold (c : List ℚ) (cm : Option ℚ) (u : List Int) (m : Nat)
    (hpos : ∀ i, i < m → vget u i > 0 → 0 < e_at c cm u i) (k : Nat) (hk : k ≤ m) :
    ((List.range k).foldl (e_bounds_step c cm u) (0, 0)).1
        ≤ ((List.range k).foldl (e_bounds_step c cm u) (0, 0)).2 ∧
    (∀ i, i < k → vget u i > 0 →
        e_at c cm u i ≤ ((List.range k).foldl (e_bounds_step c cm u) (0, 0)).2) ∧
    ((∃ i, i < k ∧ vget u i > 0) → ∃ i, i < k ∧ vget u i > 0 ∧
        e_at c cm u i = ((List.range k).foldl (e_bounds_step c cm u) (0, 0)).2) ∧
    ((∀ i, i < k → ¬ vget u i > 0) →
        ((List.range k).foldl (e_bounds_step c cm u) (0, 0)).2 = 0) ∧
    (vget u 0 > 0 → ∀ i, i < k → vget u i > 0 →
        ((List.range k).foldl (e_bounds_step c cm u) (0, 0)).1 ≤ e_at c cm u i) ∧
    (vget u 0 > 0 → 0 < k → ∃ i, i < k ∧ vget u i > 0 ∧
        e_at c cm u i = ((List.range k).foldl (e_bounds_step c cm u) (0, 0)).1) ∧
    (¬ vget u 0 > 0 → ((List.range k).foldl (e_bounds_step c cm u) (0, 0)).1 = 0) := by
  induction k with
  | zero =>
    refine ⟨le_refl _, ?_, ?_, ?_, ?_, ?_, ?_⟩
    · intro i hi; omega
    · rintro ⟨i, hi, -⟩; omega
    · intro _; rfl
    · intro _ i hi; omega
    · intro _ h; omega
    · intro _; rfl
  | succ k ih =>
    obtain ⟨p1, p2, p3, p4, p5, p6, p7⟩ := ih (by omega)
    rw [List.range_succ, List.foldl_append, List.foldl_cons, List.foldl_nil]
    generalize (List.range k).foldl (e_bounds_step c cm u) (0, 0) = b at p1 p2 p3 p4 p5 p6 p7 ⊢
    by_cases hc : vget u k > 0
    · have hek := hpos k (by omega) hc
      by_cases hk0 : k > 0
      · have hstep : e_bounds_step c cm u b k =
            (if e_at c cm u k < b.1 then e_at c cm u k else b.1,
             if e_at c cm u k > b.2 then e_at c cm u k else b.2) := by
          simp [e_bounds_step, hc, hk0]
        rw [hstep]
        refine ⟨?_, ?_, ?_, ?_, ?_, ?_, ?_⟩
        · show (if e_at c cm u k < b.1 then e_at c cm u k else b.1)
            ≤ (if e_at c cm u k > b.2 then e_at c cm u k else b.2)
          split_ifs <;> linarith
        · intro i hi hui
          show e_at c cm u i ≤ (if e_at c cm u k > b.2 then e_at c cm u k else b.2)
          by_cases e : i = k
          · subst e; split_ifs <;> linarith
          · have := p2 i (by omega) hui
            split_ifs <;> linarith
        · intro _
          show ∃ i, i < k + 1 ∧ vget u i > 0 ∧
            e_at c cm u i = (if e_at c cm u k > b.2 then e_at c cm u k else b.2)
          by_cases hgt : e_at c cm u k > b.2
          · rw [if_pos hgt]; exact ⟨k, by omega, hc, rfl⟩
          · rw [if_neg hgt]
            by_cases hex : ∃ i, i < k ∧ vget u i > 0
            · obtain ⟨i, hi, hui, he⟩ := p3 hex
              exact ⟨i, by omega, hui, he⟩
            · push_neg at hex
              have := p4 (fun i hi => by have := hex i hi; omega)
              rw [this] at hgt
              exact absurd hek hgt
        · intro hno
          exact absurd hc (hno k (by omega))
        · intro h0 i hi hui
          show (if e_at c cm u k < b.1 then e_at c cm u k else b.1) ≤ e_at c cm u i
          by_cases e : i = k
          · subst e; split_ifs <;> linarith
          · have := p5 h0 i (by omega) hui
            split_ifs <;> linarith
        · intro h0 _
          show ∃ i, i < k + 1 ∧ vget u i > 0 ∧
            e_at c cm u i = (if e_at c cm u k < b.1 then e_at c cm u k else b.1)
          by_cases hlt : e_at c cm u k < b.1
          · rw [if_pos hlt]; exact ⟨k, by omega, hc, rfl⟩
          · rw [if_neg hlt]
            obtain ⟨i, hi, hui, he⟩ := p6 h0 hk0
            exact ⟨i, by omega, hui, he⟩
        · intro h0
          show (if e_at c cm u k < b.1 then e_at c cm u k else b.1) = 0
          have := p7 h0
          rw [this]
          rw [if_neg (by linarith)]
      · have hk00 : k = 0 := by omega
        subst hk00
        have hstep : e_bounds_step c cm u b 0 = (e_at c cm u 0, e_at c cm u 0) := by
          simp [e_bounds_step, hc]
        rw [hstep]
        refine ⟨le_refl _, ?_, ?_, ?_, ?_, ?_, ?_⟩
        · intro i hi _
          have : i = 0 := by omega
          subst this; exact le_refl _
        · intro _; exact ⟨0, by omega, hc, rfl⟩
        · intro hno; exact absurd hc (hno 0 (by omega))
        · intro _ i hi _
          have : i = 0 := by omega
          subst this; exact le_refl _
        · intro _ _; exact ⟨0, by omega, hc, rfl⟩
        · intro h0; exact absurd hc h0
    · have hstep : e_bounds_step c cm u b k = b := by
        simp [e_bounds_step, hc]
      rw [hstep]
      refine ⟨p1, ?_, ?_, ?_, ?_, ?_, p7⟩
      · intro i hi hui
        by_cases e : i = k
        · subst e; exact absurd hui hc
        · exact p2 i (by omega) hui
      · rintro ⟨i, hi, hui⟩
        by_cases e : i = k
        · subst e; exact absurd hui hc
        · obtain ⟨i2, h1, h2, h3⟩ := p3 ⟨i, by omega, hui⟩
          exact ⟨i2, by omega, h2, h3⟩
      · intro hno
        exact p4 (fun i hi => hno i (by omega))
      · intro h0 i hi hui
        by_cases e : i = k
        · subst e; exact absurd hui hc
        · exact p5 h0 i (by omega) hui
      · intro h0 _
        by_cases hk0 : 0 < k
        · obtain ⟨i2, h1, h2, h3⟩ := p6 h0 hk0
          exact ⟨i2, by omega, h2, h3⟩
        · have : k = 0 := by omega
          subst this; exact absurd h0 hc

/-- With `alpha ≤ 1` and `epsilon ≥ 0` the list is not empty as long as a candidate exists:
a candidate of maximal score passes the threshold. -/
theorem build_rcl_ne_nil (c : List ℚ) (m : Nat) (alpha epsilon : ℚ) (u : List Int)
    (ha : alpha ≤ 1) (he : 0 ≤ epsilon) (hex : ∃ i, i < m ∧ vget u i > 0) :
    build_rcl c (c_min_of c m) alpha epsilon u m ≠ [] := by
  obtain ⟨p1, -, p3, -⟩ := e_bounds_fold c (c_min_of c m) u m
    (fun i hi hu => e_at_pos c m u i hi hu) m (le_refl _)
  obtain ⟨i, hi, hui, hei⟩ := p3 hex
  have hmem : i ∈ build_rcl c (c_min_of c m) alpha epsilon u m := by
    rw [mem_build_rcl]
    refine ⟨hi, hui, ?_⟩
    unfold e_limit e_bounds
    rw [hei]
    generalize (List.range m).foldl (e_bounds_step c (c_min_of c m) u) (0, 0) = b at p1
    have : alpha * (b.2 - b.1) ≤ 1 * (b.2 - b.1) :=
      mul_le_mul_of_nonneg_right ha (by linarith)
    show b.2 + epsilon ≥ b.1 + alpha * (b.2 - b.1)
    linarith
  intro e
  rw [e] at hmem
  simp at hmem

/-! ## `scp_grasp::run` and `scp_repair::run` -/

/-- While a requirement is uncovered and no covering set is empty, some item has `u[i] > 0`. -/
theorem selinv_has_candidate (c : List ℚ) (S T : List (List Nat)) (hI : Indexed c S T)
    (x : List Nat) (z : ℚ) (u v : List Int) (nc : Int) (h : SelInv c S T x z u v nc)
    (hn : nc < (S.length : Int)) (hne : ∀ j, j < S.length → S.getD j [] ≠ []) :
    ∃ i, i < T.length ∧ vget u i > 0 := by
  obtain ⟨j, hj, hv⟩ := selinv_not_full c S T x z u v nc h hn
  obtain ⟨i, hi⟩ := List.exists_mem_of_ne_nil _ (hne j hj)
  refine ⟨i, by rw [hI.lenT]; exact hI.ltS j i hi, ?_⟩
  rw [h.ucount]
  have : 0 < (T.getD i []).countP (fun j => decide (vget v j = 0)) := by
    rw [List.countP_pos_iff]
    exact ⟨j, (hI.memT i j).mpr ⟨hj, hi⟩, by simpa using hv⟩
  exact_mod_cast this

/-- With a requirement that no item covers, `num_covered` stays below `n`. -/
theorem selinv_never_full (c : List ℚ) (S T : List (List Nat)) (hI : Indexed c S T)
    (x : List Nat) (z : ℚ) (u v : List Int) (nc : Int) (h : SelInv c S T x z u v nc)
    (j : Nat) (hj : j < S.length) (hS : S.getD j [] = []) : nc < (S.length : Int) := by
  by_contra hcon
  obtain ⟨i, hi, -⟩ := selinv_full c S T hI x z u v nc h (not_lt.mp hcon) j hj
  rw [hS] at hi
  simp at hi

theorem repair_seed_fold (L : List Nat) :
    ∀ (r1 : scp_repair) (A : List Nat) (u v : List Int) (nc : Int),
      Indexed r1._c r1._S r1._T →
      SelInv r1._c r1._S r1._T A r1._z u v nc → (A ++ L).Nodup → (∀ i ∈ L, i < r1._c.length) →
      SelInv r1._c r1._S r1._T (A ++ L) (L.foldl scp_repair.seed_step (r1, u, v, nc)).1._z
        (L.foldl scp_repair.seed_step (r1, u, v, nc)).2.1
        (L.foldl scp_repair.seed_step (r1, u, v, nc)).2.2.1
        (L.foldl scp_repair.seed_step (r1, u, v, nc)).2.2.2 ∧
      (L.foldl scp_repair.seed_step (r1, u, v, nc)).1._c = r1._c ∧
      (L.foldl scp_repair.seed_step (r1, u, v, nc)).1._S = r1._S ∧
      (L.foldl scp_repair.seed_step (r1, u, v, nc)).1._T = r1._T ∧
      (L.foldl scp_repair.seed_step (r1, u, v, nc)).1._x = r1._x ∧
      (L.foldl scp_repair.seed_step (r1, u, v, nc)).1.alpha = r1.alpha ∧
      (L.foldl scp_repair.seed_step (r1, u, v, nc)).1.epsilon = r1.epsilon := by
  induction L with
  | nil =>
    intro r1 A u v nc _ h _ _
    rw [List.append_nil]
    exact ⟨h, rfl, rfl, rfl, rfl, rfl, rfl⟩
  | cons a L ih =>
    intro r1 A u v nc hI h hnd hlt
    rw [List.foldl_cons]
    have ha : a ∉ A := by
      intro e
      have := (List.nodup_append.mp hnd).2.2
      exact this e (List.mem_cons_self a L)
    have hperm : (A ++ [a]).Perm (a :: A) := by
      simp
    have hstep := selinv_add _ _ _ hI A r1._z u v nc h a (hlt a (List.mem_cons_self a L)) ha
      (A ++ [a]) hperm
    have hnd2 : ((A ++ [a]) ++ L).Nodup := by simpa using hnd
    have happ : A ++ a :: L = (A ++ [a]) ++ L := by simp
    rw [happ]
    exact ih (r1._add a u v).1 (A ++ [a]) _ _ _ hI hstep hnd2
      (fun i hi => hlt i (List.mem_cons_of_mem a hi))

/-- The two selection loops agree: the loop of `scp_repair::run` on an object is the loop of
`scp_grasp::run` on the same fields. -/
theorem repair_loop_as_grasp (draws : Nat → Nat) (c_min : Option ℚ) (fuel : Nat) :
    ∀ (r : scp_repair) (u v : List Int) (nc : Int) (t : Nat),
      (scp_repair.loop draws c_min fuel r u v nc t).map
          (fun q => (q.1, q.2.1.as_grasp, q.2.2))
        = scp_grasp.loop draws c_min fuel r.as_grasp u v nc t := by
  induction fuel with
  | zero =>
    intro r u v nc t
    simp only [scp_repair.loop, scp_grasp.loop, scp_repair.as_grasp]
    split_ifs <;> rfl
  | succ fuel ih =>
    intro r u v nc t
    simp only [scp_repair.loop, scp_grasp.loop]
    have e1 : r.as_grasp._S = r._S := rfl
    have e2 : r.as_grasp._c = r._c := rfl
    have e3 : r.as_grasp._T = r._T := rfl
    have e4 : r.as_grasp.alpha = r.alpha := rfl
    have e5 : r.as_grasp.epsilon = r.epsilon := rfl
    rw [e1, e2, e3, e4, e5]
    split_ifs
    · rfl
    · rw [ih]; rfl
    · rfl

/-- Every answer of `scp_grasp::run` on a well-formed instance: the bookkeeping holds of the
returned object, `true` comes with `num_covered ≥ n` and `false` with an empty candidate list. -/
theorem grasp_run_spec (inst : scp_problem) (hwf : inst.WellFormed) (alpha epsilon : ℚ)
    (draws : Nat → Nat) (fuel : Nat) (b : Bool) (g' : scp_grasp) (t' : Nat)
    (hr : (grasp_object inst alpha epsilon).run draws fuel = some (b, g', t')) :
    ∃ u' v' nc', SelInv inst.c inst.S (read_T inst) g'._x g'._z u' v' nc' ∧
      (b = true → (inst.S.length : Int) ≤ nc') ∧
      (b = false → nc' < (inst.S.length : Int) ∧
        build_rcl inst.c (c_min_of inst.c (read_T inst).length) alpha epsilon u'
          (read_T inst).length = []) := by
  have hI := indexed_read_T inst hwf
  have h0 := selinv_init inst.c inst.S (read_T inst) hI
  exact (grasp_loop_spec draws _ fuel
    { grasp_object inst alpha epsilon with _z := 0, _x := [] } _ _ _ _ hI h0 b g' t' hr).2.1

/-- On a well-formed instance `scp_grasp::run` returns after at most `n` picks. -/
theorem grasp_run_total (inst : scp_problem) (hwf : inst.WellFormed) (alpha epsilon : ℚ)
    (draws : Nat → Nat) :
    ∃ r, (grasp_object inst alpha epsilon).run draws inst.S.length = some r := by
  have hI := indexed_read_T inst hwf
  have h0 := selinv_init inst.c inst.S (read_T inst) hI
  exact grasp_loop_total draws _ inst.S.length
    { grasp_object inst alpha epsilon with _z := 0, _x := [] } _ _ _ _ hI h0
    (by show (inst.S.length : Int) - 0 ≤ _; omega)

/-- The state of `scp_repair::run` when its selection loop is entered. -/
theorem repair_seed_spec (inst : scp_problem) (hwf : inst.WellFormed) (alpha epsilon : ℚ)
    (x0 : List Nat) (hx : inst.Selection x0) :
    SelInv inst.c inst.S (read_T inst) x0
      (repair_object inst alpha epsilon x0).seeded.1._z
      (repair_object inst alpha epsilon x0).seeded.2.1
      (repair_object inst alpha epsilon x0).seeded.2.2.1
      (repair_object inst alpha epsilon x0).seeded.2.2.2 ∧
    (repair_object inst alpha epsilon x0).seeded.1.as_grasp
      = { alpha := alpha, epsilon := epsilon, _c := inst.c, _S := inst.S, _T := read_T inst,
          _x := x0, _z := (repair_object inst alpha epsilon x0).seeded.1._z } := by
  have hI := indexed_read_T inst hwf
  have h0 := selinv_init inst.c inst.S (read_T inst) hI
  obtain ⟨q1, q2, q3, q4, q5, q6, q7⟩ := repair_seed_fold x0
    { repair_object inst alpha epsilon x0 with _z := 0 } []
    (u_init (read_T inst) (read_T inst).length) (List.replicate inst.S.length 0) 0 hI h0
    (by simpa using hx.1.nodup) hx.2
  refine ⟨by simpa using q1, ?_⟩
  unfold scp_repair.as_grasp
  have e : (repair_object inst alpha epsilon x0).seeded
      = x0.foldl scp_repair.seed_step
        ({ repair_object inst alpha epsilon x0 with _z := 0 },
          u_init (read_T inst) (read_T inst).length, List.replicate inst.S.length 0, 0) := rfl
  rw [e, q2, q3, q4, q5, q6, q7]
  rfl

/-- Every answer of `scp_repair::run` on a well-formed instance and a seed within `[0, m)`. -/
theorem repair_run_spec (inst : scp_problem) (hwf : inst.WellFormed) (alpha epsilon : ℚ)
    (x0 : List Nat) (hx : inst.Selection x0)
    (draws : Nat → Nat) (fuel : Nat) (b : Bool) (r' : scp_repair) (t' : Nat)
    (hr : (repair_object inst alpha epsilon x0).run draws fuel = some (b, r', t')) :
    (∃ u' v' nc', SelInv inst.c inst.S (read_T inst) r'._x r'._z u' v' nc' ∧
      (b = true → (inst.S.length : Int) ≤ nc') ∧
      (b = false → nc' < (inst.S.length : Int) ∧
        build_rcl inst.c (c_min_of inst.c (read_T inst).length) alpha epsilon u'
          (read_T inst).length = [])) ∧ x0 ⊆ r'._x := by
  have hI := indexed_read_T inst hwf
  obtain ⟨s1, s2⟩ := repair_seed_spec inst hwf alpha epsilon x0 hx
  unfold scp_repair.run at hr
  have hb := repair_loop_as_grasp draws
    (c_min_of (repair_object inst alpha epsilon x0)._c (repair_object inst alpha epsilon x0)._T.length)
    fuel (repair_object inst alpha epsilon x0).seeded.1
    (repair_object inst alpha epsilon x0).seeded.2.1
    (repair_object inst alpha epsilon x0).seeded.2.2.1
    (repair_object inst alpha epsilon x0).seeded.2.2.2 0
  rw [hr, s2] at hb
  have hg := grasp_loop_spec draws _ fuel _ _ _ _ _ hI s1 b r'.as_grasp t' hb.symm
  exact ⟨hg.2.1, hg.2.2⟩

/-- On a well-formed instance `scp_repair::run` returns after at most `n` picks. -/
theorem repair_run_total (inst : scp_problem) (hwf : inst.WellFormed) (alpha epsilon : ℚ)
    (x0 : List Nat) (hx : inst.Selection x0) (draws : Nat → Nat) :
    ∃ r, (repair_object inst alpha epsilon x0).run draws inst.S.length = some r := by
  have hI := indexed_read_T inst hwf
  obtain ⟨s1, s2⟩ := repair_seed_spec inst hwf alpha epsilon x0 hx
  have hb := repair_loop_as_grasp draws
    (c_min_of (repair_object inst alpha epsilon x0)._c (repair_object inst alpha epsilon x0)._T.length)
    inst.S.length (repair_object inst alpha epsilon x0).seeded.1
    (repair_object inst alpha epsilon x0).seeded.2.1
    (repair_object inst alpha epsilon x0).seeded.2.2.1
    (repair_object inst alpha epsilon x0).seeded.2.2.2 0
  rw [s2] at hb
  have hnc := s1.ncount
  have hle : (List.range inst.S.length).countP
      (fun j => decide (vget (repair_object inst alpha epsilon x0).seeded.2.2.1 j > 0))
        ≤ (List.range inst.S.length).length := List.countP_le_length _
  rw [List.length_range] at hle
  obtain ⟨q, hq⟩ := grasp_loop_total draws
    (c_min_of (repair_object inst alpha epsilon x0)._c (repair_object inst alpha epsilon x0)._T.length)
    inst.S.length
    { alpha := alpha, epsilon := epsilon, _c := inst.c, _S := inst.S, _T := read_T inst,
      _x := x0, _z := (repair_object inst alpha epsilon x0).seeded.1._z } _ _ _ 0 hI s1 (by
      show (inst.S.length : Int) - _ ≤ _
      rw [hnc]; omega)
  rw [hq] at hb
  obtain ⟨a, ha, -⟩ := Option.map_eq_some'.mp hb
  exact ⟨a, ha⟩

theorem grasp_loop_pick (draws : Nat → Nat) (c_min : Option ℚ) (fuel : Nat) (g : scp_grasp)
    (u v : List Int) (nc : Int) (t : Nat) (h1 : nc < (g._S.length : Int))
    (h2 : build_rcl g._c c_min g.alpha g.epsilon u g._T.length ≠ []) :
    scp_grasp.loop draws c_min (fuel + 1) g u v nc t
      = scp_grasp.loop draws c_min fuel
          (g._add ((build_rcl g._c c_min g.alpha g.epsilon u g._T.length).getD
            (draws t % (build_rcl g._c c_min g.alpha g.epsilon u g._T.length).length) 0) u v).1
          (g._add ((build_rcl g._c c_min g.alpha g.epsilon u g._T.length).getD
            (draws t % (build_rcl g._c c_min g.alpha g.epsilon u g._T.length).length) 0) u v).2.2.1
          (g._add ((build_rcl g._c c_min g.alpha g.epsilon u g._T.length).getD
            (draws t % (build_rcl g._c c_min g.alpha g.epsilon u g._T.length).length) 0) u v).2.2.2
          (nc + (g._add ((build_rcl g._c c_min g.alpha g.epsilon u g._T.length).getD
            (draws t % (build_rcl g._c c_min g.alpha g.epsilon u g._T.length).length) 0) u v).2.1)
          (t + 1) := by
  simp only [scp_grasp.loop]
  rw [if_pos h1, if_neg (fun e => h2 (List.isEmpty_iff.mp e))]

theorem grasp_loop_done (draws : Nat → Nat) (c_min : Option ℚ) (fuel : Nat) (g : scp_grasp)
    (u v : List Int) (nc : Int) (t : Nat) (h1 : ¬ nc < (g._S.length : Int)) :
    scp_grasp.loop draws c_min fuel g u v nc t = some (true, g, t) := by
  cases fuel <;> simp only [scp_grasp.loop] <;> rw [if_neg h1]

theorem grasp_inst3_first (draws : Nat → Nat) :
    (build_rcl inst3.c (c_min_of inst3.c 3) 1 (1 / 1000000000) (u_init (read_T inst3) 3) 3).getD
      (draws 0 % (build_rcl inst3.c (c_min_of inst3.c 3) 1 (1 / 1000000000)
        (u_init (read_T inst3) 3) 3).length) 0 = 0 ∨
    (build_rcl inst3.c (c_min_of inst3.c 3) 1 (1 / 1000000000) (u_init (read_T inst3) 3) 3).getD
      (draws 0 % (build_rcl inst3.c (c_min_of inst3.c 3) 1 (1 / 1000000000)
        (u_init (read_T inst3) 3) 3).length) 0 = 1 := by
  have e : build_rcl inst3.c (c_min_of inst3.c 3) 1 (1 / 1000000000)
      (u_init (read_T inst3) 3) 3 = [0, 1] := by decide!
  rw [e]
  rcases Nat.mod_two_eq_zero_or_one (draws 0) with h | h
  · left; show [0, 1].getD (draws 0 % 2) 0 = 0; rw [h]; rfl
  · right; show [0, 1].getD (draws 0 % 2) 0 = 1; rw [h]; rfl

theorem grasp_inst3_second (draws : Nat → Nat) (k a : Nat) (ha : a = 0 ∨ a = 1) :
    scp_grasp.loop draws (c_min_of inst3.c 3) (k + 1)
      ((scp_grasp.mk 1 (1 / 1000000000) inst3.c inst3.S (read_T inst3) [] 0)._add a
        (u_init (read_T inst3) 3) (List.replicate 3 0)).1
      ((scp_grasp.mk 1 (1 / 1000000000) inst3.c inst3.S (read_T inst3) [] 0)._add a
        (u_init (read_T inst3) 3) (List.replicate 3 0)).2.2.1
      ((scp_grasp.mk 1 (1 / 1000000000) inst3.c inst3.S (read_T inst3) [] 0)._add a
        (u_init (read_T inst3) 3) (List.replicate 3 0)).2.2.2
      (0 + ((scp_grasp.mk 1 (1 / 1000000000) inst3.c inst3.S (read_T inst3) [] 0)._add a
        (u_init (read_T inst3) 3) (List.replicate 3 0)).2.1) 1
      = some (true, scp_grasp.mk 1 (1 / 1000000000) inst3.c inst3.S (read_T inst3) [0, 1] 2, 2) := by
  rcases ha with rfl | rfl
  · rw [grasp_loop_pick _ _ _ _ _ _ _ _ (by decide!) (by decide!)]
    have e : build_rcl
        ((scp_grasp.mk 1 (1 / 1000000000) inst3.c inst3.S (read_T inst3) [] 0)._add 0
          (u_init (read_T inst3) 3) (List.replicate 3 0)).1._c (c_min_of inst3.c 3)
        ((scp_grasp.mk 1 (1 / 1000000000) inst3.c inst3.S (read_T inst3) [] 0)._add 0
          (u_init (read_T inst3) 3) (List.replicate 3 0)).1.alpha
        ((scp_grasp.mk 1 (1 / 1000000000) inst3.c inst3.S (read_T inst3) [] 0)._add 0
          (u_init (read_T inst3) 3) (List.replicate 3 0)).1.epsilon
        ((scp_grasp.mk 1 (1 / 1000000000) inst3.c inst3.S (read_T inst3) [] 0)._add 0
          (u_init (read_T inst3) 3) (List.replicate 3 0)).2.2.1
        ((scp_grasp.mk 1 (1 / 1000000000) inst3.c inst3.S (read_T inst3) [] 0)._add 0
          (u_init (read_T inst3) 3) (List.replicate 3 0)).1._T.length = [1] := by decide!
    rw [e]
    have e2 : [1].getD (draws 1 % [1].length) 0 = 1 := by
      show [1].getD (draws 1 % 1) 0 = 1
      rw [Nat.mod_one]; rfl
    rw [e2, grasp_loop_done _ _ _ _ _ _ _ _ (by decide!)]
    decide!
  · rw [grasp_loop_pick _ _ _ _ _ _ _ _ (by decide!) (by decide!)]
    have e : build_rcl
        ((scp_grasp.mk 1 (1 / 1000000000) inst3.c inst3.S (read_T inst3) [] 0)._add 1
          (u_init (read_T inst3) 3) (List.replicate 3 0)).1._c (c_min_of inst3.c 3)
        ((scp_grasp.mk 1 (1 / 1000000000) inst3.c inst3.S (read_T inst3) [] 0)._add 1
          (u_init (read_T inst3) 3) (List.replicate 3 0)).1.alpha
        ((scp_grasp.mk 1 (1 / 1000000000) inst3.c inst3.S (read_T inst3) [] 0)._add 1
          (u_init (read_T inst3) 3) (List.replicate 3 0)).1.epsilon
        ((scp_grasp.mk 1 (1 / 1000000000) inst3.c inst3.S (read_T inst3) [] 0)._add 1
          (u_init (read_T inst3) 3) (List.replicate 3 0)).2.2.1
        ((scp_grasp.mk 1 (1 / 1000000000) inst3.c inst3.S (read_T inst3) [] 0)._add 1
          (u_init (read_T inst3) 3) (List.replicate 3 0)).1._T.length = [0] := by decide!
    rw [e]
    have e2 : [0].getD (draws 1 % [0].length) 0 = 0 := by
      show [0].getD (draws 1 % 1) 0 = 0
      rw [Nat.mod_one]; rfl
    rw [e2, grasp_loop_done _ _ _ _ _ _ _ _ (by decide!)]
    decide!


/-! ## Local search: the coverage vector -/

theorem length_v_shift (T : List (List Nat)) (d : Int) (v : List Int) (i : Nat) :
    (v_shift T d v i).length = v.length := by
  unfold v_shift
  exact length_foldl_vadd d _ v

theorem vget_v_shift (c : List ℚ) (S T : List (List Nat)) (hI : Indexed c S T) (d : Int)
    (v : List Int) (hv : v.length = S.length) (i j : Nat) :
    vget (v_shift T d v i) j = vget v j + if j ∈ T.getD i [] then d else 0 := by
  unfold v_shift
  rw [vget_foldl_vadd d _ (hI.sortedT i).nodup v j]
  by_cases hj : j ∈ T.getD i []
  · have : j < v.length := by rw [hv]; exact ((hI.memT i j).mp hj).1
    rw [if_pos ⟨hj, this⟩, if_pos hj]
  · rw [if_neg hj, if_neg (fun e => hj e.1)]

theorem cover_count_erase (T : List (List Nat)) (x : List Nat) (it : Nat) (h : it ∈ x)
    (j : Nat) :
    (cover_count T (x.erase it) j : Int)
      = (cover_count T x j : Int) - if j ∈ T.getD it [] then 1 else 0 := by
  have hp := List.perm_cons_erase h
  rw [cover_count_perm T x _ hp j, cover_count_cons]
  push_cast
  split_ifs <;> simp

theorem sum_erase (f : Nat → ℚ) (x : List Nat) (it : Nat) (h : it ∈ x) :
    ((x.erase it).map f).sum = (x.map f).sum - f it := by
  have hp := List.perm_cons_erase h
  rw [(hp.map f).sum_eq, List.map_cons, List.sum_cons]; ring

theorem cover_count_set_insert (T : List (List Nat)) (x : List Nat) (i : Nat) (h : i ∉ x)
    (j : Nat) :
    (cover_count T (set_insert i x) j : Int)
      = (cover_count T x j : Int) + if j ∈ T.getD i [] then 1 else 0 := by
  rw [cover_count_perm T _ _ (set_insert_perm i x h) j, cover_count_cons]
  push_cast
  split_ifs <;> simp

theorem sum_set_insert (f : Nat → ℚ) (x : List Nat) (i : Nat) (h : i ∉ x) :
    ((set_insert i x).map f).sum = (x.map f).sum + f i := by
  rw [((set_insert_perm i x h).map f).sum_eq, List.map_cons, List.sum_cons]; ring

theorem ls_init_fold (c : List ℚ) (S T : List (List Nat)) (hI : Indexed c S T) (L : List Nat) :
    ∀ (a : ℚ × List Int), a.2.length = S.length →
      (L.foldl (ls_init_step c T) a).1 = a.1 + (L.map (fun i => c.getD i 0)).sum ∧
      (L.foldl (ls_init_step c T) a).2.length = S.length ∧
      ∀ j, vget (L.foldl (ls_init_step c T) a).2 j = vget a.2 j + (cover_count T L j : Int) := by
  induction L with
  | nil =>
    intro a ha
    refine ⟨by simp, ha, ?_⟩
    intro j; simp [cover_count]
  | cons b L ih =>
    intro a ha
    rw [List.foldl_cons]
    have hl : (ls_init_step c T a b).2.length = S.length := by
      show (v_shift T 1 a.2 b).length = S.length
      rw [length_v_shift]; exact ha
    obtain ⟨i1, i2, i3⟩ := ih (ls_init_step c T a b) hl
    refine ⟨?_, i2, ?_⟩
    · rw [i1]
      show a.1 + c.getD b 0 + _ = _
      rw [List.map_cons, List.sum_cons]; ring
    · intro j
      rw [i3]
      show vget (v_shift T 1 a.2 b) j + _ = _
      rw [vget_v_shift c S T hI 1 a.2 ha b j, cover_count_cons]
      push_cast
      ring

/-- The bookkeeping of the local search holds after the first loop of `run`. -/
theorem lsinv_start (ls : scp_local_search) (hI : Indexed ls._c ls._S ls._T)
    (hnd : ls._x.Nodup) (hlt : ∀ i ∈ ls._x, i < ls._c.length) :
    LSInv ls._c ls._S ls._T ls._x ls.start.1._z ls.start.2 ∧
      ls.start.1 = { ls with _z := (ls._x.map (fun i => ls._c.getD i 0)).sum } := by
  obtain ⟨i1, i2, i3⟩ := ls_init_fold ls._c ls._S ls._T hI ls._x (0, List.replicate ls._S.length 0)
    (by simp)
  have hz : ls.start.1._z = (ls._x.map (fun i => ls._c.getD i 0)).sum := by
    show (ls._x.foldl (ls_init_step ls._c ls._T) (0, List.replicate ls._S.length 0)).1 = _
    rw [i1]; simp
  refine ⟨⟨i2, hnd, hlt, ?_, hz⟩, ?_⟩
  · intro j
    show vget (ls._x.foldl (ls_init_step ls._c ls._T) (0, List.replicate ls._S.length 0)).2 j = _
    rw [i3, vget_replicate_zero]; simp
  · show ({ ls with _z := ls.start.1._z } : scp_local_search) = _
    rw [hz]

/-! ## Local search: the 1-0 exchange -/

theorem is_useless_iff (T : List (List Nat)) (v : List Int) (it : Nat) :
    is_useless T v it = true ↔ ∀ j, j ∈ T.getD it [] → 1 < vget v j := by
  unfold is_useless
  rw [List.all_eq_true]
  constructor
  · intro h j hj
    have := h j hj
    simpa using this
  · intro h j hj
    have := h j hj
    simpa using this

theorem is_useless_false_iff (T : List (List Nat)) (v : List Int) (it : Nat) :
    is_useless T v it = false ↔ ∃ j, j ∈ T.getD it [] ∧ vget v j ≤ 1 := by
  rw [← Bool.not_eq_true, is_useless_iff]
  push_neg
  rfl

theorem run_1_0_step_mk (c : List ℚ) (S T : List (List Nat)) (x : List Nat) (z : ℚ)
    (v : List Int) (it : Nat) :
    run_1_0_step (scp_local_search.mk c S T x z, v) it
      = if is_useless T v it then
          (scp_local_search.mk c S T (x.erase it) (z - c.getD it 0), v_shift T (-1) v it)
        else (scp_local_search.mk c S T x z, v) := rfl

/-- Removing a useless member keeps the bookkeeping and every coverage. -/
theorem lsinv_drop (c : List ℚ) (S T : List (List Nat)) (hI : Indexed c S T)
    (x : List Nat) (z : ℚ) (v : List Int) (h : LSInv c S T x z v) (it : Nat) (hit : it ∈ x)
    (hu : is_useless T v it = true) :
    LSInv c S T (x.erase it) (z - c.getD it 0) (v_shift T (-1) v it) ∧
      (∀ j, vget (v_shift T (-1) v it) j ≤ vget v j) ∧
      (∀ j, 1 ≤ vget v j → 1 ≤ vget (v_shift T (-1) v it) j) := by
  have hv : ∀ j, vget (v_shift T (-1) v it) j = vget v j + if j ∈ T.getD it [] then -1 else 0 :=
    vget_v_shift c S T hI (-1) v h.lenv it
  refine ⟨⟨?_, ?_, ?_, ?_, ?_⟩, ?_, ?_⟩
  · rw [length_v_shift]; exact h.lenv
  · exact h.nodup.erase it
  · intro i hi; exact h.xlt i (List.mem_of_mem_erase hi)
  · intro j
    rw [hv, cover_count_erase T x it hit, h.vcount]
    split_ifs <;> ring
  · rw [sum_erase _ x it hit, h.zsum]
  · intro j; rw [hv]; split_ifs <;> omega
  · intro j hj
    rw [hv]
    by_cases hm : j ∈ T.getD it []
    · have := (is_useless_iff T v it).mp hu j hm
      rw [if_pos hm]; omega
    · rw [if_neg hm]; omega

/-- The pass of `run_1_0` over a list `L` of members of the selection. -/
theorem drop_fold_spec (c : List ℚ) (S T : List (List Nat)) (hI : Indexed c S T)
    (L : List Nat) :
    ∀ (x : List Nat) (z : ℚ) (v : List Int), LSInv c S T x z v → L.Nodup →
      (∀ it ∈ L, it ∈ x) →
      ∃ x' z' v', L.foldl run_1_0_step (scp_local_search.mk c S T x z, v)
          = (scp_local_search.mk c S T x' z', v') ∧
        LSInv c S T x' z' v' ∧ (∀ j, vget v' j ≤ vget v j) ∧
        (∀ j, 1 ≤ vget v j → 1 ≤ vget v' j) ∧ x'.Sublist x ∧
        ((∀ it ∈ L, 0 ≤ c.getD it 0) → z' ≤ z) ∧
        (∀ it ∈ L, it ∈ x' → is_useless T v' it = false) := by
  induction L with
  | nil =>
    intro x z v h _ _
    exact ⟨x, z, v, rfl, h, fun _ => le_refl _, fun _ hj => hj, List.Sublist.refl _,
      fun _ => le_refl _, fun it hit => by simp at hit⟩
  | cons b L ih =>
    intro x z v h hnd hmem
    have hnd2 := List.nodup_cons.mp hnd
    have hb : b ∈ x := hmem b (List.mem_cons_self b L)
    rw [List.foldl_cons, run_1_0_step_mk]
    by_cases hu : is_useless T v b = true
    · rw [if_pos hu]
      obtain ⟨d1, d2, d3⟩ := lsinv_drop c S T hI x z v h b hb hu
      have hmem2 : ∀ it ∈ L, it ∈ x.erase b := by
        intro it hit
        have hne : it ≠ b := fun e => hnd2.1 (e ▸ hit)
        exact (List.mem_erase_of_ne hne).mpr (hmem it (List.mem_cons_of_mem b hit))
      obtain ⟨x', z', v', e, q1, q2, q3, q4, q5, q6⟩ := ih _ _ _ d1 hnd2.2 hmem2
      refine ⟨x', z', v', e, q1, ?_, ?_, ?_, ?_, ?_⟩
      · intro j; exact le_trans (q2 j) (d2 j)
      · intro j hj; exact q3 j (d3 j hj)
      · exact q4.trans (List.erase_sublist b x)
      · intro hc
        have h1 := q5 (fun it hit => hc it (List.mem_cons_of_mem b hit))
        have h2 := hc b (List.mem_cons_self b L)
        linarith
      · intro it hit hx'
        rcases List.mem_cons.mp hit with e2 | e2
        · subst e2
          have : it ∈ x.erase it := q4.subset hx'
          exact absurd this (List.Nodup.not_mem_erase h.nodup)
        · exact q6 it e2 hx'
    · rw [if_neg hu]
      have hmem2 : ∀ it ∈ L, it ∈ x := fun it hit => hmem it (List.mem_cons_of_mem b hit)
      obtain ⟨x', z', v', e, q1, q2, q3, q4, q5, q6⟩ := ih _ _ _ h hnd2.2 hmem2
      refine ⟨x', z', v', e, q1, q2, q3, q4, ?_, ?_⟩
      · intro hc
        exact q5 (fun it hit => hc it (List.mem_cons_of_mem b hit))
      · intro it hit hx'
        rcases List.mem_cons.mp hit with e2 | e2
        · subst e2
          have hf : is_useless T v it = false := by simpa using hu
          obtain ⟨j, hj, hj1⟩ := (is_useless_false_iff T v it).mp hf
          exact (is_useless_false_iff T v' it).mpr ⟨j, hj, le_trans (q2 j) hj1⟩
        · exact q6 it e2 hx'

/-- A pass of `run_1_0` over members none of which is useless changes nothing. -/
theorem drop_fold_id (L : List Nat) (ls : scp_local_search) (v : List Int)
    (h : ∀ it ∈ L, is_useless ls._T v it = false) :
    L.foldl run_1_0_step (ls, v) = (ls, v) := by
  induction L with
  | nil => rfl
  | cons b L ih =>
    rw [List.foldl_cons]
    have hb := h b (List.mem_cons_self b L)
    have hs : run_1_0_step (ls, v) b = (ls, v) := by
      unfold run_1_0_step
      simp only [hb]
      rfl
    rw [hs]
    exact ih (fun it hit => h it (List.mem_cons_of_mem b hit))

/-! ## Local search: the 1-1 exchange -/

theorem includes_iff (a b : List Nat) : includes a b = true ↔ ∀ j, j ∈ b → j ∈ a := by
  unfold includes
  rw [List.all_eq_true]
  constructor
  · intro h j hj
    have := h j hj
    simpa using this
  · intro h j hj
    have := h j hj
    simpa using this

theorem cond_1_1_iff (c : List ℚ) (S T : List (List Nat)) (x : List Nat) (z : ℚ)
    (v : List Int) (it i : Nat) :
    cond_1_1 (scp_local_search.mk c S T x z) v it i = true ↔
      c.getD i 0 < c.getD it 0 ∧ i ∉ x ∧
        ∀ j, j ∈ T.getD it [] → vget v j ≤ 1 → j ∈ T.getD i [] := by
  unfold cond_1_1
  simp only [Bool.and_eq_true, decide_eq_true_eq, Bool.not_eq_true', includes_iff, to_cover_1,
    List.mem_filter, sub_neg]
  constructor
  · rintro ⟨⟨h1, h2⟩, h3⟩
    refine ⟨h1, ?_, fun j hj hv => h3 j ⟨hj, hv⟩⟩
    intro hx
    have : x.contains i = true := by simpa using hx
    rw [this] at h2
    exact Bool.noConfusion h2
  · rintro ⟨h1, h2, h3⟩
    refine ⟨⟨h1, ?_⟩, fun j hj => h3 j hj.1 hj.2⟩
    cases hc : x.contains i with
    | false => rfl
    | true => exact absurd (by simpa using hc) h2

theorem find_1_1_some (ls : scp_local_search) (v : List Int) (p : Nat × Nat)
    (h : find_1_1 ls v = some p) :
    p.1 ∈ ls._x ∧ p.2 < ls._T.length ∧ cond_1_1 ls v p.1 p.2 = true := by
  unfold find_1_1 at h
  obtain ⟨it, hit, hf⟩ := List.exists_of_findSome?_eq_some h
  obtain ⟨i, hi, he⟩ := Option.map_eq_some'.mp hf
  subst he
  exact ⟨hit, List.mem_range.mp (List.mem_of_find?_eq_some hi), List.find?_some hi⟩

theorem apply_1_1_mk (c : List ℚ) (S T : List (List Nat)) (x : List Nat) (z : ℚ)
    (v : List Int) (it i : Nat) :
    apply_1_1 (scp_local_search.mk c S T x z) v it i
      = (scp_local_search.mk c S T (set_insert i (x.erase it))
          (z + (c.getD i 0 - c.getD it 0)), v_shift T 1 (v_shift T (-1) v it) i) := rfl

theorem countP_lt_countP (p q : Nat → Bool) (l : List Nat)
    (hpq : ∀ k, k ∈ l → p k = true → q k = true) (a : Nat) (ha : a ∈ l)
    (hqa : q a = true) (hpa : p a = false) : l.countP p < l.countP q := by
  induction l with
  | nil => simp at ha
  | cons b l ih =>
    have hmono : l.countP p ≤ l.countP q :=
      List.countP_mono_left (fun k hk hp => hpq k (List.mem_cons_of_mem b hk) hp)
    rw [List.countP_cons, List.countP_cons]
    rcases List.mem_cons.mp ha with e | e
    · subst e
      rw [if_pos hqa, if_neg (by rw [hpa]; simp)]
      omega
    · have := ih (fun k hk hp => hpq k (List.mem_cons_of_mem b hk) hp) e
      by_cases hpb : p b = true
      · rw [if_pos hpb, if_pos (hpq b (List.mem_cons_self b l) hpb)]; omega
      · rw [if_neg hpb]; split_ifs <;> omega

theorem cheaper_count_lt (c : List ℚ) (i it : Nat) (hi : i < c.length)
    (h : c.getD i 0 < c.getD it 0) : cheaper_count c i < cheaper_count c it := by
  unfold cheaper_count
  apply countP_lt_countP _ _ _ _ i (List.mem_range.mpr hi)
  · simpa using h
  · simp
  · intro k _ hk
    simp only [decide_eq_true_eq] at hk ⊢
    exact lt_trans hk h

theorem swap_potential_perm (c : List ℚ) (x y : List Nat) (h : x.Perm y) :
    swap_potential c x = swap_potential c y := by
  unfold swap_potential
  exact (h.map _).sum_eq

/-- A 1-1 exchange that passes the test keeps the bookkeeping and every coverage, lowers the
cost and the measure, and keeps the number of selected items. -/
theorem lsinv_swap_1_1 (c : List ℚ) (S T : List (List Nat)) (hI : Indexed c S T)
    (x : List Nat) (z : ℚ) (v : List Int) (h : LSInv c S T x z v) (it i : Nat) (hit : it ∈ x)
    (hi : i < c.length) (hc : cond_1_1 (scp_local_search.mk c S T x z) v it i = true) :
    LSInv c S T (set_insert i (x.erase it)) (z + (c.getD i 0 - c.getD it 0))
        (v_shift T 1 (v_shift T (-1) v it) i) ∧
      (∀ j, 1 ≤ vget v j → 1 ≤ vget (v_shift T 1 (v_shift T (-1) v it) i) j) ∧
      z + (c.getD i 0 - c.getD it 0) < z ∧
      swap_potential c (set_insert i (x.erase it)) < swap_potential c x ∧
      (set_insert i (x.erase it)).length = x.length := by
  obtain ⟨c1, c2, c3⟩ := (cond_1_1_iff c S T x z v it i).mp hc
  have hie : i ∉ x.erase it := fun e => c2 (List.mem_of_mem_erase e)
  have hl1 : (v_shift T (-1) v it).length = S.length := by rw [length_v_shift]; exact h.lenv
  have hv : ∀ j, vget (v_shift T 1 (v_shift T (-1) v it) i) j
      = vget v j + (if j ∈ T.getD it [] then -1 else 0) + if j ∈ T.getD i [] then 1 else 0 := by
    intro j
    rw [vget_v_shift c S T hI 1 _ hl1 i j, vget_v_shift c S T hI (-1) v h.lenv it j]
  have hp1 := set_insert_perm i (x.erase it) hie
  have hp2 := List.perm_cons_erase hit
  refine ⟨⟨?_, ?_, ?_, ?_, ?_⟩, ?_, ?_, ?_, ?_⟩
  · rw [length_v_shift]; exact hl1
  · exact hp1.nodup_iff.mpr (List.nodup_cons.mpr ⟨hie, h.nodup.erase it⟩)
  · intro k hk
    rcases (mem_set_insert i k _).mp hk with e | e
    · exact e ▸ hi
    · exact h.xlt k (List.mem_of_mem_erase e)
  · intro j
    rw [hv, cover_count_set_insert T _ i hie, cover_count_erase T x it hit, h.vcount]
    split_ifs <;> ring
  · rw [sum_set_insert _ _ i hie, sum_erase _ x it hit, h.zsum]; ring
  · intro j hj
    rw [hv]
    by_cases hm : j ∈ T.getD it []
    · by_cases hle : vget v j ≤ 1
      · have := c3 j hm hle
        rw [if_pos hm, if_pos this]; omega
      · rw [if_pos hm]; split_ifs <;> omega
    · rw [if_neg hm]; split_ifs <;> omega
  · linarith
  · rw [swap_potential_perm c _ _ hp1, swap_potential_perm c x _ hp2]
    unfold swap_potential
    rw [List.map_cons, List.sum_cons, List.map_cons, List.sum_cons]
    have := cheaper_count_lt c i it hi c1
    omega
  · rw [hp1.length_eq, hp2.length_eq]; rfl

theorem run_1_1_of_none (fuel : Nat) (ls : scp_local_search) (v : List Int)
    (h : find_1_1 ls v = none) : scp_local_search.run_1_1 fuel ls v = some (ls, v) := by
  cases fuel <;> simp only [scp_local_search.run_1_1, h]

theorem run_1_1_of_some (fuel : Nat) (ls : scp_local_search) (v : List Int) (p : Nat × Nat)
    (h : find_1_1 ls v = some p) :
    scp_local_search.run_1_1 (fuel + 1) ls v
      = scp_local_search.run_1_1 fuel (apply_1_1 ls v p.1 p.2).1 (apply_1_1 ls v p.1 p.2).2 := by
  simp only [scp_local_search.run_1_1, h]

theorem run_1_1_zero_of_some (ls : scp_local_search) (v : List Int) (p : Nat × Nat)
    (h : find_1_1 ls v = some p) : scp_local_search.run_1_1 0 ls v = none := by
  simp only [scp_local_search.run_1_1, h]

/-- The loop of `run_1_1`: what holds of every answer. -/
theorem run_1_1_spec (c : List ℚ) (S T : List (List Nat)) (hI : Indexed c S T) (fuel : Nat) :
    ∀ (x : List Nat) (z : ℚ) (v : List Int), LSInv c S T x z v →
      ∀ r, scp_local_search.run_1_1 fuel (scp_local_search.mk c S T x z) v = some r →
      ∃ x' z' v', r = (scp_local_search.mk c S T x' z', v') ∧ LSInv c S T x' z' v' ∧
        (∀ j, 1 ≤ vget v j → 1 ≤ vget v' j) ∧ z' ≤ z ∧ x'.length = x.length ∧
        find_1_1 (scp_local_search.mk c S T x' z') v' = none := by
  induction fuel with
  | zero =>
    intro x z v h r hr
    cases hf : find_1_1 (scp_local_search.mk c S T x z) v with
    | none =>
      rw [run_1_1_of_none _ _ _ hf] at hr
      simp only [Option.some.injEq] at hr
      exact ⟨x, z, v, hr.symm, h, fun _ hj => hj, le_refl _, rfl, hf⟩
    | some p =>
      rw [run_1_1_zero_of_some _ _ _ hf] at hr
      simp at hr
  | succ fuel ih =>
    intro x z v h r hr
    cases hf : find_1_1 (scp_local_search.mk c S T x z) v with
    | none =>
      rw [run_1_1_of_none _ _ _ hf] at hr
      simp only [Option.some.injEq] at hr
      exact ⟨x, z, v, hr.symm, h, fun _ hj => hj, le_refl _, rfl, hf⟩
    | some p =>
      rw [run_1_1_of_some _ _ _ _ hf, apply_1_1_mk] at hr
      obtain ⟨f1, f2, f3⟩ := find_1_1_some _ _ _ hf
      have hi : p.2 < c.length := by rw [← hI.lenT]; exact f2
      obtain ⟨s1, s2, s3, -, s5⟩ := lsinv_swap_1_1 c S T hI x z v h p.1 p.2 f1 hi f3
      obtain ⟨x', z', v', e, q1, q2, q3, q4, q5⟩ := ih _ _ _ s1 r hr
      exact ⟨x', z', v', e, q1, fun j hj => q2 j (s2 j hj), by linarith,
        by rw [q4, s5], q5⟩

/-- The loop of `run_1_1` ends: `swap_potential` exchanges suffice. -/
theorem run_1_1_total (c : List ℚ) (S T : List (List Nat)) (hI : Indexed c S T) (fuel : Nat) :
    ∀ (x : List Nat) (z : ℚ) (v : List Int), LSInv c S T x z v →
      swap_potential c x ≤ fuel →
      ∃ r, scp_local_search.run_1_1 fuel (scp_local_search.mk c S T x z) v = some r := by
  induction fuel with
  | zero =>
    intro x z v h hf
    cases hfind : find_1_1 (scp_local_search.mk c S T x z) v with
    | none => exact ⟨_, run_1_1_of_none _ _ _ hfind⟩
    | some p =>
      obtain ⟨f1, f2, f3⟩ := find_1_1_some _ _ _ hfind
      have hi : p.2 < c.length := by rw [← hI.lenT]; exact f2
      obtain ⟨-, -, -, s4, -⟩ := lsinv_swap_1_1 c S T hI x z v h p.1 p.2 f1 hi f3
      omega
  | succ fuel ih =>
    intro x z v h hf
    cases hfind : find_1_1 (scp_local_search.mk c S T x z) v with
    | none => exact ⟨_, run_1_1_of_none _ _ _ hfind⟩
    | some p =>
      obtain ⟨f1, f2, f3⟩ := find_1_1_some _ _ _ hfind
      have hi : p.2 < c.length := by rw [← hI.lenT]; exact f2
      obtain ⟨s1, -, -, s4, -⟩ := lsinv_swap_1_1 c S T hI x z v h p.1 p.2 f1 hi f3
      rw [run_1_1_of_some _ _ _ _ hfind, apply_1_1_mk]
      exact ih _ _ _ s1 (by omega)

/-! ## Local search: the 2-1 exchange -/

theorem mem_pairs (x : List Nat) (hnd : x.Nodup) (a b : Nat) (h : (a, b) ∈ pairs x) :
    a ∈ x ∧ b ∈ x ∧ a ≠ b := by
  induction x with
  | nil => simp [pairs] at h
  | cons y x ih =>
    have hnd2 := List.nodup_cons.mp hnd
    unfold pairs at h
    rcases List.mem_append.mp h with h1 | h1
    · obtain ⟨b', hb', e⟩ := List.mem_map.mp h1
      simp only [Prod.mk.injEq] at e
      obtain ⟨e1, e2⟩ := e
      subst e1; subst e2
      refine ⟨List.mem_cons_self _ _, List.mem_cons_of_mem _ hb', ?_⟩
      intro e; exact hnd2.1 (e ▸ hb')
    · obtain ⟨q1, q2, q3⟩ := ih hnd2.2 h1
      exact ⟨List.mem_cons_of_mem _ q1, List.mem_cons_of_mem _ q2, q3⟩

theorem cond_2_1_iff (c : List ℚ) (S T : List (List Nat)) (x : List Nat) (z : ℚ)
    (v : List Int) (it jt i : Nat) :
    cond_2_1 (scp_local_search.mk c S T x z) v it jt i = true ↔
      c.getD i 0 < c.getD it 0 + c.getD jt 0 ∧ i ∉ x ∧
        ∀ j, j < S.length → vget (v_without T v it jt) j ≤ 0 → j ∈ T.getD i [] := by
  unfold cond_2_1
  simp only [Bool.and_eq_true, decide_eq_true_eq, Bool.not_eq_true', includes_iff, to_cover_2,
    List.mem_filter, List.mem_range]
  constructor
  · rintro ⟨⟨h1, h2⟩, h3⟩
    refine ⟨by linarith, ?_, fun j hj hv => h3 j ⟨hj, hv⟩⟩
    intro hx
    have : x.contains i = true := by simpa using hx
    rw [this] at h2
    exact Bool.noConfusion h2
  · rintro ⟨h1, h2, h3⟩
    refine ⟨⟨by linarith, ?_⟩, fun j hj => h3 j hj.1 hj.2⟩
    cases hc : x.contains i with
    | false => rfl
    | true => exact absurd (by simpa using hc) h2

theorem find_2_1_some (ls : scp_local_search) (v : List Int) (p : Nat × Nat × Nat)
    (h : find_2_1 ls v = some p) :
    (p.1, p.2.1) ∈ pairs ls._x ∧ p.2.2 < ls._T.length ∧
      cond_2_1 ls v p.1 p.2.1 p.2.2 = true := by
  unfold find_2_1 at h
  obtain ⟨q, hq, hf⟩ := List.exists_of_findSome?_eq_some h
  obtain ⟨i, hi, he⟩ := Option.map_eq_some'.mp hf
  subst he
  exact ⟨hq, List.mem_range.mp (List.mem_of_find?_eq_some hi), List.find?_some hi⟩

theorem apply_2_1_mk (c : List ℚ) (S T : List (List Nat)) (x : List Nat) (z : ℚ)
    (v : List Int) (it jt i : Nat) :
    apply_2_1 (scp_local_search.mk c S T x z) v it jt i
      = (scp_local_search.mk c S T (set_insert i ((x.erase it).erase jt))
          (z + (c.getD i 0 - c.getD it 0 - c.getD jt 0)),
          v_shift T 1 (v_without T v it jt) i) := rfl

/-- A 2-1 exchange that passes the test keeps the bookkeeping and every coverage, lowers the
cost, and removes one item from the selection. -/
theorem lsinv_swap_2_1 (c : List ℚ) (S T : List (List Nat)) (hI : Indexed c S T)
    (x : List Nat) (z : ℚ) (v : List Int) (h : LSInv c S T x z v) (it jt i : Nat)
    (hit : it ∈ x) (hjt : jt ∈ x) (hne : it ≠ jt) (hi : i < c.length)
    (hc : cond_2_1 (scp_local_search.mk c S T x z) v it jt i = true) :
    LSInv c S T (set_insert i ((x.erase it).erase jt))
        (z + (c.getD i 0 - c.getD it 0 - c.getD jt 0))
        (v_shift T 1 (v_without T v it jt) i) ∧
      (∀ j, 1 ≤ vget v j → 1 ≤ vget (v_shift T 1 (v_without T v it jt) i) j) ∧
      z + (c.getD i 0 - c.getD it 0 - c.getD jt 0) < z ∧
      (set_insert i ((x.erase it).erase jt)).length + 1 = x.length := by
  obtain ⟨c1, c2, c3⟩ := (cond_2_1_iff c S T x z v it jt i).mp hc
  have hjt2 : jt ∈ x.erase it := (List.mem_erase_of_ne (fun e => hne e.symm)).mpr hjt
  have hie : i ∉ (x.erase it).erase jt :=
    fun e => c2 (List.mem_of_mem_erase (List.mem_of_mem_erase e))
  have hl1 : (v_shift T (-1) v it).length = S.length := by rw [length_v_shift]; exact h.lenv
  have hl2 : (v_without T v it jt).length = S.length := by
    unfold v_without; rw [length_v_shift]; exact hl1
  have hw : ∀ j, vget (v_without T v it jt) j
      = (cover_count T ((x.erase it).erase jt) j : Int) := by
    intro j
    unfold v_without
    rw [vget_v_shift c S T hI (-1) _ hl1 jt j, vget_v_shift c S T hI (-1) v h.lenv it j,
      cover_count_erase T _ jt hjt2, cover_count_erase T x it hit, h.vcount]
    split_ifs <;> ring
  have hv : ∀ j, vget (v_shift T 1 (v_without T v it jt) i) j
      = (cover_count T ((x.erase it).erase jt) j : Int) + if j ∈ T.getD i [] then 1 else 0 := by
    intro j
    rw [vget_v_shift c S T hI 1 _ hl2 i j, hw]
  have hp1 := set_insert_perm i ((x.erase it).erase jt) hie
  have hp2 := List.perm_cons_erase hit
  have hp3 := List.perm_cons_erase hjt2
  refine ⟨⟨?_, ?_, ?_, ?_, ?_⟩, ?_, ?_, ?_⟩
  · rw [length_v_shift]; exact hl2
  · exact hp1.nodup_iff.mpr (List.nodup_cons.mpr ⟨hie, (h.nodup.erase it).erase jt⟩)
  · intro k hk
    rcases (mem_set_insert i k _).mp hk with e | e
    · exact e ▸ hi
    · exact h.xlt k (List.mem_of_mem_erase (List.mem_of_mem_erase e))
  · intro j
    rw [hv, cover_count_set_insert T _ i hie]
  · rw [sum_set_insert _ _ i hie, sum_erase _ _ jt hjt2, sum_erase _ x it hit, h.zsum]; ring
  · intro j hj
    rw [hv]
    have hjn : j < S.length := by
      by_contra hcon
      have := vget_of_le v j (by rw [h.lenv]; omega)
      omega
    have hw0 : (0 : Int) ≤ (cover_count T ((x.erase it).erase jt) j : Int) :=
      Int.natCast_nonneg _
    by_cases hle : vget (v_without T v it jt) j ≤ 0
    · have := c3 j hjn hle
      rw [if_pos this]; omega
    · rw [hw] at hle
      split_ifs <;> omega
  · linarith
  · have e1 := hp1.length_eq
    have e2 := hp2.length_eq
    have e3 := hp3.length_eq
    simp only [List.length_cons] at e1 e2 e3
    omega

theorem run_2_1_of_none (fuel : Nat) (ls : scp_local_search) (v : List Int)
    (h : find_2_1 ls v = none) : scp_local_search.run_2_1 fuel ls v = some (ls, v) := by
  cases fuel <;> simp only [scp_local_search.run_2_1, h]

theorem run_2_1_of_some (fuel : Nat) (ls : scp_local_search) (v : List Int)
    (p : Nat × Nat × Nat) (h : find_2_1 ls v = some p) :
    scp_local_search.run_2_1 (fuel + 1) ls v
      = scp_local_search.run_2_1 fuel (apply_2_1 ls v p.1 p.2.1 p.2.2).1
          (apply_2_1 ls v p.1 p.2.1 p.2.2).2 := by
  simp only [scp_local_search.run_2_1, h]

theorem run_2_1_zero_of_some (ls : scp_local_search) (v : List Int) (p : Nat × Nat × Nat)
    (h : find_2_1 ls v = some p) : scp_local_search.run_2_1 0 ls v = none := by
  simp only [scp_local_search.run_2_1, h]

/-- The loop of `run_2_1`: what holds of every answer. -/
theorem run_2_1_spec (c : List ℚ) (S T : List (List Nat)) (hI : Indexed c S T) (fuel : Nat) :
    ∀ (x : List Nat) (z : ℚ) (v : List Int), LSInv c S T x z v →
      ∀ r, scp_local_search.run_2_1 fuel (scp_local_search.mk c S T x z) v = some r →
      ∃ x' z' v', r = (scp_local_search.mk c S T x' z', v') ∧ LSInv c S T x' z' v' ∧
        (∀ j, 1 ≤ vget v j → 1 ≤ vget v' j) ∧ z' ≤ z ∧ x'.length ≤ x.length ∧
        find_2_1 (scp_local_search.mk c S T x' z') v' = none := by
  induction fuel with
  | zero =>
    intro x z v h r hr
    cases hf : find_2_1 (scp_local_search.mk c S T x z) v with
    | none =>
      rw [run_2_1_of_none _ _ _ hf] at hr
      simp only [Option.some.injEq] at hr
      exact ⟨x, z, v, hr.symm, h, fun _ hj => hj, le_refl _, le_refl _, hf⟩
    | some p =>
      rw [run_2_1_zero_of_some _ _ _ hf] at hr
      simp at hr
  | succ fuel ih =>
    intro x z v h r hr
    cases hf : find_2_1 (scp_local_search.mk c S T x z) v with
    | none =>
      rw [run_2_1_of_none _ _ _ hf] at hr
      simp only [Option.some.injEq] at hr
      exact ⟨x, z, v, hr.symm, h, fun _ hj => hj, le_refl _, le_refl _, hf⟩
    | some p =>
      rw [run_2_1_of_some _ _ _ _ hf, apply_2_1_mk] at hr
      obtain ⟨f1, f2, f3⟩ := find_2_1_some _ _ _ hf
      obtain ⟨m1, m2, m3⟩ := mem_pairs x h.nodup _ _ f1
      have hi : p.2.2 < c.length := by rw [← hI.lenT]; exact f2
      obtain ⟨s1, s2, s3, s4⟩ := lsinv_swap_2_1 c S T hI x z v h p.1 p.2.1 p.2.2 m1 m2 m3 hi f3
      obtain ⟨x', z', v', e, q1, q2, q3, q4, q5⟩ := ih _ _ _ s1 r hr
      exact ⟨x', z', v', e, q1, fun j hj => q2 j (s2 j hj), by linarith, by omega, q5⟩

/-- The loop of `run_2_1` ends: every exchange removes a selected item. -/
theorem run_2_1_total (c : List ℚ) (S T : List (List Nat)) (hI : Indexed c S T) (fuel : Nat) :
    ∀ (x : List Nat) (z : ℚ) (v : List Int), LSInv c S T x z v → x.length ≤ fuel →
      ∃ r, scp_local_search.run_2_1 fuel (scp_local_search.mk c S T x z) v = some r := by
  induction fuel with
  | zero =>
    intro x z v h hf
    cases hfind : find_2_1 (scp_local_search.mk c S T x z) v with
    | none => exact ⟨_, run_2_1_of_none _ _ _ hfind⟩
    | some p =>
      obtain ⟨f1, f2, f3⟩ := find_2_1_some _ _ _ hfind
      obtain ⟨m1, m2, m3⟩ := mem_pairs x h.nodup _ _ f1
      have hi : p.2.2 < c.length := by rw [← hI.lenT]; exact f2
      obtain ⟨-, -, -, s4⟩ := lsinv_swap_2_1 c S T hI x z v h p.1 p.2.1 p.2.2 m1 m2 m3 hi f3
      omega
  | succ fuel ih =>
    intro x z v h hf
    cases hfind : find_2_1 (scp_local_search.mk c S T x z) v with
    | none => exact ⟨_, run_2_1_of_none _ _ _ hfind⟩
    | some p =>
      obtain ⟨f1, f2, f3⟩ := find_2_1_some _ _ _ hfind
      obtain ⟨m1, m2, m3⟩ := mem_pairs x h.nodup _ _ f1
      have hi : p.2.2 < c.length := by rw [← hI.lenT]; exact f2
      obtain ⟨s1, -, -, s4⟩ := lsinv_swap_2_1 c S T hI x z v h p.1 p.2.1 p.2.2 m1 m2 m3 hi f3
      rw [run_2_1_of_some _ _ _ _ hfind, apply_2_1_mk]
      exact ih _ _ _ s1 (by omega)

/-! ## `scp_local_search::run` -/

theorem vget_ext (v w : List Int) (hl : v.length = w.length) (h : ∀ j, vget v j = vget w j) :
    v = w := by
  apply List.ext_getElem hl
  intro n h1 h2
  have := h n
  unfold vget at this
  rw [List.getD_eq_getElem _ _ h1, List.getD_eq_getElem _ _ h2] at this
  exact this

/-- The bookkeeping determines `v` and `z` from the selection. -/
theorem lsinv_unique (c : List ℚ) (S T : List (List Nat)) (x : List Nat) (z z' : ℚ)
    (v v' : List Int) (h : LSInv c S T x z v) (h' : LSInv c S T x z' v') : z = z' ∧ v = v' := by
  refine ⟨by rw [h.zsum, h'.zsum], ?_⟩
  apply vget_ext _ _ (by rw [h.lenv, h'.lenv])
  intro j
  rw [h.vcount, h'.vcount]

/-- On an object whose `_z` and `v` already fit the selection, the first loop of `run`
recomputes the same `_z` and `v`. -/
theorem start_of_lsinv (c : List ℚ) (S T : List (List Nat)) (hI : Indexed c S T)
    (x : List Nat) (z : ℚ) (v : List Int) (h : LSInv c S T x z v) :
    (scp_local_search.mk c S T x z).start = (scp_local_search.mk c S T x z, v) := by
  obtain ⟨s1, s2⟩ := lsinv_start (scp_local_search.mk c S T x z) hI h.nodup h.xlt
  obtain ⟨e1, e2⟩ := lsinv_unique c S T x _ _ _ _ s1 h
  apply Prod.ext
  · rw [s2]
    show scp_local_search.mk c S T x ((x.map (fun i => c.getD i 0)).sum) = _
    rw [← h.zsum]
  · exact e2

theorem start_mk (c : List ℚ) (S T : List (List Nat)) (hI : Indexed c S T)
    (x : List Nat) (z0 : ℚ) (hnd : x.Nodup) (hlt : ∀ i ∈ x, i < c.length) :
    ∃ v, (scp_local_search.mk c S T x z0).start
        = (scp_local_search.mk c S T x ((x.map (fun i => c.getD i 0)).sum), v) ∧
      LSInv c S T x ((x.map (fun i => c.getD i 0)).sum) v := by
  obtain ⟨s1, s2⟩ := lsinv_start (scp_local_search.mk c S T x z0) hI hnd hlt
  refine ⟨(scp_local_search.mk c S T x z0).start.2, ?_, ?_⟩
  · apply Prod.ext
    · exact s2
    · rfl
  · have hz : (scp_local_search.mk c S T x z0).start.1._z
        = (x.map (fun i => c.getD i 0)).sum := by rw [s2]
    rw [← hz]; exact s1

theorem cheaper_count_le (c : List ℚ) (i : Nat) : cheaper_count c i ≤ c.length := by
  unfold cheaper_count
  have := List.countP_le_length (fun k => decide (c.getD k 0 < c.getD i 0))
    (l := List.range c.length)
  rwa [List.length_range] at this

theorem swap_potential_le (c : List ℚ) (x : List Nat) :
    swap_potential c x ≤ x.length * c.length := by
  unfold swap_potential
  induction x with
  | nil => simp
  | cons a x ih =>
    rw [List.map_cons, List.sum_cons, List.length_cons, Nat.add_mul, Nat.one_mul]
    have := cheaper_count_le c a
    omega

/-- The 1-0 pass of `run_1_0` from a state that fits the selection. -/
theorem run_1_0_spec (c : List ℚ) (S T : List (List Nat)) (hI : Indexed c S T)
    (x : List Nat) (z : ℚ) (v : List Int) (h : LSInv c S T x z v) :
    ∃ x' z' v', (scp_local_search.mk c S T x z).run_1_0 v
          = (scp_local_search.mk c S T x' z', v') ∧
        LSInv c S T x' z' v' ∧ (∀ j, 1 ≤ vget v j → 1 ≤ vget v' j) ∧ x'.Sublist x ∧
        ((∀ it ∈ x, 0 ≤ c.getD it 0) → z' ≤ z) ∧
        (∀ it ∈ x', is_useless T v' it = false) := by
  obtain ⟨x', z', v', e, q1, -, q3, q4, q5, q6⟩ :=
    drop_fold_spec c S T hI x x z v h h.nodup (fun it hit => hit)
  exact ⟨x', z', v', e, q1, q3, q4, q5, fun it hit => q6 it (q4.subset hit) hit⟩

/-- Every answer of `scp_local_search::run`: it is `true`, the bookkeeping holds, no coverage
is lost, the selection does not grow, the cost does not increase when the 1-0 exchange is
off or the selected items have non-negative costs, and the enabled exchange that ran last
finds nothing more. -/
theorem ls_run_spec (c : List ℚ) (S T : List (List Nat)) (hI : Indexed c S T)
    (x : List Nat) (z0 : ℚ) (hnd : x.Nodup) (hlt : ∀ i ∈ x, i < c.length)
    (mask fuel : Nat) (r : Bool × scp_local_search)
    (hr : (scp_local_search.mk c S T x z0).run mask fuel = some r) :
    ∃ x' z' v', r = (true, scp_local_search.mk c S T x' z') ∧ LSInv c S T x' z' v' ∧
      (∀ j, 1 ≤ cover_count T x j → 1 ≤ cover_count T x' j) ∧ x'.length ≤ x.length ∧
      ((mask &&& scp_local_search._1_0 = 0 ∨ ∀ it ∈ x, 0 ≤ c.getD it 0) →
        z' ≤ (x.map (fun i => c.getD i 0)).sum) ∧
      (mask &&& scp_local_search._1_0 ≠ 0 → mask &&& scp_local_search._1_1 = 0 →
        mask &&& scp_local_search._2_1 = 0 → ∀ it ∈ x', is_useless T v' it = false) ∧
      (mask &&& scp_local_search._1_1 ≠ 0 → mask &&& scp_local_search._2_1 = 0 →
        find_1_1 (scp_local_search.mk c S T x' z') v' = none) ∧
      (mask &&& scp_local_search._2_1 ≠ 0 →
        find_2_1 (scp_local_search.mk c S T x' z') v' = none) := by
  obtain ⟨v0, hs, h0⟩ := start_mk c S T hI x z0 hnd hlt
  unfold scp_local_search.run at hr
  simp only [hs] at hr
  -- the 1-0 exchange
  obtain ⟨x1, z1, v1, e1, h1, k1, l1, m1, u1⟩ :
      ∃ x1 z1 v1,
        (if mask &&& scp_local_search._1_0 ≠ 0 then
            (scp_local_search.mk c S T x ((x.map (fun i => c.getD i 0)).sum)).run_1_0 v0
          else (scp_local_search.mk c S T x ((x.map (fun i => c.getD i 0)).sum), v0))
          = (scp_local_search.mk c S T x1 z1, v1) ∧
        LSInv c S T x1 z1 v1 ∧ (∀ j, 1 ≤ vget v0 j → 1 ≤ vget v1 j) ∧
        x1.length ≤ x.length ∧
        ((mask &&& scp_local_search._1_0 = 0 ∨ ∀ it ∈ x, 0 ≤ c.getD it 0) →
          z1 ≤ (x.map (fun i => c.getD i 0)).sum) ∧
        (mask &&& scp_local_search._1_0 ≠ 0 → ∀ it ∈ x1, is_useless T v1 it = false) := by
    by_cases hb : mask &&& scp_local_search._1_0 ≠ 0
    · rw [if_pos hb]
      obtain ⟨x1, z1, v1, e, q1, q2, q3, q4, q5⟩ := run_1_0_spec c S T hI x _ v0 h0
      refine ⟨x1, z1, v1, e, q1, q2, q3.length_le, ?_, fun _ => q5⟩
      rintro (e0 | hc)
      · exact absurd e0 hb
      · exact q4 hc
    · rw [if_neg hb]
      exact ⟨x, _, v0, rfl, h0, fun _ hj => hj, le_refl _, fun _ => le_refl _,
        fun e => absurd e hb⟩
  rw [e1] at hr
  -- the 1-1 exchange
  obtain ⟨s2, hs2, hr2⟩ := Option.bind_eq_some.mp hr
  obtain ⟨x2, z2, v2, e2, h2, k2, l2, m2, u2, w2⟩ :
      ∃ x2 z2 v2, s2 = (scp_local_search.mk c S T x2 z2, v2) ∧
        LSInv c S T x2 z2 v2 ∧ (∀ j, 1 ≤ vget v1 j → 1 ≤ vget v2 j) ∧
        x2.length ≤ x1.length ∧ z2 ≤ z1 ∧
        (mask &&& scp_local_search._1_1 = 0 → x2 = x1 ∧ z2 = z1 ∧ v2 = v1) ∧
        (mask &&& scp_local_search._1_1 ≠ 0 →
          find_1_1 (scp_local_search.mk c S T x2 z2) v2 = none) := by
    by_cases hb : mask &&& scp_local_search._1_1 ≠ 0
    · rw [if_pos hb] at hs2
      obtain ⟨x2, z2, v2, e, q1, q2, q3, q4, q5⟩ := run_1_1_spec c S T hI fuel x1 z1 v1 h1 s2 hs2
      exact ⟨x2, z2, v2, e, q1, q2, le_of_eq q4, q3, fun e0 => absurd e0 hb, fun _ => q5⟩
    · rw [if_neg hb] at hs2
      simp only [Option.some.injEq] at hs2
      exact ⟨x1, z1, v1, hs2.symm, h1, fun _ hj => hj, le_refl _, le_refl _,
        fun _ => ⟨rfl, rfl, rfl⟩, fun e => absurd e hb⟩
  subst e2
  -- the 2-1 exchange
  obtain ⟨s3, hs3, hr3⟩ := Option.bind_eq_some.mp hr2
  obtain ⟨x3, z3, v3, e3, h3, k3, l3, m3, u3, w3⟩ :
      ∃ x3 z3 v3, s3 = (scp_local_search.mk c S T x3 z3, v3) ∧
        LSInv c S T x3 z3 v3 ∧ (∀ j, 1 ≤ vget v2 j → 1 ≤ vget v3 j) ∧
        x3.length ≤ x2.length ∧ z3 ≤ z2 ∧
        (mask &&& scp_local_search._2_1 = 0 → x3 = x2 ∧ z3 = z2 ∧ v3 = v2) ∧
        (mask &&& scp_local_search._2_1 ≠ 0 →
          find_2_1 (scp_local_search.mk c S T x3 z3) v3 = none) := by
    by_cases hb : mask &&& scp_local_search._2_1 ≠ 0
    · rw [if_pos hb] at hs3
      obtain ⟨x3, z3, v3, e, q1, q2, q3, q4, q5⟩ := run_2_1_spec c S T hI fuel x2 z2 v2 h2 s3 hs3
      exact ⟨x3, z3, v3, e, q1, q2, q4, q3, fun e0 => absurd e0 hb, fun _ => q5⟩
    · rw [if_neg hb] at hs3
      simp only [Option.some.injEq] at hs3
      exact ⟨x2, z2, v2, hs3.symm, h2, fun _ hj => hj, le_refl _, le_refl _,
        fun _ => ⟨rfl, rfl, rfl⟩, fun e => absurd e hb⟩
  subst e3
  simp only [Option.some.injEq] at hr3
  refine ⟨x3, z3, v3, hr3.symm, h3, ?_, by omega, ?_, ?_, ?_, w3⟩
  · intro j hj
    have a0 : 1 ≤ vget v0 j := by rw [h0.vcount]; exact_mod_cast hj
    have a3 := k3 j (k2 j (k1 j a0))
    rw [h3.vcount] at a3
    exact_mod_cast a3
  · intro hc
    have := m1 hc
    linarith
  · intro b0 b1 b2
    obtain ⟨rfl, rfl, rfl⟩ := u3 b2
    obtain ⟨rfl, rfl, rfl⟩ := u2 b1
    exact u1 b0
  · intro b1 b2
    obtain ⟨rfl, rfl, rfl⟩ := u3 b2
    exact w2 b1

/-- On a selection within `[0, m)`, `scp_local_search::run` returns as soon as the fuel
allows `|x| * m` exchanges. -/
theorem ls_run_total (c : List ℚ) (S T : List (List Nat)) (hI : Indexed c S T)
    (x : List Nat) (z0 : ℚ) (hnd : x.Nodup) (hlt : ∀ i ∈ x, i < c.length)
    (mask fuel : Nat) (hf : x.length * c.length ≤ fuel) :
    ∃ r, (scp_local_search.mk c S T x z0).run mask fuel = some r := by
  obtain ⟨v0, hs, h0⟩ := start_mk c S T hI x z0 hnd hlt
  unfold scp_local_search.run
  simp only [hs]
  have hxf : x.length ≤ fuel := by
    cases x with
    | nil => simp
    | cons a x =>
      have : 0 < c.length := by
        have := hlt a (List.mem_cons_self a x); omega
      have : (a :: x).length * 1 ≤ (a :: x).length * c.length := Nat.mul_le_mul_left _ this
      omega
  obtain ⟨x1, z1, v1, e1, h1, l1⟩ :
      ∃ x1 z1 v1,
        (if mask &&& scp_local_search._1_0 ≠ 0 then
            (scp_local_search.mk c S T x ((x.map (fun i => c.getD i 0)).sum)).run_1_0 v0
          else (scp_local_search.mk c S T x ((x.map (fun i => c.getD i 0)).sum), v0))
          = (scp_local_search.mk c S T x1 z1, v1) ∧
        LSInv c S T x1 z1 v1 ∧ x1.length ≤ x.length := by
    by_cases hb : mask &&& scp_local_search._1_0 ≠ 0
    · rw [if_pos hb]
      obtain ⟨x1, z1, v1, e, q1, -, q3, -, -⟩ := run_1_0_spec c S T hI x _ v0 h0
      exact ⟨x1, z1, v1, e, q1, q3.length_le⟩
    · rw [if_neg hb]
      exact ⟨x, _, v0, rfl, h0, le_refl _⟩
  rw [e1]
  obtain ⟨x2, z2, v2, e2, h2, l2⟩ :
      ∃ x2 z2 v2,
        (if mask &&& scp_local_search._1_1 ≠ 0 then
            scp_local_search.run_1_1 fuel (scp_local_search.mk c S T x1 z1) v1
          else some (scp_local_search.mk c S T x1 z1, v1))
          = some (scp_local_search.mk c S T x2 z2, v2) ∧
        LSInv c S T x2 z2 v2 ∧ x2.length ≤ x1.length := by
    by_cases hb : mask &&& scp_local_search._1_1 ≠ 0
    · rw [if_pos hb]
      have hpot : swap_potential c x1 ≤ fuel := by
        have a1 := swap_potential_le c x1
        have a2 : x1.length * c.length ≤ x.length * c.length := Nat.mul_le_mul_right _ l1
        omega
      obtain ⟨r, hrr⟩ := run_1_1_total c S T hI fuel x1 z1 v1 h1 hpot
      obtain ⟨x2, z2, v2, e, q1, -, -, q4, -⟩ := run_1_1_spec c S T hI fuel x1 z1 v1 h1 r hrr
      exact ⟨x2, z2, v2, by rw [hrr, e], q1, le_of_eq q4⟩
    · rw [if_neg hb]
      exact ⟨x1, z1, v1, rfl, h1, le_refl _⟩
  rw [e2, Option.some_bind]
  by_cases hb : mask &&& scp_local_search._2_1 ≠ 0
  · rw [if_pos hb]
    obtain ⟨r, hrr⟩ := run_2_1_total c S T hI fuel x2 z2 v2 h2 (by omega)
    rw [hrr, Option.some_bind]
    exact ⟨_, rfl⟩
  · rw [if_neg hb, Option.some_bind]
    exact ⟨_, rfl⟩

theorem run_1_1_mono (fuel : Nat) :
    ∀ (ls : scp_local_search) (v : List Int) (r : scp_local_search × List Int),
      scp_local_search.run_1_1 fuel ls v = some r →
      ∀ k, scp_local_search.run_1_1 (fuel + k) ls v = some r := by
  induction fuel with
  | zero =>
    intro ls v r hr k
    cases hf : find_1_1 ls v with
    | none => rw [run_1_1_of_none _ _ _ hf] at hr ⊢; exact hr
    | some p => rw [run_1_1_zero_of_some _ _ _ hf] at hr; simp at hr
  | succ fuel ih =>
    intro ls v r hr k
    cases hf : find_1_1 ls v with
    | none => rw [run_1_1_of_none _ _ _ hf] at hr ⊢; exact hr
    | some p =>
      rw [run_1_1_of_some _ _ _ _ hf] at hr
      have e : fuel + 1 + k = (fuel + k) + 1 := by omega
      rw [e, run_1_1_of_some _ _ _ _ hf]
      exact ih _ _ _ hr k

theorem run_2_1_mono (fuel : Nat) :
    ∀ (ls : scp_local_search) (v : List Int) (r : scp_local_search × List Int),
      scp_local_search.run_2_1 fuel ls v = some r →
      ∀ k, scp_local_search.run_2_1 (fuel + k) ls v = some r := by
  induction fuel with
  | zero =>
    intro ls v r hr k
    cases hf : find_2_1 ls v with
    | none => rw [run_2_1_of_none _ _ _ hf] at hr ⊢; exact hr
    | some p => rw [run_2_1_zero_of_some _ _ _ hf] at hr; simp at hr
  | succ fuel ih =>
    intro ls v r hr k
    cases hf : find_2_1 ls v with
    | none => rw [run_2_1_of_none _ _ _ hf] at hr ⊢; exact hr
    | some p =>
      rw [run_2_1_of_some _ _ _ _ hf] at hr
      have e : fuel + 1 + k = (fuel + k) + 1 := by omega
      rw [e, run_2_1_of_some _ _ _ _ hf]
      exact ih _ _ _ hr k

/-- More fuel does not change an answer of `scp_local_search::run`. -/
theorem ls_run_mono (ls : scp_local_search) (mask fuel : Nat) (r : Bool × scp_local_search)
    (hr : ls.run mask fuel = some r) (k : Nat) : ls.run mask (fuel + k) = some r := by
  unfold scp_local_search.run at hr ⊢
  obtain ⟨s2, hs2, hr2⟩ := Option.bind_eq_some.mp hr
  obtain ⟨s3, hs3, hr3⟩ := Option.bind_eq_some.mp hr2
  have e2 : (if mask &&& scp_local_search._1_1 ≠ 0 then
        scp_local_search.run_1_1 (fuel + k)
          (if mask &&& scp_local_search._1_0 ≠ 0 then ls.start.1.run_1_0 ls.start.2
            else ls.start).1
          (if mask &&& scp_local_search._1_0 ≠ 0 then ls.start.1.run_1_0 ls.start.2
            else ls.start).2
      else some (if mask &&& scp_local_search._1_0 ≠ 0 then ls.start.1.run_1_0 ls.start.2
            else ls.start)) = some s2 := by
    by_cases hb : mask &&& scp_local_search._1_1 ≠ 0
    · rw [if_pos hb] at hs2 ⊢
      exact run_1_1_mono fuel _ _ _ hs2 k
    · rw [if_neg hb] at hs2 ⊢
      exact hs2
  have e3 : (if mask &&& scp_local_search._2_1 ≠ 0 then
        scp_local_search.run_2_1 (fuel + k) s2.1 s2.2 else some s2) = some s3 := by
    by_cases hb : mask &&& scp_local_search._2_1 ≠ 0
    · rw [if_pos hb] at hs3 ⊢
      exact run_2_1_mono fuel _ _ _ hs3 k
    · rw [if_neg hb] at hs3 ⊢
      exact hs3
  simp only [e2, Option.some_bind, e3]
  exact hr3

/-- A second call of `run` on a state that fits its selection and on which the enabled
exchanges find nothing returns the object unchanged. -/
theorem ls_rerun (c : List ℚ) (S T : List (List Nat)) (hI : Indexed c S T)
    (x : List Nat) (z : ℚ) (v : List Int) (h : LSInv c S T x z v) (mask fuel : Nat)
    (h0 : mask &&& scp_local_search._1_0 ≠ 0 → ∀ it ∈ x, is_useless T v it = false)
    (h1 : mask &&& scp_local_search._1_1 ≠ 0 →
      find_1_1 (scp_local_search.mk c S T x z) v = none)
    (h2 : mask &&& scp_local_search._2_1 ≠ 0 →
      find_2_1 (scp_local_search.mk c S T x z) v = none) :
    (scp_local_search.mk c S T x z).run mask fuel
      = some (true, scp_local_search.mk c S T x z) := by
  unfold scp_local_search.run
  simp only [start_of_lsinv c S T hI x z v h]
  have e1 : (if mask &&& scp_local_search._1_0 ≠ 0 then
        (scp_local_search.mk c S T x z).run_1_0 v
      else (scp_local_search.mk c S T x z, v)) = (scp_local_search.mk c S T x z, v) := by
    by_cases hb : mask &&& scp_local_search._1_0 ≠ 0
    · rw [if_pos hb]
      exact drop_fold_id x (scp_local_search.mk c S T x z) v (h0 hb)
    · rw [if_neg hb]
  rw [e1]
  have e2 : (if mask &&& scp_local_search._1_1 ≠ 0 then
        scp_local_search.run_1_1 fuel (scp_local_search.mk c S T x z) v
      else some (scp_local_search.mk c S T x z, v))
        = some (scp_local_search.mk c S T x z, v) := by
    by_cases hb : mask &&& scp_local_search._1_1 ≠ 0
    · rw [if_pos hb]; exact run_1_1_of_none _ _ _ (h1 hb)
    · rw [if_neg hb]
  have e3 : (if mask &&& scp_local_search._2_1 ≠ 0 then
        scp_local_search.run_2_1 fuel (scp_local_search.mk c S T x z) v
      else some (scp_local_search.mk c S T x z, v))
        = some (scp_local_search.mk c S T x z, v) := by
    by_cases hb : mask &&& scp_local_search._2_1 ≠ 0
    · rw [if_pos hb]; exact run_2_1_of_none _ _ _ (h2 hb)
    · rw [if_neg hb]
  simp only [e2, Option.some_bind, e3]

/-! ## The states visited by the selection loops -/

/-- Every state visited by the selection loop of `scp_grasp::run` keeps the instance and
the bookkeeping. -/
theorem grasp_visited_inv (draws : Nat → Nat) (c_min : Option ℚ) (fuel : Nat) :
    ∀ (g : scp_grasp) (u v : List Int) (nc : Int) (t : Nat),
      Indexed g._c g._S g._T → SelInv g._c g._S g._T g._x g._z u v nc →
      ∀ s, s ∈ scp_grasp.visited draws c_min fuel g u v nc t →
        (s.1._c = g._c ∧ s.1._S = g._S ∧ s.1._T = g._T) ∧
          SelInv g._c g._S g._T s.1._x s.1._z s.2.1 s.2.2.1 s.2.2.2 := by
  induction fuel with
  | zero =>
    intro g u v nc t _ h s hs
    simp only [scp_grasp.visited, List.mem_singleton] at hs
    subst hs
    exact ⟨⟨rfl, rfl, rfl⟩, h⟩
  | succ fuel ih =>
    intro g u v nc t hI h s hs
    simp only [scp_grasp.visited, List.mem_cons] at hs
    rcases hs with hs | hs
    · subst hs
      exact ⟨⟨rfl, rfl, rfl⟩, h⟩
    · split_ifs at hs with h1 h2
      · simp at hs
      · have hne : build_rcl g._c c_min g.alpha g.epsilon u g._T.length ≠ [] :=
          fun e => h2 (List.isEmpty_iff.mpr e)
        have hk := (mem_build_rcl _ _ _ _ _ _ _).mp (getD_mod_mem _ hne (draws t))
        have hkc : (build_rcl g._c c_min g.alpha g.epsilon u g._T.length).getD
            (draws t % (build_rcl g._c c_min g.alpha g.epsilon u g._T.length).length) 0
              < g._c.length := by rw [← hI.lenT]; exact hk.1
        have hcand := selinv_candidate _ _ _ hI _ _ _ _ _ h _ hk.2.1
        have hinv := selinv_add _ _ _ hI _ _ _ _ _ h _ hkc hcand.1 _
          (set_insert_perm _ _ hcand.1)
        exact ih (g._add _ u v).1 _ _ _ _ hI hinv s hs
      · simp at hs

/-- Every state visited by the selection loop of `scp_repair::run` keeps the instance and
the bookkeeping. -/
theorem repair_visited_inv (draws : Nat → Nat) (c_min : Option ℚ) (fuel : Nat) :
    ∀ (r : scp_repair) (u v : List Int) (nc : Int) (t : Nat),
      Indexed r._c r._S r._T → SelInv r._c r._S r._T r._x r._z u v nc →
      ∀ s, s ∈ scp_repair.visited draws c_min fuel r u v nc t →
        (s.1._c = r._c ∧ s.1._S = r._S ∧ s.1._T = r._T) ∧
          SelInv r._c r._S r._T s.1._x s.1._z s.2.1 s.2.2.1 s.2.2.2 := by
  induction fuel with
  | zero =>
    intro r u v nc t _ h s hs
    simp only [scp_repair.visited, List.mem_singleton] at hs
    subst hs
    exact ⟨⟨rfl, rfl, rfl⟩, h⟩
  | succ fuel ih =>
    intro r u v nc t hI h s hs
    simp only [scp_repair.visited, List.mem_cons] at hs
    rcases hs with hs | hs
    · subst hs
      exact ⟨⟨rfl, rfl, rfl⟩, h⟩
    · split_ifs at hs with h1 h2
      · simp at hs
      · have hne : build_rcl r._c c_min r.alpha r.epsilon u r._T.length ≠ [] :=
          fun e => h2 (List.isEmpty_iff.mpr e)
        have hk := (mem_build_rcl _ _ _ _ _ _ _).mp (getD_mod_mem _ hne (draws t))
        have hkc : (build_rcl r._c c_min r.alpha r.epsilon u r._T.length).getD
            (draws t % (build_rcl r._c c_min r.alpha r.epsilon u r._T.length).length) 0
              < r._c.length := by rw [← hI.lenT]; exact hk.1
        have hcand := selinv_candidate _ _ _ hI _ _ _ _ _ h _ hk.2.1
        have hinv := selinv_add _ _ _ hI _ _ _ _ _ h _ hkc hcand.1 _
          (set_insert_perm _ _ hcand.1)
        exact ih (({ r with _x := set_insert _ r._x } : scp_repair)._add _ u v).1 _ _ _ _
          hI hinv s hs
      · simp at hs

/-- The bookkeeping of the proofs gives the residual-benefit bookkeeping in the words of
the specification. -/
theorem residual_of_selinv (c : List ℚ) (S T : List (List Nat)) (x : List Nat) (z : ℚ)
    (u v : List Int) (nc : Int) (h : SelInv c S T x z u v nc) : residual_ok S T x u v nc := by
  have hu : ∀ i, vget u i
      = (((T.getD i []).countP (fun j => decide (∀ k ∈ x, j ∉ T.getD k [])) : Nat) : Int) := by
    intro i
    rw [h.ucount i]
    congr 1
    apply List.countP_congr
    intro j _
    simp only [decide_eq_true_eq]
    rw [h.vcount j]
    unfold cover_count
    constructor
    · intro e k hk hjk
      have e0 : x.countP (fun i => decide (j ∈ T.getD i [])) = 0 := by exact_mod_cast e
      rw [List.countP_eq_zero] at e0
      have := e0 k hk
      simp only [decide_eq_true_eq] at this
      exact this hjk
    · intro e
      have : x.countP (fun i => decide (j ∈ T.getD i [])) = 0 := by
        rw [List.countP_eq_zero]
        intro k hk
        simp only [decide_eq_true_eq]
        exact e k hk
      exact_mod_cast this
  refine ⟨hu, h.vcount, h.ncount, ?_⟩
  intro i
  rw [hu i]
  exact Int.natCast_nonneg _


theorem getLast?_cons_of_some (a : α) (l : List α) (b : α) (h : l.getLast? = some b) :
    (a :: l).getLast? = some b := by
  cases l with
  | nil => simp at h
  | cons c l => rw [List.getLast?_cons_cons]; exact h

/-- The object returned by the selection loop of `scp_grasp::run` is the object of the last
state visited. -/
theorem grasp_visited_last (draws : Nat → Nat) (c_min : Option ℚ) (fuel : Nat) :
    ∀ (g : scp_grasp) (u v : List Int) (nc : Int) (t : Nat) (b : Bool) (g' : scp_grasp)
      (t' : Nat), scp_grasp.loop draws c_min fuel g u v nc t = some (b, g', t') →
      ∃ u' v' nc', (scp_grasp.visited draws c_min fuel g u v nc t).getLast?
        = some (g', u', v', nc') := by
  induction fuel with
  | zero =>
    intro g u v nc t b g' t' hr
    simp only [scp_grasp.loop] at hr
    split_ifs at hr
    simp only [Option.some.injEq, Prod.mk.injEq] at hr
    obtain ⟨-, rfl, -⟩ := hr
    exact ⟨u, v, nc, rfl⟩
  | succ fuel ih =>
    intro g u v nc t b g' t' hr
    simp only [scp_grasp.loop] at hr
    simp only [scp_grasp.visited]
    split_ifs at hr ⊢ with h1 h2
    · simp only [Option.some.injEq, Prod.mk.injEq] at hr
      obtain ⟨-, rfl, -⟩ := hr
      exact ⟨u, v, nc, rfl⟩
    · obtain ⟨u', v', nc', e⟩ := ih _ _ _ _ _ b g' t' hr
      exact ⟨u', v', nc', getLast?_cons_of_some _ _ _ e⟩
    · simp only [Option.some.injEq, Prod.mk.injEq] at hr
      obtain ⟨-, rfl, -⟩ := hr
      exact ⟨u, v, nc, rfl⟩

/-- The object returned by the selection loop of `scp_repair::run` is the object of the
last state visited. -/
theorem repair_visited_last (draws : Nat → Nat) (c_min : Option ℚ) (fuel : Nat) :
    ∀ (r : scp_repair) (u v : List Int) (nc : Int) (t : Nat) (b : Bool) (r' : scp_repair)
      (t' : Nat), scp_repair.loop draws c_min fuel r u v nc t = some (b, r', t') →
      ∃ u' v' nc', (scp_repair.visited draws c_min fuel r u v nc t).getLast?
        = some (r', u', v', nc') := by
  induction fuel with
  | zero =>
    intro r u v nc t b r' t' hr
    simp only [scp_repair.loop] at hr
    split_ifs at hr
    simp only [Option.some.injEq, Prod.mk.injEq] at hr
    obtain ⟨-, rfl, -⟩ := hr
    exact ⟨u, v, nc, rfl⟩
  | succ fuel ih =>
    intro r u v nc t b r' t' hr
    simp only [scp_repair.loop] at hr
    simp only [scp_repair.visited]
    split_ifs at hr ⊢ with h1 h2
    · simp only [Option.some.injEq, Prod.mk.injEq] at hr
      obtain ⟨-, rfl, -⟩ := hr
      exact ⟨u, v, nc, rfl⟩
    · obtain ⟨u', v', nc', e⟩ := ih _ _ _ _ _ b r' t' hr
      exact ⟨u', v', nc', getLast?_cons_of_some _ _ _ e⟩
    · simp only [Option.some.injEq, Prod.mk.injEq] at hr
      obtain ⟨-, rfl, -⟩ := hr
      exact ⟨u, v, nc, rfl⟩

/-! ## Local search: what a finished scan means -/

/-- A selected item that covers `j` while at most one selected item covers `j` is the only
selected item covering `j`. -/
theorem only_cover_of_count_le_one (T : List (List Nat)) (x : List Nat)
    (s j : Nat) (hs : s ∈ x) (hj : j ∈ T.getD s []) (hc : cover_count T x j ≤ 1) :
    ∀ k, k ∈ x → k ≠ s → j ∉ T.getD k [] := by
  have hp := List.perm_cons_erase hs
  rw [cover_count_perm T x _ hp j, cover_count_cons, if_pos hj] at hc
  have h0 : cover_count T (x.erase s) j = 0 := by omega
  intro k hk hks hjk
  have : 0 < cover_count T (x.erase s) j :=
    (cover_count_pos T _ j).mpr ⟨k, (List.mem_erase_of_ne hks).mpr hk, hjk⟩
  omega

/-- A requirement covered by `s` and by no other selected item has coverage count one. -/
theorem count_le_one_of_only_cover (T : List (List Nat)) (x : List Nat) (hnd : x.Nodup)
    (s j : Nat) (hs : s ∈ x) (h : ∀ k, k ∈ x → k ≠ s → j ∉ T.getD k []) :
    cover_count T x j ≤ 1 := by
  have hp := List.perm_cons_erase hs
  rw [cover_count_perm T x _ hp j, cover_count_cons]
  have h0 : cover_count T (x.erase s) j = 0 := by
    by_contra hcon
    have hpos : 0 < cover_count T (x.erase s) j := by omega
    obtain ⟨k, hk, hjk⟩ := (cover_count_pos T _ j).mp hpos
    have hks : k ≠ s := fun e => by
      rw [e] at hk
      exact List.Nodup.not_mem_erase hnd hk
    exact h k (List.mem_of_mem_erase hk) hks hjk
  rw [h0]
  split_ifs <;> omega

theorem find_1_1_none (ls : scp_local_search) (v : List Int) (h : find_1_1 ls v = none) :
    ∀ it, it ∈ ls._x → ∀ i, i < ls._T.length → cond_1_1 ls v it i = false := by
  unfold find_1_1 at h
  rw [List.findSome?_eq_none_iff] at h
  intro it hit i hi
  have h1 := h it hit
  rw [Option.map_eq_none', List.find?_eq_none] at h1
  have := h1 i (List.mem_range.mpr hi)
  simpa using this

/-- The test of `run_1_0` in terms of the coverage counts. -/
theorem is_useless_eq_rule (c : List ℚ) (S T : List (List Nat)) (x : List Nat) (z : ℚ)
    (v : List Int) (h : LSInv c S T x z v) (it : Nat) :
    (T.getD it []).all (fun j => decide (2 ≤ cover_count T x j)) = is_useless T v it := by
  rw [Bool.eq_iff_iff, is_useless_iff, List.all_eq_true]
  constructor
  · intro hall j hj
    have h2 := hall j hj
    simp only [decide_eq_true_eq] at h2
    have := h.vcount j
    omega
  · intro hall j hj
    have h2 := hall j hj
    simp only [decide_eq_true_eq]
    have := h.vcount j
    omega

/-- The pass of `run_1_0` follows the rule of the specification. -/
theorem drop_fold_eq_rule (c : List ℚ) (S T : List (List Nat)) (hI : Indexed c S T)
    (L : List Nat) :
    ∀ (x : List Nat) (z : ℚ) (v : List Int), LSInv c S T x z v → L.Nodup →
      (∀ it ∈ L, it ∈ x) →
      (L.foldl run_1_0_step (scp_local_search.mk c S T x z, v)).1
        = scp_local_search.mk c S T (drop_rule c T L (x, z)).1 (drop_rule c T L (x, z)).2 := by
  induction L with
  | nil => intro x z v _ _ _; rfl
  | cons b L ih =>
    intro x z v h hnd hmem
    have hnd2 := List.nodup_cons.mp hnd
    have hb : b ∈ x := hmem b (List.mem_cons_self b L)
    rw [List.foldl_cons, run_1_0_step_mk]
    unfold drop_rule
    rw [is_useless_eq_rule c S T x z v h b]
    by_cases hu : is_useless T v b = true
    · rw [if_pos hu, if_pos hu]
      obtain ⟨d1, -, -⟩ := lsinv_drop c S T hI x z v h b hb hu
      have hmem2 : ∀ it ∈ L, it ∈ x.erase b := by
        intro it hit
        have hne : it ≠ b := fun e => hnd2.1 (e ▸ hit)
        exact (List.mem_erase_of_ne hne).mpr (hmem it (List.mem_cons_of_mem b hit))
      exact ih _ _ _ d1 hnd2.2 hmem2
    · rw [if_neg hu, if_neg hu]
      exact ih _ _ _ h hnd2.2 (fun it hit => hmem it (List.mem_cons_of_mem b hit))

/-- With only `_1_0` enabled, `run` is the first loop followed by the pass of `run_1_0`. -/
theorem ls_run_drop_only (ls : scp_local_search) (fuel : Nat) :
    ls.run scp_local_search._1_0 fuel = some (true, (ls.start.1.run_1_0 ls.start.2).1) := by
  have b0 : scp_local_search._1_0 &&& scp_local_search._1_0 ≠ 0 := by decide
  have b1 : ¬ (scp_local_search._1_0 &&& scp_local_search._1_1 ≠ 0) := by decide
  have b2 : ¬ (scp_local_search._1_0 &&& scp_local_search._2_1 ≠ 0) := by decide
  unfold scp_local_search.run
  simp only [if_pos b0, if_neg b1, if_neg b2, Option.some_bind]

/-- With no exchange enabled, `run` is its first loop. -/
theorem ls_run_none (ls : scp_local_search) (fuel : Nat) :
    ls.run 0 fuel = some (true, ls.start.1) := by
  have b0 : ¬ (0 &&& scp_local_search._1_0 ≠ 0) := by decide
  have b1 : ¬ (0 &&& scp_local_search._1_1 ≠ 0) := by decide
  have b2 : ¬ (0 &&& scp_local_search._2_1 ≠ 0) := by decide
  unfold scp_local_search.run
  simp only [if_neg b0, if_neg b1, if_neg b2, Option.some_bind]

/-! ## The accesses of the construction are within bounds -/

theorem foldl_checked_eq {α β : Type} (f : β → α → Option β) (g : β → α → β) (P : β → Prop)
    (l : List α) :
    ∀ b, P b → (∀ b a, P b → a ∈ l → f b a = some (g b a) ∧ P (g b a)) →
      foldl_checked f b l = some (l.foldl g b) ∧ P (l.foldl g b) := by
  induction l with
  | nil => intro b hb _; exact ⟨rfl, hb⟩
  | cons a l ih =>
    intro b hb h
    obtain ⟨h1, h2⟩ := h b a hb (List.mem_cons_self a l)
    simp only [foldl_checked, h1, Option.some_bind, List.foldl_cons]
    exact ih (g b a) h2 (fun b' a' hb' ha' => h b' a' hb' (List.mem_cons_of_mem a ha'))

theorem u_release_checked_eq (S : List (List Nat)) (u : List Int) (j : Nat) (hj : j < S.length)
    (hS : ∀ it, it ∈ S.getD j [] → it < u.length) :
    u_release_checked S u j = some (u_release S u j) := by
  unfold u_release_checked u_release
  rw [if_pos hj]
  exact (foldl_checked_eq _ (fun u it => vadd u it (-1)) (fun w => w.length = u.length)
    (S.getD j []) u rfl (fun b a hb ha => by
      refine ⟨?_, ?_⟩
      · unfold vadd_checked
        rw [if_pos (by rw [hb]; exact hS a ha)]
      · show (vadd b a (-1)).length = u.length
        rw [length_vadd]; exact hb)).1

theorem add_step_checked_eq (S : List (List Nat)) (a : Int × List Int × List Int) (jt : Nat)
    (hv : jt < a.2.2.length) (hj : jt < S.length)
    (hS : ∀ it, it ∈ S.getD jt [] → it < a.2.1.length) :
    add_step_checked S a jt = some (add_step S a jt) := by
  unfold add_step_checked add_step vget_checked vadd_checked
  rw [if_pos hv, u_release_checked_eq S a.2.1 jt hj hS]
  simp only [Option.some_bind, Option.map_some']
  split_ifs <;> rfl

theorem add_step_lengths (S : List (List Nat)) (a : Int × List Int × List Int) (jt : Nat) :
    (add_step S a jt).2.1.length = a.2.1.length ∧ (add_step S a jt).2.2.length = a.2.2.length := by
  unfold add_step
  split_ifs
  · exact ⟨length_u_release _ _ _, length_vadd _ _ _⟩
  · exact ⟨rfl, length_vadd _ _ _⟩

theorem add_loop_checked_eq (c : List ℚ) (S T : List (List Nat)) (hI : Indexed c S T)
    (i : Nat) (u v : List Int) (hi : i < c.length) (hu : u.length = c.length)
    (hv : v.length = S.length) :
    add_loop_checked S T i u v = some (add_loop S T i u v) := by
  unfold add_loop_checked add_loop
  rw [if_pos (by rw [hI.lenT]; exact hi)]
  exact (foldl_checked_eq _ (add_step S)
    (fun a => a.2.1.length = c.length ∧ a.2.2.length = S.length)
    (T.getD i []) (0, u, v) ⟨hu, hv⟩ (fun b jt hb hjt => by
      have hjn : jt < S.length := ((hI.memT i jt).mp hjt).1
      refine ⟨add_step_checked_eq S b jt (by rw [hb.2]; exact hjn) hjn
        (fun it hit => by rw [hb.1]; exact hI.ltS jt it hit), ?_⟩
      obtain ⟨l1, l2⟩ := add_step_lengths S b jt
      exact ⟨l1.trans hb.1, l2.trans hb.2⟩)).1

theorem add_checked_eq (g : scp_grasp) (hI : Indexed g._c g._S g._T)
    (i : Nat) (u v : List Int) (hi : i < g._c.length) (hu : u.length = g._c.length)
    (hv : v.length = g._S.length) :
    g._add_checked i u v = some (g._add i u v) := by
  unfold scp_grasp._add_checked scp_grasp._add
  rw [if_pos hi, add_loop_checked_eq g._c g._S g._T hI i u v hi hu hv]
  rfl

/-- A loop that writes `f i` at index `i` for the indices passing a test: afterwards the
vector has its length, the entries written hold `f i`, the others are untouched. -/
theorem fill_fold {α : Type} (f : Nat → α) (P : Nat → Prop) [DecidablePred P] (d : α)
    (l0 : List α) (k : Nat) :
    ((List.range k).foldl (fun l i => if P i then l.set i (f i) else l) l0).length = l0.length ∧
    ∀ j, ((List.range k).foldl (fun l i => if P i then l.set i (f i) else l) l0).getD j d
      = if j < k ∧ P j ∧ j < l0.length then f j else l0.getD j d := by
  induction k with
  | zero => simp
  | succ k ih =>
    obtain ⟨ih1, ih2⟩ := ih
    rw [List.range_succ, List.foldl_append, List.foldl_cons, List.foldl_nil]
    constructor
    · split_ifs
      · rw [List.length_set]; exact ih1
      · exact ih1
    · intro j
      by_cases hP : P k
      · rw [if_pos hP]
        by_cases hjk : j = k
        · subst hjk
          by_cases hl : j < l0.length
          · rw [List.getD_eq_getElem _ _ (by rw [List.length_set, ih1]; exact hl)]
            rw [List.getElem_set_self]
            rw [if_pos ⟨Nat.lt_succ_self j, hP, hl⟩]
          · rw [List.getD_eq_default _ _ (by rw [List.length_set, ih1]; omega)]
            rw [if_neg (fun h => hl h.2.2), List.getD_eq_default _ _ (by omega)]
        · have hset : (((List.range k).foldl (fun l i => if P i then l.set i (f i) else l)
              l0).set k (f k)).getD j d
              = ((List.range k).foldl (fun l i => if P i then l.set i (f i) else l) l0).getD j d := by
            rw [List.getD_eq_getElem?_getD, List.getD_eq_getElem?_getD,
              List.getElem?_set_ne (fun e => hjk e.symm)]
          rw [hset, ih2 j]
          by_cases hc : j < k ∧ P j ∧ j < l0.length
          · rw [if_pos hc, if_pos ⟨by omega, hc.2⟩]
          · rw [if_neg hc, if_neg (fun h => hc ⟨by omega, h.2⟩)]
      · rw [if_neg hP, ih2 j]
        by_cases hc : j < k ∧ P j ∧ j < l0.length
        · rw [if_pos hc, if_pos ⟨by omega, hc.2⟩]
        · rw [if_neg hc, if_neg (fun h => hc ⟨by
            rcases Nat.lt_succ_iff_lt_or_eq.mp h.1 with h1 | h1
            · exact h1
            · exact absurd (h1 ▸ h.2.1) hP, h.2⟩)]

theorem fill_all {α : Type} (f : Nat → α) (d : α) (m : Nat) :
    (List.range m).foldl (fun l i => l.set i (f i)) (List.replicate m d)
      = (List.range m).map f := by
  have e : (fun (l : List α) (i : Nat) => l.set i (f i))
      = (fun l i => if (fun _ => True) i then l.set i (f i) else l) := by
    funext l i; rw [if_pos trivial]
  rw [e]
  obtain ⟨h1, h2⟩ := fill_fold f (fun _ => True) d (List.replicate m d) m
  apply List.ext_getElem
  · rw [h1]; simp
  · intro i hi1 hi2
    have hi : i < m := by simpa using hi2
    have := h2 i
    rw [List.getD_eq_getElem _ _ hi1, if_pos ⟨hi, trivial, by simpa using hi⟩] at this
    rw [this]
    simp

theorem foldl_pair {α β γ : Type} (g1 : β → α → β) (g2 : γ → α → γ) (l : List α) :
    ∀ (b : β) (c : γ),
      l.foldl (fun (a : β × γ) i => (g1 a.1 i, g2 a.2 i)) (b, c) = (l.foldl g1 b, l.foldl g2 c) := by
  induction l with
  | nil => intro b c; rfl
  | cons a l ih => intro b c; simp only [List.foldl_cons]; exact ih _ _

theorem filter_fold (p : Nat → Bool) (l : List Nat) :
    ∀ r, l.foldl (fun r i => if p i = true then r ++ [i] else r) r = r ++ l.filter p := by
  induction l with
  | nil => intro r; simp
  | cons a l ih =>
    intro r
    rw [List.foldl_cons, ih]
    by_cases h : p a = true
    · rw [if_pos h, List.filter_cons_of_pos h, List.append_assoc]; rfl
    · rw [if_neg h, List.filter_cons_of_neg h]

theorem init_checked_eq (c : List ℚ) (T : List (List Nat)) (h : T.length ≤ c.length) :
    init_checked c T T.length = some (u_init T T.length, c_min_of c T.length) := by
  unfold init_checked
  have hf := foldl_checked_eq (init_step_checked c T)
    (fun (a : List Int × Option ℚ) i =>
      ((fun (l : List Int) i => l.set i ((T.getD i []).length : Int)) a.1 i, c_min_step c a.2 i))
    (fun a => a.1.length = T.length) (List.range T.length) (List.replicate T.length 0, none)
    (by simp) (fun b i hb hi => by
      have hi2 := List.mem_range.mp hi
      refine ⟨?_, ?_⟩
      · unfold init_step_checked
        rw [if_pos ⟨by rw [hb]; exact hi2, hi2, by omega⟩]
      · show (b.1.set i _).length = T.length
        rw [List.length_set]; exact hb)
  rw [hf.1, foldl_pair (fun (l : List Int) i => l.set i ((T.getD i []).length : Int))
    (c_min_step c) (List.range T.length) _ _, fill_all]
  rfl

theorem score_checked_eq (c : List ℚ) (c_min : Option ℚ) (u : List Int) (i : Nat)
    (hi : i < c.length) (hu : vget u i > 0)
    (hden : ∀ a, c_min = some a → 1 + c.getD i 0 - a ≠ 0) :
    score_checked c c_min (vget u i) i = some (e_at c c_min u i) := by
  unfold score_checked e_at
  rw [if_pos hi, if_pos hu]
  cases c_min with
  | none => rfl
  | some a => simp only; rw [if_neg (hden a rfl)]

/-- The two loops of a turn that build `rcl` make no access out of bounds and no division
by zero, and build the list of `build_rcl`. -/
theorem rcl_checked_eq (c : List ℚ) (c_min : Option ℚ) (alpha epsilon : ℚ) (u : List Int)
    (m : Nat) (hu : u.length = m) (hc : m ≤ c.length)
    (hden : ∀ i, i < m → ∀ a, c_min = some a → 1 + c.getD i 0 - a ≠ 0) :
    rcl_checked c c_min alpha epsilon u m = some (build_rcl c c_min alpha epsilon u m) := by
  unfold rcl_checked
  have hf := foldl_checked_eq (score_step_checked c c_min u)
    (fun (a : List ℚ × ℚ × ℚ) i =>
      ((fun (l : List ℚ) i => if vget u i > 0 then l.set i (e_at c c_min u i) else l) a.1 i,
        e_bounds_step c c_min u a.2 i))
    (fun a => a.1.length = m) (List.range m) (List.replicate m 0, 0, 0)
    (by simp) (fun b i hb hi => by
      have hi2 := List.mem_range.mp hi
      refine ⟨?_, ?_⟩
      · unfold score_step_checked vget_checked
        rw [if_pos (by rw [hu]; exact hi2)]
        simp only [Option.some_bind]
        by_cases hpos : vget u i > 0
        · rw [if_pos hpos, score_checked_eq c c_min u i (by omega) hpos (hden i hi2)]
          simp only [Option.some_bind]
          rw [if_pos (by rw [hb]; exact hi2)]
          unfold e_bounds_step
          rw [if_pos hpos, if_pos hpos]
        · rw [if_neg hpos]
          unfold e_bounds_step
          rw [if_neg hpos, if_neg hpos]
      · show (if vget u i > 0 then b.1.set i (e_at c c_min u i) else b.1).length = m
        split_ifs
        · rw [List.length_set]; exact hb
        · exact hb)
  rw [hf.1, foldl_pair
    (fun (l : List ℚ) i => if vget u i > 0 then l.set i (e_at c c_min u i) else l)
    (e_bounds_step c c_min u) (List.range m) _ _]
  simp only [Option.some_bind]
  obtain ⟨f1, f2⟩ := fill_fold (fun i => e_at c c_min u i) (fun i => vget u i > 0) 0
    (List.replicate m (0 : ℚ)) m
  have hlen : ((List.range m).foldl
      (fun (l : List ℚ) i => if vget u i > 0 then l.set i (e_at c c_min u i) else l)
      (List.replicate m 0)).length = m := by rw [f1]; simp
  have hget : ∀ i, i < m → ((List.range m).foldl
      (fun (l : List ℚ) i => if vget u i > 0 then l.set i (e_at c c_min u i) else l)
      (List.replicate m 0)).getD i 0 = e_at c c_min u i := by
    intro i hi
    rw [f2 i]
    by_cases hpos : vget u i > 0
    · rw [if_pos ⟨hi, hpos, by simpa using hi⟩]
    · rw [if_neg (fun h => hpos h.2.1)]
      have : e_at c c_min u i = 0 := by unfold e_at; rw [if_neg hpos]
      rw [this]
      rw [List.getD_eq_getElem _ _ (by simpa using hi)]
      simp
  generalize (List.range m).foldl
      (fun (l : List ℚ) i => if vget u i > 0 then l.set i (e_at c c_min u i) else l)
      (List.replicate m 0) = e at hlen hget
  have hb : (List.range m).foldl (e_bounds_step c c_min u) (0, 0) = e_bounds c c_min u m := rfl
  rw [hb]
  have hg := foldl_checked_eq
    (rcl_step_checked u e epsilon (e_limit alpha (e_bounds c c_min u m)))
    (fun r i => if (decide (vget u i > 0) &&
        decide (e.getD i 0 + epsilon ≥ e_limit alpha (e_bounds c c_min u m))) = true
      then r ++ [i] else r)
    (fun _ => True) (List.range m) [] trivial (fun r i _ hi => by
      have hi2 := List.mem_range.mp hi
      refine ⟨?_, trivial⟩
      unfold rcl_step_checked vget_checked
      rw [if_pos (by rw [hu]; exact hi2)]
      simp only [Option.some_bind]
      by_cases hpos : vget u i > 0
      · rw [if_pos hpos, if_pos (by rw [hlen]; exact hi2)]
        simp only [decide_eq_true hpos, Bool.true_and, decide_eq_true_eq]
      · rw [if_neg hpos]
        simp only [decide_eq_false hpos, Bool.false_and]
        rfl)
  rw [hg.1, filter_fold, List.nil_append]
  unfold build_rcl
  congr 1
  apply List.filter_congr
  intro i hi
  rw [hget i (List.mem_range.mp hi)]

theorem divisor_ne_zero (c : List ℚ) (m i : Nat) (hi : i < m) (a : ℚ)
    (ha : c_min_of c m = some a) : 1 + c.getD i 0 - a ≠ 0 := by
  obtain ⟨a', h1, h2, -⟩ := c_min_of_spec c m (by omega)
  rw [h1] at ha
  simp only [Option.some.injEq] at ha
  subst ha
  have := h2 i hi
  intro h
  linarith

/-- The selection loop of `scp_grasp::run` makes no access out of bounds, no division by
zero and no remainder by zero: with every access tested it answers as `scp_grasp.loop`. -/
theorem grasp_loop_checked_eq (draws : Nat → Nat) (fuel : Nat) :
    ∀ (g : scp_grasp) (u v : List Int) (nc : Int) (t : Nat),
      Indexed g._c g._S g._T → SelInv g._c g._S g._T g._x g._z u v nc →
      scp_grasp.loop_checked draws (c_min_of g._c g._T.length) fuel g u v nc t
        = some (scp_grasp.loop draws (c_min_of g._c g._T.length) fuel g u v nc t) := by
  induction fuel with
  | zero =>
    intro g u v nc t _ _
    simp only [scp_grasp.loop_checked, scp_grasp.loop]
    split_ifs <;> rfl
  | succ fuel ih =>
    intro g u v nc t hI h
    simp only [scp_grasp.loop_checked, scp_grasp.loop]
    by_cases h1 : nc < (g._S.length : Int)
    · rw [if_pos h1, if_pos h1,
        rcl_checked_eq g._c _ g.alpha g.epsilon u g._T.length (by rw [h.lenu, hI.lenT])
          (by rw [hI.lenT]) (fun i hi a ha => divisor_ne_zero g._c g._T.length i hi a ha)]
      simp only [Option.some_bind]
      by_cases h2 : (build_rcl g._c (c_min_of g._c g._T.length) g.alpha g.epsilon u
          g._T.length).isEmpty = true
      · rw [if_pos h2, if_pos h2]
      · rw [if_neg h2, if_neg h2]
        have hne : build_rcl g._c (c_min_of g._c g._T.length) g.alpha g.epsilon u g._T.length
            ≠ [] := fun e => h2 (List.isEmpty_iff.mpr e)
        have hpos : 0 < (build_rcl g._c (c_min_of g._c g._T.length) g.alpha g.epsilon u
            g._T.length).length := List.length_pos.mpr hne
        rw [if_pos ⟨by omega, Nat.mod_lt _ hpos⟩]
        have hk := (mem_build_rcl _ _ _ _ _ _ _).mp (getD_mod_mem _ hne (draws t))
        have hkc : (build_rcl g._c (c_min_of g._c g._T.length) g.alpha g.epsilon u
            g._T.length).getD (draws t % (build_rcl g._c (c_min_of g._c g._T.length) g.alpha
              g.epsilon u g._T.length).length) 0 < g._c.length := by
          rw [← hI.lenT]; exact hk.1
        have hcand := selinv_candidate _ _ _ hI _ _ _ _ _ h _ hk.2.1
        have hinv := selinv_add _ _ _ hI _ _ _ _ _ h _ hkc hcand.1 _
          (set_insert_perm _ _ hcand.1)
        rw [add_checked_eq g hI _ u v hkc h.lenu h.lenv]
        simp only [Option.some_bind]
        exact ih (g._add _ u v).1 _ _ _ (t + 1) hI hinv
    · rw [if_neg h1, if_neg h1]

/-! ## Counting picks and items; the repair of a feasible seed; `reduce` -/

theorem length_set_insert_of_not_mem (k : Nat) (l : List Nat) (h : k ∉ l) :
    (set_insert k l).length = l.length + 1 := by
  rw [(set_insert_perm k l h).length_eq, List.length_cons]

/-- The test of `run_1_1` asks for a strict decrease of the cost and an unselected item. -/
theorem cond_1_1_cost (ls : scp_local_search) (v : List Int) (it i : Nat)
    (h : cond_1_1 ls v it i = true) :
    ls._c.getD i 0 - ls._c.getD it 0 < 0 ∧ i ∉ ls._x := by
  unfold cond_1_1 at h
  simp only [Bool.and_eq_true, decide_eq_true_eq, Bool.not_eq_true'] at h
  refine ⟨h.1.1, ?_⟩
  intro hx
  have : ls._x.contains i = true := by simpa using hx
  rw [this] at h
  exact Bool.noConfusion h.1.2

/-- The test of `run_2_1` asks for a strict decrease of the cost and an unselected item. -/
theorem cond_2_1_cost (ls : scp_local_search) (v : List Int) (it jt i : Nat)
    (h : cond_2_1 ls v it jt i = true) :
    ls._c.getD i 0 - ls._c.getD it 0 - ls._c.getD jt 0 < 0 ∧ i ∉ ls._x := by
  unfold cond_2_1 at h
  simp only [Bool.and_eq_true, decide_eq_true_eq, Bool.not_eq_true'] at h
  refine ⟨h.1.1, ?_⟩
  intro hx
  have : ls._x.contains i = true := by simpa using hx
  rw [this] at h
  exact Bool.noConfusion h.1.2

/-- With every requirement covered the counter `num_covered` has reached `n`. -/
theorem selinv_covered (c : List ℚ) (S T : List (List Nat)) (hI : Indexed c S T)
    (x : List Nat) (z : ℚ) (u v : List Int) (nc : Int) (h : SelInv c S T x z u v nc)
    (hcov : ∀ j, j < S.length → ∃ i, i ∈ S.getD j [] ∧ i ∈ x) : (S.length : Int) ≤ nc := by
  have h3 : (List.range S.length).countP (fun j => decide (vget v j > 0))
      = (List.range S.length).length := by
    rw [List.countP_eq_length]
    intro j hj
    have hj2 := List.mem_range.mp hj
    obtain ⟨i, hi, hix⟩ := hcov j hj2
    have hpos : 0 < cover_count T x j :=
      (cover_count_pos T x j).mpr ⟨i, hix, (hI.memT i j).mpr ⟨hj2, hi⟩⟩
    simp only [decide_eq_true_eq]
    rw [h.vcount]
    exact_mod_cast hpos
  rw [List.length_range] at h3
  rw [h.ncount, h3]

/-- The selection loop of `scp_repair::run` entered with `num_covered >= n` returns at
once, without a draw. -/
theorem repair_loop_full (draws : Nat → Nat) (c_min : Option ℚ) (fuel : Nat) (r : scp_repair)
    (u v : List Int) (nc : Int) (t : Nat) (h : (r._S.length : Int) ≤ nc) :
    scp_repair.loop draws c_min fuel r u v nc t = some (true, r, t) := by
  have hn : ¬ nc < (r._S.length : Int) := by omega
  cases fuel with
  | zero => simp only [scp_repair.loop]; rw [if_neg hn]
  | succ fuel => simp only [scp_repair.loop]; rw [if_neg hn]

/-- The selection loop of `scp_repair::run` keeps the instance and the parameters of the
object, and keeps `_x` ascending. -/
theorem repair_loop_fields (draws : Nat → Nat) (c_min : Option ℚ) (fuel : Nat) :
    ∀ (r : scp_repair) (u v : List Int) (nc : Int) (t : Nat) (b : Bool) (r' : scp_repair)
      (t' : Nat), scp_repair.loop draws c_min fuel r u v nc t = some (b, r', t') →
      r'.alpha = r.alpha ∧ r'.epsilon = r.epsilon ∧ r'._c = r._c ∧ r'._S = r._S ∧
        r'._T = r._T ∧ (r._x.Sorted (· < ·) → r'._x.Sorted (· < ·)) := by
  induction fuel with
  | zero =>
    intro r u v nc t b r' t' hr
    simp only [scp_repair.loop] at hr
    split_ifs at hr
    simp only [Option.some.injEq, Prod.mk.injEq] at hr
    obtain ⟨-, rfl, -⟩ := hr
    exact ⟨rfl, rfl, rfl, rfl, rfl, fun h => h⟩
  | succ fuel ih =>
    intro r u v nc t b r' t' hr
    simp only [scp_repair.loop] at hr
    split_ifs at hr with h1 h2
    · simp only [Option.some.injEq, Prod.mk.injEq] at hr
      obtain ⟨-, rfl, -⟩ := hr
      exact ⟨rfl, rfl, rfl, rfl, rfl, fun h => h⟩
    · obtain ⟨a1, a2, a3, a4, a5, a6⟩ := ih _ _ _ _ _ b r' t' hr
      exact ⟨a1, a2, a3, a4, a5, fun h => a6 (sorted_set_insert _ _ h)⟩
    · simp only [Option.some.injEq, Prod.mk.injEq] at hr
      obtain ⟨-, rfl, -⟩ := hr
      exact ⟨rfl, rfl, rfl, rfl, rfl, fun h => h⟩

/-- From a seed that covers every requirement `scp_repair::run` returns the seed. -/
theorem repair_feasible_noop (inst : scp_problem) (hwf : inst.WellFormed) (alpha epsilon : ℚ)
    (x0 : List Nat) (hx : inst.Selection x0) (hfeas : inst.check x0 = true)
    (draws : Nat → Nat) (fuel : Nat) :
    (repair_object inst alpha epsilon x0).run draws fuel
      = some (true, scp_repair.mk alpha epsilon inst.c inst.S (read_T inst) x0 (inst.z x0),
          0) := by
  have hI := indexed_read_T inst hwf
  obtain ⟨s1, s2⟩ := repair_seed_spec inst hwf alpha epsilon x0 hx
  have hn : (inst.S.length : Int) ≤ (repair_object inst alpha epsilon x0).seeded.2.2.2 :=
    selinv_covered _ _ _ hI _ _ _ _ _ s1 ((check_iff inst x0).mp hfeas)
  have hS : (repair_object inst alpha epsilon x0).seeded.1._S = inst.S :=
    congrArg scp_grasp._S s2
  have hobj : (repair_object inst alpha epsilon x0).seeded.1
      = scp_repair.mk alpha epsilon inst.c inst.S (read_T inst) x0 (inst.z x0) := by
    have hz := s1.zsum
    rw [← z_eq_sum] at hz
    have e1 := congrArg scp_grasp.alpha s2
    have e2 := congrArg scp_grasp.epsilon s2
    have e3 := congrArg scp_grasp._c s2
    have e4 := congrArg scp_grasp._T s2
    have e5 := congrArg scp_grasp._x s2
    generalize (repair_object inst alpha epsilon x0).seeded.1 = q at *
    cases q
    simp only [scp_repair.as_grasp] at e1 e2 e3 e4 e5 hS hz
    subst e1 e2 e3 e4 e5 hS hz
    rfl
  unfold scp_repair.run
  rw [repair_loop_full draws _ fuel _ _ _ _ 0 (by rw [hS]; exact hn), hobj]

theorem selinv_nc_le (c : List ℚ) (S T : List (List Nat)) (x : List Nat) (z : ℚ)
    (u v : List Int) (nc : Int) (h : SelInv c S T x z u v nc) : nc ≤ (S.length : Int) := by
  have h2 : (List.range S.length).countP (fun j => decide (vget v j > 0))
      ≤ (List.range S.length).length := List.countP_le_length _
  rw [List.length_range] at h2
  rw [h.ncount]
  exact_mod_cast h2

/-- A candidate (`u[k] > 0`) covers a requirement that no selected item covers. -/
theorem selinv_candidate_new (c : List ℚ) (S T : List (List Nat)) (hI : Indexed c S T)
    (x : List Nat) (z : ℚ) (u v : List Int) (nc : Int) (h : SelInv c S T x z u v nc)
    (k : Nat) (hk : vget u k > 0) :
    ∃ j, j < S.length ∧ k ∈ S.getD j [] ∧ ∀ i, i ∈ x → i ∉ S.getD j [] := by
  rw [h.ucount k] at hk
  have hpos : 0 < (T.getD k []).countP (fun j => decide (vget v j = 0)) := by
    exact_mod_cast hk
  obtain ⟨j, hj, hv⟩ := List.countP_pos_iff.mp hpos
  simp only [decide_eq_true_eq] at hv
  have hjm := (hI.memT k j).mp hj
  refine ⟨j, hjm.1, hjm.2, ?_⟩
  intro i hi hiS
  have hp : 0 < cover_count T x j :=
    (cover_count_pos T x j).mpr ⟨i, hi, (hI.memT i j).mpr ⟨hjm.1, hiS⟩⟩
  have := h.vcount j
  omega

/-- Every turn of the selection loop of `scp_grasp::run` that picks an item raises
`num_covered`: the loop tests its condition at most `n - num_covered + 1` times. -/
theorem grasp_visited_length (draws : Nat → Nat) (c_min : Option ℚ) (fuel : Nat) :
    ∀ (g : scp_grasp) (u v : List Int) (nc : Int) (t : Nat),
      Indexed g._c g._S g._T → SelInv g._c g._S g._T g._x g._z u v nc →
      ((scp_grasp.visited draws c_min fuel g u v nc t).length : Int) + nc
        ≤ (g._S.length : Int) + 1 := by
  induction fuel with
  | zero =>
    intro g u v nc t _ h
    have := selinv_nc_le _ _ _ _ _ _ _ _ h
    simp only [scp_grasp.visited, List.length_singleton]
    push_cast
    omega
  | succ fuel ih =>
    intro g u v nc t hI h
    have hle := selinv_nc_le _ _ _ _ _ _ _ _ h
    simp only [scp_grasp.visited, List.length_cons]
    split_ifs with h1 h2
    · simp only [List.length_nil]; push_cast; omega
    · have hne : build_rcl g._c c_min g.alpha g.epsilon u g._T.length ≠ [] :=
        fun e => h2 (List.isEmpty_iff.mpr e)
      have hk := (mem_build_rcl _ _ _ _ _ _ _).mp (getD_mod_mem _ hne (draws t))
      have hkc : (build_rcl g._c c_min g.alpha g.epsilon u g._T.length).getD
          (draws t % (build_rcl g._c c_min g.alpha g.epsilon u g._T.length).length) 0
            < g._c.length := by rw [← hI.lenT]; exact hk.1
      have hcand := selinv_candidate _ _ _ hI _ _ _ _ _ h _ hk.2.1
      have hinv := selinv_add _ _ _ hI _ _ _ _ _ h _ hkc hcand.1 _
        (set_insert_perm _ _ hcand.1)
      have := ih (g._add _ u v).1 _ _ _ (t + 1) hI hinv
      have h3 := hcand.2
      simp only [scp_grasp._add] at this ⊢
      push_cast at this ⊢
      omega
    · simp only [List.length_nil]; push_cast; omega

/-- The body of the selection loop of `scp_grasp::run` is entered at most
`n - num_covered` times: among the states visited, at most that many pass the test
`num_covered < n`. -/
theorem grasp_visited_turns (draws : Nat → Nat) (c_min : Option ℚ) (fuel : Nat) :
    ∀ (g : scp_grasp) (u v : List Int) (nc : Int) (t : Nat),
      Indexed g._c g._S g._T → SelInv g._c g._S g._T g._x g._z u v nc →
      ((((scp_grasp.visited draws c_min fuel g u v nc t).filter
          (fun s => decide (s.2.2.2 < (g._S.length : Int)))).length : Nat) : Int) + nc
        ≤ (g._S.length : Int) := by
  induction fuel with
  | zero =>
    intro g u v nc t _ h
    have hle := selinv_nc_le _ _ _ _ _ _ _ _ h
    simp only [scp_grasp.visited]
    by_cases h1 : nc < (g._S.length : Int)
    · rw [List.filter_cons_of_pos (by simpa using h1)]
      simp only [List.filter_nil, List.length_singleton]
      push_cast
      omega
    · rw [List.filter_cons_of_neg (by simpa using h1)]
      simp only [List.filter_nil, List.length_nil]
      push_cast
      omega
  | succ fuel ih =>
    intro g u v nc t hI h
    have hle := selinv_nc_le _ _ _ _ _ _ _ _ h
    simp only [scp_grasp.visited]
    by_cases h1 : nc < (g._S.length : Int)
    · rw [List.filter_cons_of_pos (by simpa using h1), if_pos h1, List.length_cons]
      by_cases h2 : (build_rcl g._c c_min g.alpha g.epsilon u g._T.length).isEmpty = true
      · rw [if_pos h2]
        simp only [List.filter_nil, List.length_nil]
        push_cast
        omega
      · rw [if_neg h2]
        have hne : build_rcl g._c c_min g.alpha g.epsilon u g._T.length ≠ [] :=
          fun e => h2 (List.isEmpty_iff.mpr e)
        have hk := (mem_build_rcl _ _ _ _ _ _ _).mp (getD_mod_mem _ hne (draws t))
        have hkc : (build_rcl g._c c_min g.alpha g.epsilon u g._T.length).getD
            (draws t % (build_rcl g._c c_min g.alpha g.epsilon u g._T.length).length) 0
              < g._c.length := by rw [← hI.lenT]; exact hk.1
        have hcand := selinv_candidate _ _ _ hI _ _ _ _ _ h _ hk.2.1
        have hinv := selinv_add _ _ _ hI _ _ _ _ _ h _ hkc hcand.1 _
          (set_insert_perm _ _ hcand.1)
        have := ih (g._add _ u v).1 _ _ _ (t + 1) hI hinv
        have h3 := hcand.2
        simp only [scp_grasp._add] at this ⊢
        push_cast at this ⊢
        omega
    · rw [List.filter_cons_of_neg (by simpa using h1), if_neg h1]
      simp only [List.filter_nil, List.length_nil]
      push_cast
      omega

/-- The draws read and the items selected by the selection loop of `scp_grasp::run`: one
item per draw, and at most `n - num_covered` draws. -/
theorem grasp_loop_count (draws : Nat → Nat) (c_min : Option ℚ) (fuel : Nat) :
    ∀ (g : scp_grasp) (u v : List Int) (nc : Int) (t : Nat),
      Indexed g._c g._S g._T → SelInv g._c g._S g._T g._x g._z u v nc →
      ∀ (b : Bool) (g' : scp_grasp) (t' : Nat),
        scp_grasp.loop draws c_min fuel g u v nc t = some (b, g', t') →
        (t' : Int) - t + nc ≤ (g._S.length : Int) ∧ t ≤ t' ∧
          g'._x.length + t = g._x.length + t' := by
  induction fuel with
  | zero =>
    intro g u v nc t _ h b g' t' hr
    have hle := selinv_nc_le _ _ _ _ _ _ _ _ h
    simp only [scp_grasp.loop] at hr
    split_ifs at hr
    simp only [Option.some.injEq, Prod.mk.injEq] at hr
    obtain ⟨-, rfl, rfl⟩ := hr
    exact ⟨by omega, le_refl _, rfl⟩
  | succ fuel ih =>
    intro g u v nc t hI h b g' t' hr
    have hle := selinv_nc_le _ _ _ _ _ _ _ _ h
    simp only [scp_grasp.loop] at hr
    split_ifs at hr with h1 h2
    · simp only [Option.some.injEq, Prod.mk.injEq] at hr
      obtain ⟨-, rfl, rfl⟩ := hr
      exact ⟨by omega, le_refl _, rfl⟩
    · have hne : build_rcl g._c c_min g.alpha g.epsilon u g._T.length ≠ [] :=
        fun e => h2 (List.isEmpty_iff.mpr e)
      have hk := (mem_build_rcl _ _ _ _ _ _ _).mp (getD_mod_mem _ hne (draws t))
      have hkc : (build_rcl g._c c_min g.alpha g.epsilon u g._T.length).getD
          (draws t % (build_rcl g._c c_min g.alpha g.epsilon u g._T.length).length) 0
            < g._c.length := by rw [← hI.lenT]; exact hk.1
      have hcand := selinv_candidate _ _ _ hI _ _ _ _ _ h _ hk.2.1
      have hinv := selinv_add _ _ _ hI _ _ _ _ _ h _ hkc hcand.1 _
        (set_insert_perm _ _ hcand.1)
      obtain ⟨q1, q2, q3⟩ := ih (g._add _ u v).1 _ _ _ (t + 1) hI hinv b g' t' hr
      have h3 := hcand.2
      have hlen := (set_insert_perm _ _ hcand.1).length_eq
      simp only [scp_grasp._add, List.length_cons] at q1 q3 h3 hlen
      refine ⟨?_, by omega, ?_⟩
      · push_cast at q1 ⊢
        omega
      · omega
    · simp only [Option.some.injEq, Prod.mk.injEq] at hr
      obtain ⟨-, rfl, rfl⟩ := hr
      exact ⟨by omega, le_refl _, rfl⟩

theorem reduce_step_length (S : List (List Nat)) (i : Nat) :
    (reduce_step S i).length = S.length := by
  unfold reduce_step
  split_ifs
  · rfl
  · exact List.length_map _ _

theorem reduce_fold_length (l : List Nat) :
    ∀ S : List (List Nat), (l.foldl reduce_step S).length = S.length := by
  induction l with
  | nil => intro S; rfl
  | cons i l ih => intro S; rw [List.foldl_cons, ih, reduce_step_length]

/-! ## Rounding: facts of the `double` arithmetic -/

theorem double_round_zero : double.round 0 = double.fin 0 := by
  unfold double.round
  rw [if_pos rfl]

theorem double_sub_self (q : ℚ) : (double.fin q).sub (double.fin q) = double.fin 0 := by
  show double.round (q + -q) = double.fin 0
  rw [add_neg_cancel, double_round_zero]

/-- In `double` the cost that a second call of `run` recomputes can differ from the cost
the first call reached by updates: on `inst_fifth` from `{0, 1}` with the 1-1 exchange,
the first call starts at `0.30000000000000004`, exchanges item 0 for item 2 and ends at
`0.20000000000000004`; the second call sums `0.1 + 0.1 = 0.2`. -/
theorem ls_rerun_cost_fl :
    (ls_object inst_fifth [0, 1]).start_fl
      = (double.fin (1351079888211149 / 4503599627370496), [1, 1]) ∧
    (scp_local_search.run_1_1_fl 1 (ls_object inst_fifth [0, 1])
        (double.fin (1351079888211149 / 4503599627370496)) [1, 1]).map (fun r => (r.1._x, r.2.1))
      = some ([1, 2], double.fin (7205759403792795 / 36028797018963968)) ∧
    (ls_object inst_fifth [1, 2]).start_fl
      = (double.fin (3602879701896397 / 18014398509481984), [1, 1]) ∧
    find_1_1_fl (ls_object inst_fifth [1, 2]) [1, 1] = none := by
  refine ⟨by decide!, by decide!, by decide!, by decide!⟩

/-! ## Claims on construction and repair -/

/-- C1 (construction coverage): on a well-formed instance, for every `alpha`, `epsilon` and
stream of draws, `scp_grasp::run` returns within `n` picks, and whenever it returns `true`
every requirement `j` has a member of `S[j]` in `x()`, that is `scp_problem::check(x())`
is true. -/
theorem C1_construction_coverage (inst : scp_problem) (hwf : inst.WellFormed)
    (alpha epsilon : ℚ) (draws : Nat → Nat) :
    (∃ r, (grasp_object inst alpha epsilon).run draws inst.S.length = some r) ∧
    ∀ fuel g' t', (grasp_object inst alpha epsilon).run draws fuel = some (true, g', t') →
      (∀ j, j < inst.S.length → ∃ i, i ∈ inst.S.getD j [] ∧ i ∈ g'._x) ∧
        inst.check g'._x = true := by
  refine ⟨grasp_run_total inst hwf alpha epsilon draws, ?_⟩
  intro fuel g' t' hr
  obtain ⟨u', v', nc', hinv, ht, -⟩ := grasp_run_spec inst hwf alpha epsilon draws fuel _ _ _ hr
  have hcov := selinv_full _ _ _ (indexed_read_T inst hwf) _ _ _ _ _ hinv (ht rfl)
  exact ⟨hcov, (check_iff inst g'._x).mpr hcov⟩

/-- The coverage claim at the three-item instance with `alpha = 1`. -/
theorem C1_construction_coverage_witness :
    inst3.WellFormed ∧ inst3.check [0, 1] = true :=
  ⟨by decide,
    ((C1_construction_coverage inst3 (by decide) 1 (1 / 1000000000) (fun _ => 0)).2 2
      (scp_grasp.mk 1 (1 / 1000000000) inst3.c inst3.S (read_T inst3) [0, 1] 2) 2
      (by decide!)).2⟩

/-- C7 (construction cost consistency): on a well-formed instance, for every `alpha`,
`epsilon` and stream of draws, `scp_grasp::run` returns, and whatever it returns, `z()` is
the sum of `c[i]` over the members of `x()`, each counted once. -/
theorem C7_construction_cost (inst : scp_problem) (hwf : inst.WellFormed)
    (alpha epsilon : ℚ) (draws : Nat → Nat) :
    (∃ r, (grasp_object inst alpha epsilon).run draws inst.S.length = some r) ∧
    ∀ fuel b g' t', (grasp_object inst alpha epsilon).run draws fuel = some (b, g', t') →
      g'._z = inst.z g'._x ∧ g'._z = (g'._x.map (fun i => inst.c.getD i 0)).sum ∧
        g'._x.Nodup := by
  refine ⟨grasp_run_total inst hwf alpha epsilon draws, ?_⟩
  intro fuel b g' t' hr
  obtain ⟨u', v', nc', hinv, -, -⟩ := grasp_run_spec inst hwf alpha epsilon draws fuel _ _ _ hr
  exact ⟨by rw [z_eq_sum]; exact hinv.zsum, hinv.zsum, hinv.nodup⟩

/-- The cost claim at the three-item instance with `alpha = 1`. -/
theorem C7_construction_cost_witness :
    inst3.WellFormed ∧ (2 : ℚ) = inst3.z [0, 1] :=
  ⟨by decide,
    ((C7_construction_cost inst3 (by decide) 1 (1 / 1000000000) (fun _ => 0)).2 2 true
      (scp_grasp.mk 1 (1 / 1000000000) inst3.c inst3.S (read_T inst3) [0, 1] 2) 2
      (by decide!)).1⟩

/-- C9 (infeasible detection): on a well-formed instance in which some requirement `j` has
an empty covering set, for every `alpha`, `epsilon` and stream of draws, `scp_grasp::run`
returns `false`, and so does `scp_repair::run` from every seed selection within `[0, m)`:
each returns within `n` picks and no fuel makes it return `true`. -/
theorem C9_infeasible_detection (inst : scp_problem) (hwf : inst.WellFormed)
    (j : Nat) (hj : j < inst.S.length) (hS : inst.S.getD j [] = [])
    (alpha epsilon : ℚ) (draws : Nat → Nat) :
    ((∃ g' t', (grasp_object inst alpha epsilon).run draws inst.S.length
        = some (false, g', t')) ∧
      ∀ fuel b g' t', (grasp_object inst alpha epsilon).run draws fuel = some (b, g', t') →
        b = false) ∧
    ∀ x0, inst.Selection x0 →
      ((∃ r' t', (repair_object inst alpha epsilon x0).run draws inst.S.length
          = some (false, r', t')) ∧
        ∀ fuel b r' t', (repair_object inst alpha epsilon x0).run draws fuel
          = some (b, r', t') → b = false) := by
  have hI := indexed_read_T inst hwf
  have hg : ∀ fuel b g' t', (grasp_object inst alpha epsilon).run draws fuel
      = some (b, g', t') → b = false := by
    intro fuel b g' t' hr
    obtain ⟨u', v', nc', hinv, ht, -⟩ :=
      grasp_run_spec inst hwf alpha epsilon draws fuel _ _ _ hr
    have hlt := selinv_never_full _ _ _ hI _ _ _ _ _ hinv j hj hS
    cases b with
    | false => rfl
    | true => have := ht rfl; omega
  refine ⟨⟨?_, hg⟩, ?_⟩
  · obtain ⟨⟨b, g', t'⟩, hr⟩ := grasp_run_total inst hwf alpha epsilon draws
    have hb := hg _ _ _ _ hr
    subst hb
    exact ⟨g', t', hr⟩
  · intro x0 hx
    have hrp : ∀ fuel b r' t', (repair_object inst alpha epsilon x0).run draws fuel
        = some (b, r', t') → b = false := by
      intro fuel b r' t' hr
      obtain ⟨⟨u', v', nc', hinv, ht, -⟩, -⟩ :=
        repair_run_spec inst hwf alpha epsilon x0 hx draws fuel _ _ _ hr
      have hlt := selinv_never_full _ _ _ hI _ _ _ _ _ hinv j hj hS
      cases b with
      | false => rfl
      | true => have := ht rfl; omega
    refine ⟨?_, hrp⟩
    obtain ⟨⟨b, r', t'⟩, hr⟩ := repair_run_total inst hwf alpha epsilon x0 hx draws
    have hb := hrp _ _ _ _ hr
    subst hb
    exact ⟨r', t', hr⟩

/-- The detection claim at `inst_empty`, whose second requirement has no covering item. -/
theorem C9_infeasible_detection_witness :
    inst_empty.WellFormed ∧ 1 < inst_empty.S.length ∧ inst_empty.S.getD 1 [] = [] ∧
      ∃ g' t', (grasp_object inst_empty 1 0).run (fun _ => 0) inst_empty.S.length
        = some (false, g', t') :=
  ⟨by decide, by decide, by decide,
    (C9_infeasible_detection inst_empty (by decide) 1 (by decide) (by decide) 1 0
      (fun _ => 0)).1.1⟩

/-- C10, amended (no failure on instances without an empty covering set, exact arithmetic):
on a well-formed instance in which every covering set is non-empty, with the scores and
the threshold computed without rounding, `alpha ≤ 1` and `epsilon ≥ 0` (in particular
`alpha` in `[0, 1]` and `epsilon > 0`), for every stream of draws `scp_grasp::run` returns
`true`, and so does `scp_repair::run` from every seed selection within `[0, m)`: each returns
within `n` picks and no fuel makes it return `false`. -/
theorem C10_feasible_returns_true (inst : scp_problem) (hwf : inst.WellFormed)
    (hne : ∀ j, j < inst.S.length → inst.S.getD j [] ≠ [])
    (alpha epsilon : ℚ) (ha : alpha ≤ 1) (he : 0 ≤ epsilon) (draws : Nat → Nat) :
    ((∃ g' t', (grasp_object inst alpha epsilon).run draws inst.S.length
        = some (true, g', t')) ∧
      ∀ fuel b g' t', (grasp_object inst alpha epsilon).run draws fuel = some (b, g', t') →
        b = true) ∧
    ∀ x0, inst.Selection x0 →
      ((∃ r' t', (repair_object inst alpha epsilon x0).run draws inst.S.length
          = some (true, r', t')) ∧
        ∀ fuel b r' t', (repair_object inst alpha epsilon x0).run draws fuel
          = some (b, r', t') → b = true) := by
  have hI := indexed_read_T inst hwf
  have key : ∀ (x : List Nat) (z : ℚ) (u v : List Int) (nc : Int),
      SelInv inst.c inst.S (read_T inst) x z u v nc → nc < (inst.S.length : Int) →
      build_rcl inst.c (c_min_of inst.c (read_T inst).length) alpha epsilon u
        (read_T inst).length ≠ [] := by
    intro x z u v nc hinv hlt
    exact build_rcl_ne_nil inst.c _ alpha epsilon u ha he
      (selinv_has_candidate _ _ _ hI _ _ _ _ _ hinv hlt hne)
  have hg : ∀ fuel b g' t', (grasp_object inst alpha epsilon).run draws fuel
      = some (b, g', t') → b = true := by
    intro fuel b g' t' hr
    obtain ⟨u', v', nc', hinv, -, hf⟩ :=
      grasp_run_spec inst hwf alpha epsilon draws fuel _ _ _ hr
    cases b with
    | true => rfl
    | false => exact absurd (hf rfl).2 (key _ _ _ _ _ hinv (hf rfl).1)
  refine ⟨⟨?_, hg⟩, ?_⟩
  · obtain ⟨⟨b, g', t'⟩, hr⟩ := grasp_run_total inst hwf alpha epsilon draws
    have hb := hg _ _ _ _ hr
    subst hb
    exact ⟨g', t', hr⟩
  · intro x0 hx
    have hrp : ∀ fuel b r' t', (repair_object inst alpha epsilon x0).run draws fuel
        = some (b, r', t') → b = true := by
      intro fuel b r' t' hr
      obtain ⟨⟨u', v', nc', hinv, -, hf⟩, -⟩ :=
        repair_run_spec inst hwf alpha epsilon x0 hx draws fuel _ _ _ hr
      cases b with
      | true => rfl
      | false => exact absurd (hf rfl).2 (key _ _ _ _ _ hinv (hf rfl).1)
    refine ⟨?_, hrp⟩
    obtain ⟨⟨b, r', t'⟩, hr⟩ := repair_run_total inst hwf alpha epsilon x0 hx draws
    have hb := hrp _ _ _ _ hr
    subst hb
    exact ⟨r', t', hr⟩

/-- The claim at the three-item instance with `alpha = 1`, `epsilon = 1e-9` and every draw
`0`: the construction builds two lists `rcl` and picks items 0 and 1; the repair of the
seed `{0}`, which leaves requirement 2 uncovered, builds one and picks item 1. -/
theorem C10_feasible_returns_true_witness :
    inst3.WellFormed ∧ (∀ j, j < inst3.S.length → inst3.S.getD j [] ≠ []) ∧
      (grasp_object inst3 1 (1 / 1000000000)).run (fun _ => 0) inst3.S.length
        = some (true,
            scp_grasp.mk 1 (1 / 1000000000) inst3.c inst3.S (read_T inst3) [0, 1] 2, 2) ∧
      (repair_object inst3 1 (1 / 1000000000) [0]).run (fun _ => 0) inst3.S.length
        = some (true,
            scp_repair.mk 1 (1 / 1000000000) inst3.c inst3.S (read_T inst3) [0, 1] 2, 1) ∧
      (∃ g' t', (grasp_object inst3 1 (1 / 1000000000)).run (fun _ => 0) inst3.S.length
        = some (true, g', t')) ∧
      ∃ r' t', (repair_object inst3 1 (1 / 1000000000) [0]).run (fun _ => 0) inst3.S.length
        = some (true, r', t') :=
  ⟨by decide, by decide, by decide!, by decide!,
    (C10_feasible_returns_true inst3 (by decide) (by decide) 1 (1 / 1000000000)
      (by decide!) (by decide!) (fun _ => 0)).1.1,
    ((C10_feasible_returns_true inst3 (by decide) (by decide) 1 (1 / 1000000000)
      (by decide!) (by decide!) (fun _ => 0)).2 [0] (by decide)).1⟩

/-- C6 (end-to-end construction scenario): on the three-item instance with `alpha = 1` and
`epsilon = 1e-9`, for every stream of random draws and every fuel of at least two picks,
`scp_grasp::run` returns `true` after two draws with `x() = {item0, item1}` and `z() = 2`. -/
theorem C6_construction_scenario (draws : Nat → Nat) (k : Nat) :
    ∃ g', (grasp_object inst3 1 (1 / 1000000000)).run draws (k + 2) = some (true, g', 2) ∧
      g'._x = [0, 1] ∧ g'._z = 2 := by
  refine ⟨scp_grasp.mk 1 (1 / 1000000000) inst3.c inst3.S (read_T inst3) [0, 1] 2, ?_, rfl, rfl⟩
  have h0 : (grasp_object inst3 1 (1 / 1000000000)).run draws (k + 2)
      = scp_grasp.loop draws (c_min_of inst3.c 3) (k + 1 + 1)
          (scp_grasp.mk 1 (1 / 1000000000) inst3.c inst3.S (read_T inst3) [] 0)
          (u_init (read_T inst3) 3) (List.replicate 3 0) 0 0 := rfl
  rw [h0, grasp_loop_pick _ _ _ _ _ _ _ _ (by decide!) (by decide!)]
  exact grasp_inst3_second draws k _ (grasp_inst3_first draws)

/-! ## Claims on the local search -/

theorem ls_object_mk (inst : scp_problem) (x0 : List Nat) :
    ls_object inst x0 = scp_local_search.mk inst.c inst.S (read_T inst) x0 0 := rfl

/-- C2 (local search preserves feasibility): on a well-formed instance, from every selection
`x0` within `[0, m)` that covers every requirement and for every exchange mask,
`scp_local_search::run` returns (within `|x0| * m` exchanges) and the selection `x()` it
leaves still covers every requirement. -/
theorem C2_local_search_feasible (inst : scp_problem) (hwf : inst.WellFormed)
    (x0 : List Nat) (hx : inst.Selection x0) (hfeas : inst.check x0 = true) (mask : Nat) :
    (∃ r, (ls_object inst x0).run mask (x0.length * inst.c.length) = some r) ∧
    ∀ fuel b ls', (ls_object inst x0).run mask fuel = some (b, ls') →
      (∀ j, j < inst.S.length → ∃ i, i ∈ inst.S.getD j [] ∧ i ∈ ls'._x) ∧
        inst.check ls'._x = true := by
  have hI := indexed_read_T inst hwf
  rw [ls_object_mk]
  refine ⟨ls_run_total _ _ _ hI x0 0 hx.1.nodup hx.2 mask _ (le_refl _), ?_⟩
  intro fuel b ls' hr
  obtain ⟨x', z', v', e, hinv, hcov, -⟩ :=
    ls_run_spec _ _ _ hI x0 0 hx.1.nodup hx.2 mask fuel _ hr
  simp only [Prod.mk.injEq] at e
  obtain ⟨-, rfl⟩ := e
  have hall : ∀ j, j < inst.S.length → ∃ i, i ∈ inst.S.getD j [] ∧ i ∈ x' := by
    intro j hj
    obtain ⟨i, hi, hix⟩ := (check_iff inst x0).mp hfeas j hj
    have h1 : 1 ≤ cover_count (read_T inst) x0 j :=
      (cover_count_pos _ x0 j).mpr ⟨i, hix, (hI.memT i j).mpr ⟨hj, hi⟩⟩
    obtain ⟨i', hi', hji'⟩ := (cover_count_pos _ x' j).mp (hcov j h1)
    exact ⟨i', ((hI.memT i' j).mp hji').2, hi'⟩
  exact ⟨hall, (check_iff inst x').mpr hall⟩

/-- The feasibility claim at the three-item instance, from `{0, 1, 2}` with every exchange on. -/
theorem C2_local_search_feasible_witness :
    inst3.WellFormed ∧ inst3.Selection [0, 1, 2] ∧ inst3.check [0, 1, 2] = true ∧
      inst3.check [2] = true :=
  ⟨by decide, by decide, by decide,
    ((C2_local_search_feasible inst3 (by decide) [0, 1, 2] (by decide) (by decide) 7).2 0 true
      (scp_local_search.mk inst3.c inst3.S (read_T inst3) [2] 3) (by decide!)).2⟩

/-- C4, refuted as stated: with two or three exchanges enabled a second call of `run` on
the output of the first changes the selection. On `inst_swap` from `{0, 1}` with masks
`_1_0 | _1_1`, and on `inst_pair` from `{0, 1, 2}` with masks `_1_0 | _2_1`, `_1_1 | _2_1`
and all three, the first call ends on a selection from which the second call moves on. -/
theorem C4_counterexample :
    (inst_swap.WellFormed ∧ inst_swap.Selection [0, 1] ∧ inst_swap.check [0, 1] = true ∧
      (ls_object inst_swap [0, 1]).run 3 2
        = some (true, scp_local_search.mk inst_swap.c inst_swap.S (read_T inst_swap) [1, 2] 3) ∧
      (scp_local_search.mk inst_swap.c inst_swap.S (read_T inst_swap) [1, 2] 3).run 3 2
        = some (true, scp_local_search.mk inst_swap.c inst_swap.S (read_T inst_swap) [2] 2) ∧
      (scp_local_search.mk inst_swap.c inst_swap.S (read_T inst_swap) [2] 2)._x
        ≠ (scp_local_search.mk inst_swap.c inst_swap.S (read_T inst_swap) [1, 2] 3)._x) ∧
    (inst_pair.WellFormed ∧ inst_pair.Selection [0, 1, 2] ∧ inst_pair.check [0, 1, 2] = true ∧
      (ls_object inst_pair [0, 1, 2]).run 5 2
        = some (true, scp_local_search.mk inst_pair.c inst_pair.S (read_T inst_pair) [2, 3] 8) ∧
      (scp_local_search.mk inst_pair.c inst_pair.S (read_T inst_pair) [2, 3] 8).run 5 2
        = some (true, scp_local_search.mk inst_pair.c inst_pair.S (read_T inst_pair) [3] 6) ∧
      (ls_object inst_pair [0, 1, 2]).run 6 2
        = some (true, scp_local_search.mk inst_pair.c inst_pair.S (read_T inst_pair) [2, 3] 8) ∧
      (scp_local_search.mk inst_pair.c inst_pair.S (read_T inst_pair) [2, 3] 8).run 6 2
        = some (true, scp_local_search.mk inst_pair.c inst_pair.S (read_T inst_pair) [3, 4] 7) ∧
      (ls_object inst_pair [0, 1, 2]).run 7 2
        = some (true, scp_local_search.mk inst_pair.c inst_pair.S (read_T inst_pair) [2, 3] 8) ∧
      (scp_local_search.mk inst_pair.c inst_pair.S (read_T inst_pair) [2, 3] 8).run 7 2
        = some (true, scp_local_search.mk inst_pair.c inst_pair.S (read_T inst_pair) [3] 6) ∧
      (scp_local_search.mk inst_pair.c inst_pair.S (read_T inst_pair) [3] 6)._x
        ≠ (scp_local_search.mk inst_pair.c inst_pair.S (read_T inst_pair) [2, 3] 8)._x ∧
      (scp_local_search.mk inst_pair.c inst_pair.S (read_T inst_pair) [3, 4] 7)._x
        ≠ (scp_local_search.mk inst_pair.c inst_pair.S (read_T inst_pair) [2, 3] 8)._x) := by
  refine ⟨⟨by decide, by decide, by decide, by decide!, by decide!, by decide⟩,
    ⟨by decide, by decide, by decide, by decide!, by decide!, by decide!, by decide!,
      by decide!, by decide!, by decide, by decide⟩⟩

/-- C4, amended (idempotence of a single neighbourhood, the cost in exact arithmetic): on a
well-formed instance, from every selection `x0` within `[0, m)` and for every exchange mask
that enables at most one of `_1_0`, `_1_1`, `_2_1`, `run` returns, and calling `run` again
with the same mask on the object it left returns, for every fuel, the same object: the same
`x()`, and the same `z()` when the costs are added without rounding (the second call
recomputes `z()` as the sum over `x()`; in `double` the two sums can differ in the last
place, see `ls_rerun_cost_fl`). -/
theorem C4_idempotent_single (inst : scp_problem) (hwf : inst.WellFormed)
    (x0 : List Nat) (hx : inst.Selection x0) (mask : Nat)
    (hm : (mask &&& scp_local_search._1_0 = 0 ∧ mask &&& scp_local_search._1_1 = 0) ∨
      (mask &&& scp_local_search._1_0 = 0 ∧ mask &&& scp_local_search._2_1 = 0) ∨
      (mask &&& scp_local_search._1_1 = 0 ∧ mask &&& scp_local_search._2_1 = 0)) :
    (∃ r, (ls_object inst x0).run mask (x0.length * inst.c.length) = some r) ∧
    ∀ fuel b ls1, (ls_object inst x0).run mask fuel = some (b, ls1) →
      ∀ fuel2, ls1.run mask fuel2 = some (true, ls1) := by
  have hI := indexed_read_T inst hwf
  rw [ls_object_mk]
  refine ⟨ls_run_total _ _ _ hI x0 0 hx.1.nodup hx.2 mask _ (le_refl _), ?_⟩
  intro fuel b ls1 hr fuel2
  obtain ⟨x', z', v', e, hinv, -, -, -, f0, f1, f2⟩ :=
    ls_run_spec _ _ _ hI x0 0 hx.1.nodup hx.2 mask fuel _ hr
  simp only [Prod.mk.injEq] at e
  obtain ⟨-, rfl⟩ := e
  apply ls_rerun _ _ _ hI x' z' v' hinv mask fuel2
  · intro b0
    rcases hm with ⟨a, _⟩ | ⟨a, _⟩ | ⟨a1, a2⟩
    · exact absurd a b0
    · exact absurd a b0
    · exact f0 b0 a1 a2
  · intro b1
    rcases hm with ⟨_, a⟩ | ⟨_, a⟩ | ⟨a, _⟩
    · exact absurd a b1
    · exact f1 b1 a
    · exact absurd a b1
  · intro b2
    exact f2 b2

/-- The idempotence claim at `inst_swap` with only the 1-1 exchange on. -/
theorem C4_idempotent_single_witness :
    inst_swap.WellFormed ∧ inst_swap.Selection [0, 1] ∧
      (scp_local_search.mk inst_swap.c inst_swap.S (read_T inst_swap) [1, 2] 3).run 2 5
        = some (true, scp_local_search.mk inst_swap.c inst_swap.S (read_T inst_swap) [1, 2] 3) :=
  ⟨by decide, by decide,
    (C4_idempotent_single inst_swap (by decide) [0, 1] (by decide) 2
      (Or.inr (Or.inl (by decide)))).2 1 true
      (scp_local_search.mk inst_swap.c inst_swap.S (read_T inst_swap) [1, 2] 3) (by decide!) 5⟩

/-- C5, refuted as stated: on the three-item instance, `run` with all three exchanges
enabled on `{item0, item1, item2}` ends with the selection `{item2}` and the cost `3`,
not with `{item0, item1}` and the cost `2`. -/
theorem C5_counterexample :
    (ls_object inst3 [0, 1, 2]).run 7 2
        = some (true, scp_local_search.mk inst3.c inst3.S (read_T inst3) [2] 3) ∧
      (scp_local_search.mk inst3.c inst3.S (read_T inst3) [2] 3)._x ≠ [0, 1] ∧
      (scp_local_search.mk inst3.c inst3.S (read_T inst3) [2] 3)._z ≠ 2 := by
  refine ⟨by decide!, by decide, by decide!⟩

/-- C5, amended (end-to-end local search scenario): on the three-item instance, `run` with
all three exchanges enabled on `{item0, item1, item2}` returns `true` for every fuel; the
1-0 pass, in ascending order, drops item0 and then item1 (each redundant when visited),
after which item2 alone covers every requirement, and `run` ends with the selection
`{item2}` and the cost `3`. -/
theorem C5_local_search_scenario (fuel : Nat) :
    (scp_local_search.mk inst3.c inst3.S (read_T inst3) [0, 1, 2] 5).run_1_0 [2, 3, 2]
        = (scp_local_search.mk inst3.c inst3.S (read_T inst3) [2] 3, [1, 1, 1]) ∧
      (ls_object inst3 [0, 1, 2]).run 7 fuel
        = some (true, scp_local_search.mk inst3.c inst3.S (read_T inst3) [2] 3) := by
  refine ⟨by decide!, ?_⟩
  have h := ls_run_mono (ls_object inst3 [0, 1, 2]) 7 0 _ (by decide! :
    (ls_object inst3 [0, 1, 2]).run 7 0
      = some (true, scp_local_search.mk inst3.c inst3.S (read_T inst3) [2] 3)) fuel
  rw [Nat.zero_add] at h
  exact h

/-- C8 (local search cost consistency): on a well-formed instance, from every selection
`x0` within `[0, m)` and for every exchange mask, `run` returns and the cost `z()` it
reports is the sum of `c[i]` over the members of the selection `x()` it leaves. -/
theorem C8_local_search_cost (inst : scp_problem) (hwf : inst.WellFormed)
    (x0 : List Nat) (hx : inst.Selection x0) (mask : Nat) :
    (∃ r, (ls_object inst x0).run mask (x0.length * inst.c.length) = some r) ∧
    ∀ fuel b ls', (ls_object inst x0).run mask fuel = some (b, ls') →
      ls'._z = inst.z ls'._x ∧ ls'._z = (ls'._x.map (fun i => inst.c.getD i 0)).sum := by
  have hI := indexed_read_T inst hwf
  rw [ls_object_mk]
  refine ⟨ls_run_total _ _ _ hI x0 0 hx.1.nodup hx.2 mask _ (le_refl _), ?_⟩
  intro fuel b ls' hr
  obtain ⟨x', z', v', e, hinv, -⟩ :=
    ls_run_spec _ _ _ hI x0 0 hx.1.nodup hx.2 mask fuel _ hr
  simp only [Prod.mk.injEq] at e
  obtain ⟨-, rfl⟩ := e
  exact ⟨by rw [z_eq_sum]; exact hinv.zsum, hinv.zsum⟩

/-- The cost claim at `inst_swap`, from `{0, 1}` with every exchange on. -/
theorem C8_local_search_cost_witness :
    inst_swap.WellFormed ∧ inst_swap.Selection [0, 1] ∧ (3 : ℚ) = inst_swap.z [1, 2] :=
  ⟨by decide, by decide,
    ((C8_local_search_cost inst_swap (by decide) [0, 1] (by decide) 7).2 1 true
      (scp_local_search.mk inst_swap.c inst_swap.S (read_T inst_swap) [1, 2] 3)
      (by decide!)).1⟩

/-! ## Claims on the repair -/

/-- From the empty seed, `scp_repair::run` is `scp_grasp::run` on the same fields, for every
fuel and on every instance. -/
theorem repair_empty_as_grasp (inst : scp_problem) (alpha epsilon : ℚ) (draws : Nat → Nat)
    (fuel : Nat) :
    ((repair_object inst alpha epsilon []).run draws fuel).map
        (fun q => (q.1, q.2.1.as_grasp, q.2.2))
      = (grasp_object inst alpha epsilon).run draws fuel :=
  repair_loop_as_grasp draws _ fuel (repair_object inst alpha epsilon []).seeded.1 _ _ _ 0

/-- C11 (repair with empty seed equals construction): on a well-formed instance, with the
same `alpha` and `epsilon` on both objects and the same stream of draws, `scp_grasp::run`
returns, and for every fuel `scp_repair::run` started from the empty selection gives the
same answer as `scp_grasp::run`: the same boolean, the same `x()`, the same `z()` (and the
same number of draws consumed). -/
theorem C11_repair_empty_seed (inst : scp_problem) (hwf : inst.WellFormed)
    (alpha epsilon : ℚ) (draws : Nat → Nat) :
    (∃ r, (grasp_object inst alpha epsilon).run draws inst.S.length = some r) ∧
    ∀ fuel, ((repair_object inst alpha epsilon []).run draws fuel).map
          (fun q => (q.1, q.2.1._x, q.2.1._z, q.2.2))
        = ((grasp_object inst alpha epsilon).run draws fuel).map
          (fun q => (q.1, q.2.1._x, q.2.1._z, q.2.2)) := by
  refine ⟨grasp_run_total inst hwf alpha epsilon draws, ?_⟩
  intro fuel
  rw [← repair_empty_as_grasp inst alpha epsilon draws fuel, Option.map_map]
  rfl

/-- The claim at the three-item instance with `alpha = 1`. -/
theorem C11_repair_empty_seed_witness :
    inst3.WellFormed ∧
      ((repair_object inst3 1 (1 / 1000000000) []).run (fun _ => 0) 2).map
          (fun q => (q.1, q.2.1._x, q.2.1._z, q.2.2))
        = ((grasp_object inst3 1 (1 / 1000000000)).run (fun _ => 0) 2).map
          (fun q => (q.1, q.2.1._x, q.2.1._z, q.2.2)) :=
  ⟨by decide, (C11_repair_empty_seed inst3 (by decide) 1 (1 / 1000000000) (fun _ => 0)).2 2⟩

/-- C12 (repair coverage): on a well-formed instance, from every seed selection `x0` within
`[0, m)` and for every `alpha`, `epsilon` and stream of draws, `scp_repair::run` returns
within `n` picks, and whenever it returns `true` every requirement `j` has a member of
`S[j]` in the returned `x()`. -/
theorem C12_repair_coverage (inst : scp_problem) (hwf : inst.WellFormed)
    (x0 : List Nat) (hx : inst.Selection x0) (alpha epsilon : ℚ) (draws : Nat → Nat) :
    (∃ r, (repair_object inst alpha epsilon x0).run draws inst.S.length = some r) ∧
    ∀ fuel r' t', (repair_object inst alpha epsilon x0).run draws fuel = some (true, r', t') →
      (∀ j, j < inst.S.length → ∃ i, i ∈ inst.S.getD j [] ∧ i ∈ r'._x) ∧
        inst.check r'._x = true := by
  refine ⟨repair_run_total inst hwf alpha epsilon x0 hx draws, ?_⟩
  intro fuel r' t' hr
  obtain ⟨⟨u', v', nc', hinv, ht, -⟩, -⟩ :=
    repair_run_spec inst hwf alpha epsilon x0 hx draws fuel _ _ _ hr
  have hcov := selinv_full _ _ _ (indexed_read_T inst hwf) _ _ _ _ _ hinv (ht rfl)
  exact ⟨hcov, (check_iff inst r'._x).mpr hcov⟩

/-- The claim at the three-item instance, for the repair of the partial seed `{0}`. -/
theorem C12_repair_coverage_witness :
    inst3.WellFormed ∧ inst3.Selection [0] ∧ inst3.check [0, 1] = true :=
  ⟨by decide, by decide,
    ((C12_repair_coverage inst3 (by decide) [0] (by decide) 1 (1 / 1000000000)
      (fun _ => 0)).2 3
      (scp_repair.mk 1 (1 / 1000000000) inst3.c inst3.S (read_T inst3) [0, 1] 2) 1
      (by decide!)).2⟩

/-- C13 (repair keeps the partial commitment): on a well-formed instance, from every seed
selection `x0` within `[0, m)` and for every `alpha`, `epsilon` and stream of draws,
`scp_repair::run` returns, and the selection `x()` it leaves, whether it returns `true` or
`false`, contains every member of `x0`. -/
theorem C13_repair_superset (inst : scp_problem) (hwf : inst.WellFormed)
    (x0 : List Nat) (hx : inst.Selection x0) (alpha epsilon : ℚ) (draws : Nat → Nat) :
    (∃ r, (repair_object inst alpha epsilon x0).run draws inst.S.length = some r) ∧
    ∀ fuel b r' t', (repair_object inst alpha epsilon x0).run draws fuel = some (b, r', t') →
      ∀ i, i ∈ x0 → i ∈ r'._x := by
  refine ⟨repair_run_total inst hwf alpha epsilon x0 hx draws, ?_⟩
  intro fuel b r' t' hr i hi
  exact (repair_run_spec inst hwf alpha epsilon x0 hx draws fuel _ _ _ hr).2 hi

/-- The claim at the three-item instance, for the repair of the partial seed `{0}`. -/
theorem C13_repair_superset_witness :
    inst3.WellFormed ∧ inst3.Selection [0] ∧ 0 ∈ [0, 1] :=
  ⟨by decide, by decide,
    (C13_repair_superset inst3 (by decide) [0] (by decide) 1 (1 / 1000000000)
      (fun _ => 0)).2 3 true
      (scp_repair.mk 1 (1 / 1000000000) inst3.c inst3.S (read_T inst3) [0, 1] 2) 1
      (by decide!) 0 (by decide)⟩

/-- C14 (repair cost consistency): on a well-formed instance, from every seed selection
`x0` within `[0, m)` and for every `alpha`, `epsilon` and stream of draws,
`scp_repair::run` returns, and whatever it returns, `z()` is the sum of `c[i]` over the
members of the final `x()`, seed items and added items each counted once. -/
theorem C14_repair_cost (inst : scp_problem) (hwf : inst.WellFormed)
    (x0 : List Nat) (hx : inst.Selection x0) (alpha epsilon : ℚ) (draws : Nat → Nat) :
    (∃ r, (repair_object inst alpha epsilon x0).run draws inst.S.length = some r) ∧
    ∀ fuel b r' t', (repair_object inst alpha epsilon x0).run draws fuel = some (b, r', t') →
      r'._z = inst.z r'._x ∧ r'._z = (r'._x.map (fun i => inst.c.getD i 0)).sum ∧
        r'._x.Nodup := by
  refine ⟨repair_run_total inst hwf alpha epsilon x0 hx draws, ?_⟩
  intro fuel b r' t' hr
  obtain ⟨⟨u', v', nc', hinv, -, -⟩, -⟩ :=
    repair_run_spec inst hwf alpha epsilon x0 hx draws fuel _ _ _ hr
  exact ⟨by rw [z_eq_sum]; exact hinv.zsum, hinv.zsum, hinv.nodup⟩

/-- The claim at the three-item instance, for the repair of the partial seed `{0}`. -/
theorem C14_repair_cost_witness :
    inst3.WellFormed ∧ inst3.Selection [0] ∧ (2 : ℚ) = inst3.z [0, 1] :=
  ⟨by decide, by decide,
    ((C14_repair_cost inst3 (by decide) [0] (by decide) 1 (1 / 1000000000)
      (fun _ => 0)).2 3 true
      (scp_repair.mk 1 (1 / 1000000000) inst3.c inst3.S (read_T inst3) [0, 1] 2) 1
      (by decide!)).1⟩

/-! ## Claims on the restricted candidate list -/

/-- A turn of the selection loop of `scp_grasp::run`, as `run` calls it: the candidate list
is `g.rcl u`, an empty list returns `false`, otherwise the item at the drawn position is
added. -/
theorem grasp_loop_turn (draws : Nat → Nat) (fuel : Nat) (g : scp_grasp) (u v : List Int)
    (nc : Int) (t : Nat) :
    scp_grasp.loop draws (c_min_of g._c g._T.length) (fuel + 1) g u v nc t
      = if nc < (g._S.length : Int) then
          if (g.rcl u).isEmpty then some (false, g, t)
          else scp_grasp.loop draws (c_min_of g._c g._T.length) fuel
            (g._add ((g.rcl u).getD (draws t % (g.rcl u).length) 0) u v).1
            (g._add ((g.rcl u).getD (draws t % (g.rcl u).length) 0) u v).2.2.1
            (g._add ((g.rcl u).getD (draws t % (g.rcl u).length) 0) u v).2.2.2
            (nc + (g._add ((g.rcl u).getD (draws t % (g.rcl u).length) 0) u v).2.1) (t + 1)
        else some (true, g, t) := rfl

theorem mem_rcl (g : scp_grasp) (u : List Int) (i : Nat) :
    i ∈ g.rcl u ↔ i < g._T.length ∧ vget u i > 0 ∧ g.score u i + g.epsilon ≥ g.limit u :=
  mem_build_rcl _ _ _ _ _ _ _

/-- With candidates present, `e_max` after the scoring loop is the largest score of a
candidate. -/
theorem e_max_eq (c : List ℚ) (m : Nat) (u : List Int) (M : ℚ)
    (hM1 : ∃ i, i < m ∧ vget u i > 0 ∧ e_at c (c_min_of c m) u i = M)
    (hM2 : ∀ i, i < m → vget u i > 0 → e_at c (c_min_of c m) u i ≤ M) :
    (e_bounds c (c_min_of c m) u m).2 = M := by
  obtain ⟨-, p2, p3, -⟩ := e_bounds_fold c (c_min_of c m) u m
    (fun i hi hu => e_at_pos c m u i hi hu) m (le_refl _)
  obtain ⟨i, hi, hui, hei⟩ := hM1
  obtain ⟨k, hk, huk, hek⟩ := p3 ⟨i, hi, hui⟩
  have h1 := p2 i hi hui
  have h2 := hM2 k hk huk
  unfold e_bounds
  rw [hei] at h1
  rw [hek] at h2
  exact le_antisymm h2 h1

/-- C15, amended (alpha = 1 boundary, exact arithmetic): for an object with `alpha = 1` and
`epsilon ≥ 0`, with the scores and the threshold computed without rounding, in every state
`u` of the selection loop of `scp_grasp::run` in which candidates exist, `M` being the
maximum of the scores `e[i]` over the candidates (`u[i] > 0`): the threshold `e_limit` is
`M`, the RCL contains every candidate whose score is `M`, and every item of the RCL is a
candidate with `e[i] + epsilon ≥ M`, so that no candidate with `e[i] + epsilon < M` is in
the RCL. -/
theorem C15_alpha_one (g : scp_grasp) (ha : g.alpha = 1) (he : 0 ≤ g.epsilon) (u : List Int)
    (M : ℚ) (hM1 : ∃ i, i < g._T.length ∧ vget u i > 0 ∧ g.score u i = M)
    (hM2 : ∀ i, i < g._T.length → vget u i > 0 → g.score u i ≤ M) :
    g.limit u = M ∧
    (∀ i, i < g._T.length → vget u i > 0 → g.score u i = M → i ∈ g.rcl u) ∧
    (∀ i, i ∈ g.rcl u →
      vget u i > 0 ∧ M ≤ g.score u i + g.epsilon ∧ ¬ (g.score u i + g.epsilon < M)) := by
  have hmax := e_max_eq g._c g._T.length u M hM1 hM2
  have hlim : g.limit u = M := by
    unfold scp_grasp.limit e_limit
    rw [hmax, ha]; ring
  refine ⟨hlim, ?_, ?_⟩
  · intro i hi hu hei
    rw [mem_rcl]
    refine ⟨hi, hu, ?_⟩
    rw [hlim, hei]
    show M ≤ M + g.epsilon
    linarith
  · intro i hi
    rw [mem_rcl, hlim] at hi
    obtain ⟨-, hu, hge⟩ := hi
    exact ⟨hu, hge, not_lt.mpr hge⟩

/-- The claim at the first turn of the loop on the three-item instance: `u = [2, 2, 3]`,
scores `2, 2, 1`, maximum `2`. -/
theorem C15_alpha_one_witness :
    (grasp_object inst3 1 (1 / 1000000000)).limit [2, 2, 3] = 2 ∧
      (grasp_object inst3 1 (1 / 1000000000)).rcl [2, 2, 3] = [0, 1] :=
  ⟨(C15_alpha_one (grasp_object inst3 1 (1 / 1000000000)) (by decide!) (by decide!) [2, 2, 3] 2
      ⟨0, by decide!, by decide!, by decide!⟩ (by decide!)).1, by decide!⟩

/-- C17, the code at the failing input. On `inst_pair` from `{0, 1, 2}` with only `_2_1`
enabled, the first scan of `run_2_1` finds the exchange of items 0 and 1 for item 3: the
body erases `it` and `jt`, and the header of the loop over `jt` increments the erased
iterator. Under the rules of the standard `run` has undefined behaviour there and returns
nothing. In general `run` returns under these rules exactly when `run_1_1` and `run_2_1`
perform no exchange at all. -/
theorem C17_erased_iterator :
    inst_pair.WellFormed ∧ inst_pair.Selection [0, 1, 2] ∧
    (ls_object inst_pair [0, 1, 2]).start
      = (scp_local_search.mk inst_pair.c inst_pair.S (read_T inst_pair) [0, 1, 2] 10,
          [1, 1, 1]) ∧
    find_2_1 (scp_local_search.mk inst_pair.c inst_pair.S (read_T inst_pair) [0, 1, 2] 10)
      [1, 1, 1] = some (0, 1, 3) ∧
    (ls_object inst_pair [0, 1, 2]).run_strict scp_local_search._2_1 = none ∧
    ∀ (ls : scp_local_search) (mask : Nat), ls.run_strict mask = ls.run mask 0 := by
  refine ⟨by decide, by decide, by decide!, by decide!, by decide!, fun ls mask => rfl⟩

/-- C18 (reverse index invariant): after `read( instance )` of a well-formed instance on a
`scp_grasp`, a `scp_repair` or a `scp_local_search` object, for every item `i` in `[0, m)`
and every requirement `j` in `[0, n)`, `j` is in `_T[i]` if and only if `i` is in `S[j]`. -/
theorem C18_reverse_index (inst : scp_problem) (hwf : inst.WellFormed)
    (g : scp_grasp) (r : scp_repair) (ls : scp_local_search)
    (i j : Nat) (_hi : i < inst.num_elements) (hj : j < inst.num_sets) :
    (j ∈ (g.read inst)._T.getD i [] ↔ i ∈ inst.S.getD j []) ∧
    (j ∈ (r.read inst)._T.getD i [] ↔ i ∈ inst.S.getD j []) ∧
    (j ∈ (ls.read inst)._T.getD i [] ↔ i ∈ inst.S.getD j []) := by
  have hI := indexed_read_T inst hwf
  have key : j ∈ (read_T inst).getD i [] ↔ i ∈ inst.S.getD j [] := by
    rw [hI.memT i j]
    constructor
    · intro h; exact h.2
    · intro h; exact ⟨hj, h⟩
  exact ⟨key, key, key⟩

/-- The claim at the three-item instance: requirement 2 is in `_T[1]` as item 1 is in
`S[2]`. -/
theorem C18_reverse_index_witness :
    inst3.WellFormed ∧
      (2 ∈ ((scp_grasp.init 1 0).read inst3)._T.getD 1 [] ↔ 1 ∈ inst3.S.getD 2 []) :=
  ⟨by decide,
    (C18_reverse_index inst3 (by decide) (scp_grasp.init 1 0) (scp_repair.init 0)
      scp_local_search.init 1 2 (by decide) (by decide)).1⟩

/-- C19 (feasibility check): for every instance and every selection `x`,
`scp_problem::check(x)` is true if and only if every requirement `j` in `[0, n)` has a
member of `S[j]` in `x`; so it is true when `n = 0` and false when some `S[j]` is empty. -/
theorem C19_check_spec (p : scp_problem) (x : List Nat) :
    (p.check x = true ↔ ∀ j, j < p.num_sets → ∃ i, i ∈ p.S.getD j [] ∧ i ∈ x) ∧
    (p.num_sets = 0 → p.check x = true) ∧
    (∀ j, j < p.num_sets → p.S.getD j [] = [] → p.check x = false) := by
  refine ⟨check_iff p x, ?_, ?_⟩
  · intro h0
    rw [check_iff]
    intro j hj
    have : j < p.num_sets := hj
    omega
  · intro j hj hS
    rw [← Bool.not_eq_true, check_iff]
    intro h
    obtain ⟨i, hi, -⟩ := h j hj
    rw [hS] at hi
    simp at hi

/-- C20 (end-to-end scenario, single expensive item): on the three-item instance, from the
selection `{item2}` the first loop of `run` gives `z = 3` and `v = [1, 1, 1]`, the 1-0 pass
`run_1_0` leaves this state as it is, and `run` with only `_1_0` enabled returns `true`
with the selection `{item2}` for every fuel: item2 stays selected. -/
theorem C20_drop_single_item (fuel : Nat) :
    (ls_object inst3 [2]).start
        = (scp_local_search.mk inst3.c inst3.S (read_T inst3) [2] 3, [1, 1, 1]) ∧
      (scp_local_search.mk inst3.c inst3.S (read_T inst3) [2] 3).run_1_0 [1, 1, 1]
        = (scp_local_search.mk inst3.c inst3.S (read_T inst3) [2] 3, [1, 1, 1]) ∧
      (ls_object inst3 [2]).run scp_local_search._1_0 fuel
        = some (true, scp_local_search.mk inst3.c inst3.S (read_T inst3) [2] 3) := by
  refine ⟨by decide!, by decide!, ?_⟩
  have h := ls_run_mono (ls_object inst3 [2]) scp_local_search._1_0 0 _ (by decide! :
    (ls_object inst3 [2]).run scp_local_search._1_0 0
      = some (true, scp_local_search.mk inst3.c inst3.S (read_T inst3) [2] 3)) fuel
  rw [Nat.zero_add] at h
  exact h

/-! ## Claims on the scores, `e_min`, `e_max` and the candidate list -/

theorem length_read_T (p : scp_problem) : (read_T p).length = p.c.length := by
  simp [read_T, length_read_loop, scp_problem.num_elements]

theorem limit_eq (g : scp_grasp) (u : List Int) :
    g.limit u = (g.bounds u).1 + g.alpha * ((g.bounds u).2 - (g.bounds u).1) := rfl

/-- C21, the code at the failing input. On `inst_rcl` with `alpha = 1/2`, the first draw
picking item 0, the second turn of the selection loop of `scp_grasp::run` starts with
`u = [0, 1, 3]` (and so does the first turn of `scp_repair::run` from the seed `{0}`). The
candidates are items 1 and 2, with scores `1` and `3/5`, so the minimum over the
candidates is `3/5` and the maximum `1`; the code computes `e_min = 0`, the threshold `1/2`
instead of `3/5 + 1/2 * (1 - 3/5) = 4/5`, and puts item 2 in the RCL although
`e[2] + epsilon < 4/5`. -/
theorem C21_rcl_divergence :
    inst_rcl.WellFormed ∧
    ((grasp_object inst_rcl (1 / 2) (1 / 1000000000)).run_visited (fun _ => 0) 1).map
        (fun s => s.2.1) = [[1, 1, 3], [0, 1, 3]] ∧
    ((repair_object inst_rcl (1 / 2) (1 / 1000000000) [0]).run_visited (fun _ => 0) 0).map
        (fun s => s.2.1) = [[0, 1, 3]] ∧
    (List.range 3).filter (fun i => decide (vget [0, 1, 3] i > 0)) = [1, 2] ∧
    (grasp_object inst_rcl (1 / 2) (1 / 1000000000)).score [0, 1, 3] 1 = 1 ∧
    (grasp_object inst_rcl (1 / 2) (1 / 1000000000)).score [0, 1, 3] 2 = 3 / 5 ∧
    (grasp_object inst_rcl (1 / 2) (1 / 1000000000)).bounds [0, 1, 3] = (0, 1) ∧
    (grasp_object inst_rcl (1 / 2) (1 / 1000000000)).limit [0, 1, 3] = 1 / 2 ∧
    (grasp_object inst_rcl (1 / 2) (1 / 1000000000)).rcl [0, 1, 3] = [1, 2] ∧
    ¬ ((grasp_object inst_rcl (1 / 2) (1 / 1000000000)).score [0, 1, 3] 2 + 1 / 1000000000
        ≥ 3 / 5 + 1 / 2 * (1 - 3 / 5)) := by
  refine ⟨by decide, by decide!, by decide!, by decide, by decide!, by decide!, by decide!,
    by decide!, by decide!, by decide!⟩

/-- C26, amended (positive denominator, exact arithmetic): on an instance with at least one
item, whatever the costs, `c_min` after the first loop of `scp_grasp::run` is the least
cost `a` over all items and, computed without rounding, for every item `i` the denominator
`1 + c[i] - a` is at least `1`, and the score of every candidate (`u[i] > 0`) is the
quotient `u[i] / (1 + c[i] - a)` with `0 < e[i] ≤ u[i]`. -/
theorem C26_positive_denominator (inst : scp_problem) (hm : 0 < inst.num_elements)
    (alpha epsilon : ℚ) :
    ∃ a, c_min_of (grasp_object inst alpha epsilon)._c
          (grasp_object inst alpha epsilon)._T.length = some a ∧
      (∀ i, i < inst.num_elements → a ≤ inst.c.getD i 0) ∧
      (∃ i, i < inst.num_elements ∧ a = inst.c.getD i 0) ∧
      (∀ i, i < inst.num_elements → 1 ≤ 1 + inst.c.getD i 0 - a) ∧
      ∀ (u : List Int) (i : Nat), i < inst.num_elements → vget u i > 0 →
        (grasp_object inst alpha epsilon).score u i
            = (vget u i : ℚ) / (1 + inst.c.getD i 0 - a) ∧
          0 < (grasp_object inst alpha epsilon).score u i ∧
          (grasp_object inst alpha epsilon).score u i ≤ (vget u i : ℚ) := by
  have hlen : (grasp_object inst alpha epsilon)._T.length = inst.c.length := length_read_T inst
  obtain ⟨a, h1, h2, h3⟩ := c_min_of_spec inst.c inst.c.length hm
  have hden : ∀ i, i < inst.num_elements → 1 ≤ 1 + inst.c.getD i 0 - a := by
    intro i hi
    have := h2 i hi
    linarith
  refine ⟨a, ?_, h2, h3, hden, ?_⟩
  · rw [hlen]; exact h1
  · intro u i hi hu
    have hs : (grasp_object inst alpha epsilon).score u i
        = (vget u i : ℚ) / (1 + inst.c.getD i 0 - a) := by
      unfold scp_grasp.score
      rw [hlen]
      show e_at inst.c (c_min_of inst.c inst.c.length) u i = _
      rw [h1]
      unfold e_at
      rw [if_pos hu]
    have hn : (0 : ℚ) < (vget u i : ℚ) := by exact_mod_cast hu
    have hd := hden i hi
    rw [hs]
    exact ⟨hs ▸ rfl, div_pos hn (by linarith), div_le_self (le_of_lt hn) hd⟩

/-- The claim at the three-item instance: the least cost is `1`. -/
theorem C26_positive_denominator_witness :
    0 < inst3.num_elements ∧
      ∃ a, c_min_of (grasp_object inst3 1 0)._c (grasp_object inst3 1 0)._T.length = some a ∧
        (∀ i, i < inst3.num_elements → 1 ≤ 1 + inst3.c.getD i 0 - a) :=
  ⟨by decide, by
    obtain ⟨a, h1, -, -, h4, -⟩ := C26_positive_denominator inst3 (by decide) 1 0
    exact ⟨a, h1, h4⟩⟩

/-- C30 (the `e_min` and `e_max` the code computes): in every state `u` of the selection
loop of `scp_grasp::run` with at least one candidate, `M` being the maximum of the scores
over the candidates (`u[i] > 0`): the computed `e_max` is `M`; when item 0 is a candidate
the computed `e_min` is the minimum of the scores over the candidates; when item 0 is not
a candidate the computed `e_min` is `0` and `e_limit` is `alpha * e_max`. -/
theorem C30_actual_bounds (g : scp_grasp) (u : List Int) (M : ℚ)
    (hM1 : ∃ i, i < g._T.length ∧ vget u i > 0 ∧ g.score u i = M)
    (hM2 : ∀ i, i < g._T.length → vget u i > 0 → g.score u i ≤ M) :
    (g.bounds u).2 = M ∧
    (vget u 0 > 0 → ∀ mn, (∃ i, i < g._T.length ∧ vget u i > 0 ∧ g.score u i = mn) →
      (∀ i, i < g._T.length → vget u i > 0 → mn ≤ g.score u i) → (g.bounds u).1 = mn) ∧
    (¬ vget u 0 > 0 → (g.bounds u).1 = 0 ∧ g.limit u = g.alpha * M) := by
  have hmax : (g.bounds u).2 = M := e_max_eq g._c g._T.length u M hM1 hM2
  obtain ⟨-, -, -, -, p5, p6, p7⟩ := e_bounds_fold g._c (c_min_of g._c g._T.length) u g._T.length
    (fun i hi hu => e_at_pos g._c g._T.length u i hi hu) g._T.length (le_refl _)
  refine ⟨hmax, ?_, ?_⟩
  · intro h0 mn hn1 hn2
    obtain ⟨i0, hi0, -, -⟩ := hM1
    obtain ⟨k, hk, huk, hek⟩ := p6 h0 (by omega)
    obtain ⟨i, hi, hui, hei⟩ := hn1
    have a1 : (g.bounds u).1 ≤ g.score u i := p5 h0 i hi hui
    have a2 : mn ≤ g.score u k := hn2 k hk huk
    have a3 : g.score u k = (g.bounds u).1 := hek
    rw [hei] at a1
    rw [a3] at a2
    exact le_antisymm a1 a2
  · intro h0
    have hz : (g.bounds u).1 = 0 := p7 h0
    refine ⟨hz, ?_⟩
    rw [limit_eq, hz, hmax]; ring

/-- The claim at the second turn of the loop on `inst_rcl`: item 0 is not a candidate,
the maximum score is `1`, the computed `e_min` is `0`. -/
theorem C30_actual_bounds_witness :
    (grasp_object inst_rcl (1 / 2) (1 / 1000000000)).bounds [0, 1, 3] = (0, 1) :=
  Prod.ext
    ((C30_actual_bounds (grasp_object inst_rcl (1 / 2) (1 / 1000000000)) [0, 1, 3] 1
      ⟨1, by decide!, by decide!, by decide!⟩ (by decide!)).2.2 (by decide)).1
    (C30_actual_bounds (grasp_object inst_rcl (1 / 2) (1 / 1000000000)) [0, 1, 3] 1
      ⟨1, by decide!, by decide!, by decide!⟩ (by decide!)).1

/-! ## Claim on the bookkeeping of the selection loops -/

/-- C27 (residual-benefit invariant): on a well-formed instance, in every state in which
the selection loop of `scp_grasp::run` evaluates its test, and in every such state of
`scp_repair::run` from a seed selection within `[0, m)`: for every item `i`, `u[i]` is the
number of requirements of `_T[i]` covered by no selected item, for every requirement `j`,
`v[j]` is the number of selected items covering `j`, `num_covered` is the number of
requirements with `v[j] > 0`, and no `u[i]` is negative. -/
theorem C27_residual_invariant (inst : scp_problem) (hwf : inst.WellFormed)
    (alpha epsilon : ℚ) (draws : Nat → Nat) (fuel : Nat) :
    (∀ s, s ∈ (grasp_object inst alpha epsilon).run_visited draws fuel →
      residual_ok s.1._S s.1._T s.1._x s.2.1 s.2.2.1 s.2.2.2) ∧
    ∀ x0, inst.Selection x0 →
      ∀ s, s ∈ (repair_object inst alpha epsilon x0).run_visited draws fuel →
        residual_ok s.1._S s.1._T s.1._x s.2.1 s.2.2.1 s.2.2.2 := by
  have hI := indexed_read_T inst hwf
  constructor
  · intro s hs
    have h0 := selinv_init inst.c inst.S (read_T inst) hI
    obtain ⟨⟨-, e2, e3⟩, hinv⟩ := grasp_visited_inv draws _ fuel
      { grasp_object inst alpha epsilon with _z := 0, _x := [] } _ _ _ _ hI h0 s hs
    rw [e2, e3]
    exact residual_of_selinv _ _ _ _ _ _ _ _ hinv
  · intro x0 hx s hs
    obtain ⟨s1, s2⟩ := repair_seed_spec inst hwf alpha epsilon x0 hx
    have ec : (repair_object inst alpha epsilon x0).seeded.1._c = inst.c :=
      congrArg scp_grasp._c s2
    have eS : (repair_object inst alpha epsilon x0).seeded.1._S = inst.S :=
      congrArg scp_grasp._S s2
    have eT : (repair_object inst alpha epsilon x0).seeded.1._T = read_T inst :=
      congrArg scp_grasp._T s2
    have ex : (repair_object inst alpha epsilon x0).seeded.1._x = x0 :=
      congrArg scp_grasp._x s2
    have hI2 : Indexed (repair_object inst alpha epsilon x0).seeded.1._c
        (repair_object inst alpha epsilon x0).seeded.1._S
        (repair_object inst alpha epsilon x0).seeded.1._T := by rw [ec, eS, eT]; exact hI
    have hinv0 : SelInv (repair_object inst alpha epsilon x0).seeded.1._c
        (repair_object inst alpha epsilon x0).seeded.1._S
        (repair_object inst alpha epsilon x0).seeded.1._T
        (repair_object inst alpha epsilon x0).seeded.1._x
        (repair_object inst alpha epsilon x0).seeded.1._z
        (repair_object inst alpha epsilon x0).seeded.2.1
        (repair_object inst alpha epsilon x0).seeded.2.2.1
        (repair_object inst alpha epsilon x0).seeded.2.2.2 := by
      rw [ec, eS, eT, ex]; exact s1
    obtain ⟨⟨-, e2, e3⟩, hinv⟩ := repair_visited_inv draws _ fuel _ _ _ _ 0 hI2 hinv0 s hs
    rw [e2, e3]
    exact residual_of_selinv _ _ _ _ _ _ _ _ hinv

/-- The claim at the second turn of the loop on the three-item instance, item 0 picked. -/
theorem C27_residual_invariant_witness :
    inst3.WellFormed ∧ residual_ok inst3.S (read_T inst3) [0] [0, 1, 1] [1, 1, 0] 2 :=
  ⟨by decide,
    (C27_residual_invariant inst3 (by decide) 1 (1 / 1000000000) (fun _ => 0) 2).1
      (scp_grasp.mk 1 (1 / 1000000000) inst3.c inst3.S (read_T inst3) [0] 1,
        [0, 1, 1], [1, 1, 0], 2) (by decide!)⟩

/-! ## Claims on the three exchanges of the local search -/

/-- What `run` with only `_1_0` enabled leaves: the bookkeeping holds and no selected item
is useless. -/
theorem ls_drop_only_spec (inst : scp_problem) (hwf : inst.WellFormed)
    (x0 : List Nat) (hx : inst.Selection x0) (fuel : Nat) (b : Bool) (ls' : scp_local_search)
    (hr : (ls_object inst x0).run scp_local_search._1_0 fuel = some (b, ls')) :
    ∃ x' z' v', b = true ∧ ls' = scp_local_search.mk inst.c inst.S (read_T inst) x' z' ∧
      LSInv inst.c inst.S (read_T inst) x' z' v' ∧
      ∀ it, it ∈ x' → is_useless (read_T inst) v' it = false := by
  have hI := indexed_read_T inst hwf
  rw [ls_object_mk] at hr
  obtain ⟨x', z', v', e, hinv, -, -, -, f0, -, -⟩ :=
    ls_run_spec _ _ _ hI x0 0 hx.1.nodup hx.2 _ fuel _ hr
  simp only [Prod.mk.injEq] at e
  exact ⟨x', z', v', e.1, e.2, hinv, f0 (by decide) (by decide) (by decide)⟩

/-- C28 (no moves enabled): on a well-formed instance, from every selection `x0` within
`[0, m)`, `scp_local_search::run(0)` returns `true` for every fuel, leaves `x()` equal to
`x0` and sets `z()` to the sum of `c[i]` over `x0`. -/
theorem C28_no_moves (inst : scp_problem) (hwf : inst.WellFormed)
    (x0 : List Nat) (hx : inst.Selection x0) (fuel : Nat) :
    (ls_object inst x0).run 0 fuel
        = some (true, scp_local_search.mk inst.c inst.S (read_T inst) x0 (inst.z x0)) ∧
      inst.z x0 = (x0.map (fun i => inst.c.getD i 0)).sum := by
  have hI := indexed_read_T inst hwf
  obtain ⟨v, hs, -⟩ := start_mk inst.c inst.S (read_T inst) hI x0 0 hx.1.nodup hx.2
  refine ⟨?_, z_eq_sum inst x0⟩
  rw [ls_run_none, ls_object_mk, hs, z_eq_sum]

/-- The claim at the three-item instance, from the selection `{0, 2}`. -/
theorem C28_no_moves_witness :
    inst3.WellFormed ∧ inst3.Selection [0, 2] ∧
      (ls_object inst3 [0, 2]).run 0 5
        = some (true, scp_local_search.mk inst3.c inst3.S (read_T inst3) [0, 2]
            (inst3.z [0, 2])) :=
  ⟨by decide, by decide, (C28_no_moves inst3 (by decide) [0, 2] (by decide) 5).1⟩

/-- C22, refuted as stated: there is no well-formed instance with a feasible selection
`x0` such that, after `run` with only `_1_0` enabled, some item left selected has every
requirement it covers covered by at least two selected items, or such that a second call
with only `_1_0` enabled changes the selection. -/
theorem C22_counterexample :
    ¬ ∃ (inst : scp_problem) (x0 : List Nat) (fuel : Nat) (ls' : scp_local_search),
      inst.WellFormed ∧ inst.Selection x0 ∧ inst.check x0 = true ∧
      (ls_object inst x0).run scp_local_search._1_0 fuel = some (true, ls') ∧
      ((∃ it, it ∈ ls'._x ∧
          ∀ j, j ∈ ls'._T.getD it [] → 2 ≤ cover_count ls'._T ls'._x j) ∨
        ∃ fuel2 ls2, ls'.run scp_local_search._1_0 fuel2 = some (true, ls2) ∧
          ls2._x ≠ ls'._x) := by
  rintro ⟨inst, x0, fuel, ls', hwf, hx, -, hr, hbad⟩
  have hI := indexed_read_T inst hwf
  obtain ⟨x', z', v', -, rfl, hinv, hu⟩ := ls_drop_only_spec inst hwf x0 hx fuel _ _ hr
  rcases hbad with ⟨it, hit, hall⟩ | ⟨fuel2, ls2, hr2, hne⟩
  · obtain ⟨j, hj, hj1⟩ := (is_useless_false_iff _ v' it).mp (hu it hit)
    have h2 := hall j hj
    have := hinv.vcount j
    have h3 : 2 ≤ cover_count (read_T inst) x' j := h2
    omega
  · have h := ls_rerun _ _ _ hI x' z' v' hinv scp_local_search._1_0 fuel2
      (fun _ => hu) (fun b1 => absurd b1 (by decide)) (fun b2 => absurd b2 (by decide))
    rw [h] at hr2
    simp only [Option.some.injEq, Prod.mk.injEq, true_and] at hr2
    exact hne (by rw [← hr2])

/-- C22, amended (a Drop pass misses nothing): on a well-formed instance, from every
selection `x0` within `[0, m)`, `run` with only `_1_0` enabled returns, and in the selection
it leaves no item is removable: every selected item covers a requirement covered by fewer
than two selected items; a second call with only `_1_0` enabled leaves the same selection. -/
theorem C22_drop_complete (inst : scp_problem) (hwf : inst.WellFormed)
    (x0 : List Nat) (hx : inst.Selection x0) :
    (∃ r, (ls_object inst x0).run scp_local_search._1_0 (x0.length * inst.c.length)
        = some r) ∧
    ∀ fuel b ls', (ls_object inst x0).run scp_local_search._1_0 fuel = some (b, ls') →
      (∀ it, it ∈ ls'._x →
        ¬ ∀ j, j ∈ ls'._T.getD it [] → 2 ≤ cover_count ls'._T ls'._x j) ∧
      ∀ fuel2 b2 ls2, ls'.run scp_local_search._1_0 fuel2 = some (b2, ls2) →
        ls2._x = ls'._x := by
  have hI := indexed_read_T inst hwf
  refine ⟨by
    rw [ls_object_mk]
    exact ls_run_total _ _ _ hI x0 0 hx.1.nodup hx.2 _ _ (le_refl _), ?_⟩
  intro fuel b ls' hr
  obtain ⟨x', z', v', -, rfl, hinv, hu⟩ := ls_drop_only_spec inst hwf x0 hx fuel _ _ hr
  constructor
  · intro it hit hall
    obtain ⟨j, hj, hj1⟩ := (is_useless_false_iff _ v' it).mp (hu it hit)
    have h3 : 2 ≤ cover_count (read_T inst) x' j := hall j hj
    have := hinv.vcount j
    omega
  · intro fuel2 b2 ls2 hr2
    have h := ls_rerun _ _ _ hI x' z' v' hinv scp_local_search._1_0 fuel2
      (fun _ => hu) (fun b1 => absurd b1 (by decide)) (fun b2 => absurd b2 (by decide))
    rw [h] at hr2
    simp only [Option.some.injEq, Prod.mk.injEq] at hr2
    rw [← hr2.2]

/-- The amended claim at the three-item instance: from `{0, 1, 2}` the pass leaves `{2}`,
where item 2 is not removable, and a second pass leaves `{2}`. -/
theorem C22_drop_complete_witness :
    inst3.WellFormed ∧ inst3.Selection [0, 1, 2] ∧
      (ls_object inst3 [0, 1, 2]).run scp_local_search._1_0 0
        = some (true, scp_local_search.mk inst3.c inst3.S (read_T inst3) [2] 3) ∧
      (∀ it, it ∈ (scp_local_search.mk inst3.c inst3.S (read_T inst3) [2] 3)._x →
        ¬ ∀ j, j ∈ (scp_local_search.mk inst3.c inst3.S (read_T inst3) [2] 3)._T.getD it [] →
          2 ≤ cover_count (scp_local_search.mk inst3.c inst3.S (read_T inst3) [2] 3)._T
            (scp_local_search.mk inst3.c inst3.S (read_T inst3) [2] 3)._x j) :=
  ⟨by decide, by decide, by decide!,
    ((C22_drop_complete inst3 (by decide) [0, 1, 2] (by decide)).2 0 true
      (scp_local_search.mk inst3.c inst3.S (read_T inst3) [2] 3) (by decide!)).1⟩

/-- C23 (Drop rule): on a well-formed instance, from every selection `x0` within `[0, m)`
(a set, hence in ascending order), `run` with only `_1_0` enabled returns `true` for every
fuel with the selection and the cost that `drop_rule` gives: the items of `x0` are visited
once in ascending order, an item is removed exactly when every requirement it covers is
covered by at least two currently selected items, each removal subtracts the cost of the
item from `z()`, and nothing is added (the selection left is a sublist of `x0`). -/
theorem C23_drop_rule (inst : scp_problem) (hwf : inst.WellFormed)
    (x0 : List Nat) (hx : inst.Selection x0) (fuel : Nat) :
    (ls_object inst x0).run scp_local_search._1_0 fuel
        = some (true, scp_local_search.mk inst.c inst.S (read_T inst)
            (drop_rule inst.c (read_T inst) x0 (x0, inst.z x0)).1
            (drop_rule inst.c (read_T inst) x0 (x0, inst.z x0)).2) ∧
      (drop_rule inst.c (read_T inst) x0 (x0, inst.z x0)).1.Sublist x0 ∧
      x0.Sorted (· < ·) := by
  have hI := indexed_read_T inst hwf
  obtain ⟨v, hs, h0⟩ := start_mk inst.c inst.S (read_T inst) hI x0 0 hx.1.nodup hx.2
  have hfold := drop_fold_eq_rule inst.c inst.S (read_T inst) hI x0 x0 _ v h0 hx.1.nodup
    (fun it hit => hit)
  obtain ⟨x', z', v', e, -, -, -, hsub, -, -⟩ :=
    drop_fold_spec inst.c inst.S (read_T inst) hI x0 x0 _ v h0 hx.1.nodup (fun it hit => hit)
  have hrun : (ls_object inst x0).run scp_local_search._1_0 fuel
      = some (true, scp_local_search.mk inst.c inst.S (read_T inst)
          (drop_rule inst.c (read_T inst) x0 (x0, inst.z x0)).1
          (drop_rule inst.c (read_T inst) x0 (x0, inst.z x0)).2) := by
    rw [ls_run_drop_only, ls_object_mk, hs, z_eq_sum]
    exact congrArg (fun q => some (true, q)) hfold
  refine ⟨hrun, ?_, hx.1⟩
  rw [e] at hfold
  have hx' : x' = (drop_rule inst.c (read_T inst) x0
      (x0, (x0.map (fun i => inst.c.getD i 0)).sum)).1 := congrArg scp_local_search._x hfold
  rw [z_eq_sum, ← hx']
  exact hsub

/-- The claim at the three-item instance: from `{0, 1, 2}` the rule removes items 0 and 1. -/
theorem C23_drop_rule_witness :
    inst3.WellFormed ∧ inst3.Selection [0, 1, 2] ∧
      drop_rule inst3.c (read_T inst3) [0, 1, 2] ([0, 1, 2], inst3.z [0, 1, 2]) = ([2], 3) ∧
      (drop_rule inst3.c (read_T inst3) [0, 1, 2]
        ([0, 1, 2], inst3.z [0, 1, 2])).1.Sublist [0, 1, 2] :=
  ⟨by decide, by decide, by decide!,
    (C23_drop_rule inst3 (by decide) [0, 1, 2] (by decide) 0).2.1⟩

/-- C24 (Swap 1-for-1 reaches a fixpoint): on a well-formed instance, from every selection
`x0` within `[0, m)`, `run` with only `_1_1` enabled returns (with `|x0| * m` exchanges
allowed), and whenever it returns it returns `true` and there is no selected item `s` and
unselected item `i` with `c[i] < c[s]` such that `_T[i]` contains every requirement of
`_T[s]` covered by no selected item other than `s`. -/
theorem C24_swap_1_1_fixpoint (inst : scp_problem) (hwf : inst.WellFormed)
    (x0 : List Nat) (hx : inst.Selection x0) :
    (∃ r, (ls_object inst x0).run scp_local_search._1_1 (x0.length * inst.c.length)
        = some r) ∧
    ∀ fuel b ls', (ls_object inst x0).run scp_local_search._1_1 fuel = some (b, ls') →
      b = true ∧
      ¬ ∃ s i, s ∈ ls'._x ∧ i < inst.num_elements ∧ i ∉ ls'._x ∧
        inst.c.getD i 0 < inst.c.getD s 0 ∧
        ∀ j, j ∈ (read_T inst).getD s [] →
          (∀ k, k ∈ ls'._x → k ≠ s → j ∉ (read_T inst).getD k []) →
            j ∈ (read_T inst).getD i [] := by
  have hI := indexed_read_T inst hwf
  refine ⟨by
    rw [ls_object_mk]
    exact ls_run_total _ _ _ hI x0 0 hx.1.nodup hx.2 _ _ (le_refl _), ?_⟩
  intro fuel b ls' hr
  rw [ls_object_mk] at hr
  obtain ⟨x', z', v', e, hinv, -, -, -, -, f1, -⟩ :=
    ls_run_spec _ _ _ hI x0 0 hx.1.nodup hx.2 _ fuel _ hr
  simp only [Prod.mk.injEq] at e
  obtain ⟨rfl, rfl⟩ := e
  refine ⟨rfl, ?_⟩
  rintro ⟨s, i, hs, hi, hix, hc, hall⟩
  have hnone := find_1_1_none _ v' (f1 (by decide) (by decide)) s hs i
    (by show i < (read_T inst).length; rw [hI.lenT]; exact hi)
  have htrue : cond_1_1 (scp_local_search.mk inst.c inst.S (read_T inst) x' z') v' s i
      = true := by
    rw [cond_1_1_iff]
    refine ⟨hc, hix, ?_⟩
    intro j hj hv
    apply hall j hj
    have hcnt : cover_count (read_T inst) x' j ≤ 1 := by
      have := hinv.vcount j
      omega
    exact only_cover_of_count_le_one _ _ s j hs hj hcnt
  rw [htrue] at hnone
  exact Bool.noConfusion hnone

/-- The claim at the three-item instance, from the selection `{2}`: no exchange applies,
although items 0 and 1 are cheaper than item 2. -/
theorem C24_swap_1_1_fixpoint_witness :
    inst3.WellFormed ∧ inst3.Selection [2] ∧
      ¬ ∃ s i, s ∈ (scp_local_search.mk inst3.c inst3.S (read_T inst3) [2] 3)._x ∧
        i < inst3.num_elements ∧
        i ∉ (scp_local_search.mk inst3.c inst3.S (read_T inst3) [2] 3)._x ∧
        inst3.c.getD i 0 < inst3.c.getD s 0 ∧
        ∀ j, j ∈ (read_T inst3).getD s [] →
          (∀ k, k ∈ (scp_local_search.mk inst3.c inst3.S (read_T inst3) [2] 3)._x →
            k ≠ s → j ∉ (read_T inst3).getD k []) →
            j ∈ (read_T inst3).getD i [] :=
  ⟨by decide, by decide,
    ((C24_swap_1_1_fixpoint inst3 (by decide) [2] (by decide)).2 0 true
      (scp_local_search.mk inst3.c inst3.S (read_T inst3) [2] 3) (by decide!)).2⟩

/-- C29 (a Drop pass leaves no redundant item): on a well-formed instance, from every
selection `x0` within `[0, m)`, `run` with only `_1_0` enabled returns for every fuel, and
in the selection it leaves every item covers a requirement that no other selected item
covers; running `run` with only `_1_0` enabled on the output returns the output unchanged,
selection and cost. -/
theorem C29_drop_no_redundant (inst : scp_problem) (hwf : inst.WellFormed)
    (x0 : List Nat) (hx : inst.Selection x0) (fuel : Nat) :
    ∃ ls', (ls_object inst x0).run scp_local_search._1_0 fuel = some (true, ls') ∧
      (∀ it, it ∈ ls'._x → ∃ j, j < inst.S.length ∧ it ∈ inst.S.getD j [] ∧
        ∀ k, k ∈ ls'._x → k ≠ it → k ∉ inst.S.getD j []) ∧
      ∀ fuel2, ls'.run scp_local_search._1_0 fuel2 = some (true, ls') := by
  have hI := indexed_read_T inst hwf
  have hrun := ls_run_drop_only (ls_object inst x0) fuel
  obtain ⟨x', z', v', -, e, hinv, hu⟩ := ls_drop_only_spec inst hwf x0 hx fuel _ _ hrun
  refine ⟨_, hrun, ?_, ?_⟩
  · rw [e]
    intro it hit
    obtain ⟨j, hj, hj1⟩ := (is_useless_false_iff _ v' it).mp (hu it hit)
    have hcnt : cover_count (read_T inst) x' j ≤ 1 := by
      have := hinv.vcount j
      omega
    have hjm := (hI.memT it j).mp hj
    refine ⟨j, hjm.1, hjm.2, ?_⟩
    intro k hk hne hkS
    exact only_cover_of_count_le_one _ _ it j hit hj hcnt k hk hne
      ((hI.memT k j).mpr ⟨hjm.1, hkS⟩)
  · intro fuel2
    rw [e]
    exact ls_rerun _ _ _ hI x' z' v' hinv scp_local_search._1_0 fuel2
      (fun _ => hu) (fun b1 => absurd b1 (by decide)) (fun b2 => absurd b2 (by decide))

/-- The claim at the three-item instance: from `{0, 1, 2}` the pass leaves `{2}`. -/
theorem C29_drop_no_redundant_witness :
    inst3.WellFormed ∧ inst3.Selection [0, 1, 2] ∧
      ∃ ls', (ls_object inst3 [0, 1, 2]).run scp_local_search._1_0 0 = some (true, ls') ∧
        (∀ it, it ∈ ls'._x → ∃ j, j < inst3.S.length ∧ it ∈ inst3.S.getD j [] ∧
          ∀ k, k ∈ ls'._x → k ≠ it → k ∉ inst3.S.getD j []) ∧
        ∀ fuel2, ls'.run scp_local_search._1_0 fuel2 = some (true, ls') :=
  ⟨by decide, by decide, C29_drop_no_redundant inst3 (by decide) [0, 1, 2] (by decide) 0⟩

/-! ## Claims on monotonicity, termination, safety, the acceptance test and `reduce` -/

/-- C32 (the construction terminates and never wastes a pick): on a well-formed instance,
for every `alpha`, `epsilon` and stream of draws: in every state in which the selection
loop of `scp_grasp::run` evaluates its test, every member of the list `rcl` of that state
(the list the item is drawn from) is not selected yet and covers a requirement that no
selected item covers; the loop evaluates its test at most `n + 1` times and enters its
body (test true) at most `n` times; `run` returns with `n` picks allowed; and whenever
`run` returns it has read at most `n` draws and `x()` has one item per draw, hence at most
`n` items. -/
theorem C32_no_wasted_pick (inst : scp_problem) (hwf : inst.WellFormed) (alpha epsilon : ℚ)
    (draws : Nat → Nat) :
    (∀ fuel s, s ∈ (grasp_object inst alpha epsilon).run_visited draws fuel →
      ∀ k, k ∈ s.1.rcl s.2.1 →
        k ∉ s.1._x ∧
          ∃ j, j < inst.S.length ∧ k ∈ inst.S.getD j [] ∧
            ∀ i, i ∈ s.1._x → i ∉ inst.S.getD j []) ∧
    (∀ fuel, ((grasp_object inst alpha epsilon).run_visited draws fuel).length
        ≤ inst.S.length + 1 ∧
      (((grasp_object inst alpha epsilon).run_visited draws fuel).filter
        (fun s => decide (s.2.2.2 < (inst.S.length : Int)))).length ≤ inst.S.length) ∧
    (∃ r, (grasp_object inst alpha epsilon).run draws inst.S.length = some r) ∧
    ∀ fuel b g' t', (grasp_object inst alpha epsilon).run draws fuel = some (b, g', t') →
      t' ≤ inst.S.length ∧ g'._x.length = t' ∧ g'._x.length ≤ inst.S.length := by
  have hI := indexed_read_T inst hwf
  have h0 := selinv_init inst.c inst.S (read_T inst) hI
  refine ⟨?_, ?_, grasp_run_total inst hwf alpha epsilon draws, ?_⟩
  · intro fuel s hs k hk
    obtain ⟨-, hinv⟩ := grasp_visited_inv draws _ fuel
      { grasp_object inst alpha epsilon with _z := 0, _x := [] } _ _ _ _ hI h0 s hs
    have hu := ((mem_rcl s.1 s.2.1 k).mp hk).2.1
    exact ⟨(selinv_candidate _ _ _ hI _ _ _ _ _ hinv k hu).1,
      selinv_candidate_new _ _ _ hI _ _ _ _ _ hinv k hu⟩
  · intro fuel
    have := grasp_visited_length draws
      (c_min_of (grasp_object inst alpha epsilon)._c (grasp_object inst alpha epsilon)._T.length)
      fuel { grasp_object inst alpha epsilon with _z := 0, _x := [] } _ _ _ 0 hI h0
    have e : ((grasp_object inst alpha epsilon).run_visited draws fuel).length
        = (scp_grasp.visited draws
            (c_min_of (grasp_object inst alpha epsilon)._c
              (grasp_object inst alpha epsilon)._T.length)
            fuel { grasp_object inst alpha epsilon with _z := 0, _x := [] }
            (u_init (read_T inst) (read_T inst).length)
            (List.replicate inst.S.length 0) 0 0).length := rfl
    have hturns := grasp_visited_turns draws
      (c_min_of (grasp_object inst alpha epsilon)._c (grasp_object inst alpha epsilon)._T.length)
      fuel { grasp_object inst alpha epsilon with _z := 0, _x := [] } _ _ _ 0 hI h0
    rw [e]
    have e2 : ({ grasp_object inst alpha epsilon with _z := 0, _x := [] } : scp_grasp)._S.length
        = inst.S.length := rfl
    rw [e2] at this hturns
    refine ⟨by omega, ?_⟩
    have e4 : (((grasp_object inst alpha epsilon).run_visited draws fuel).filter
          (fun s => decide (s.2.2.2 < (inst.S.length : Int)))).length
        = ((scp_grasp.visited draws
            (c_min_of (grasp_object inst alpha epsilon)._c
              (grasp_object inst alpha epsilon)._T.length)
            fuel { grasp_object inst alpha epsilon with _z := 0, _x := [] }
            (u_init (read_T inst) (read_T inst).length)
            (List.replicate inst.S.length 0) 0 0).filter
          (fun s => decide (s.2.2.2 < (inst.S.length : Int)))).length := rfl
    rw [e4]
    omega
  · intro fuel b g' t' hr
    obtain ⟨q1, q2, q3⟩ := grasp_loop_count draws _ fuel
      { grasp_object inst alpha epsilon with _z := 0, _x := [] } _ _ _ 0 hI h0 b g' t' hr
    have e2 : ({ grasp_object inst alpha epsilon with _z := 0, _x := [] } : scp_grasp)._S.length
        = inst.S.length := rfl
    have e3 : ({ grasp_object inst alpha epsilon with _z := 0, _x := [] } : scp_grasp)._x.length
        = 0 := rfl
    rw [e2] at q1
    rw [e3] at q3
    push_cast at q1
    omega

/-- The claim at the three-item instance with `alpha = 1` and every draw `0`: the run picks
item 0 and then item 1, two draws for three requirements. -/
theorem C32_no_wasted_pick_witness :
    inst3.WellFormed ∧
      (grasp_object inst3 1 (1 / 1000000000)).run (fun _ => 0) 3
        = some (true, scp_grasp.mk 1 (1 / 1000000000) inst3.c inst3.S (read_T inst3) [0, 1] 2,
            2) ∧
      (2 ≤ inst3.S.length ∧
        (scp_grasp.mk 1 (1 / 1000000000) inst3.c inst3.S (read_T inst3) [0, 1] 2)._x.length
          = 2 ∧
        (scp_grasp.mk 1 (1 / 1000000000) inst3.c inst3.S (read_T inst3) [0, 1] 2)._x.length
          ≤ inst3.S.length) :=
  ⟨by decide, by decide!,
    (C32_no_wasted_pick inst3 (by decide) 1 (1 / 1000000000) (fun _ => 0)).2.2.2 3 true
      (scp_grasp.mk 1 (1 / 1000000000) inst3.c inst3.S (read_T inst3) [0, 1] 2) 2
      (by decide!)⟩

/-- C33 (local search never loses coverage): on a well-formed instance, from every
selection `x0` within `[0, m)`, feasible or not, and for every exchange mask, `run` returns
(within `|x0| * m` exchanges) and every requirement covered by `x0` is covered by the
selection `x()` it leaves. -/
theorem C33_coverage_kept (inst : scp_problem) (hwf : inst.WellFormed)
    (x0 : List Nat) (hx : inst.Selection x0) (mask : Nat) :
    (∃ r, (ls_object inst x0).run mask (x0.length * inst.c.length) = some r) ∧
    ∀ fuel b ls', (ls_object inst x0).run mask fuel = some (b, ls') →
      ∀ j, j < inst.S.length → (∃ i, i ∈ inst.S.getD j [] ∧ i ∈ x0) →
        ∃ i, i ∈ inst.S.getD j [] ∧ i ∈ ls'._x := by
  have hI := indexed_read_T inst hwf
  rw [ls_object_mk]
  refine ⟨ls_run_total _ _ _ hI x0 0 hx.1.nodup hx.2 mask _ (le_refl _), ?_⟩
  intro fuel b ls' hr j hj hcov0
  obtain ⟨x', z', v', e, -, hcov, -⟩ :=
    ls_run_spec _ _ _ hI x0 0 hx.1.nodup hx.2 mask fuel _ hr
  simp only [Prod.mk.injEq] at e
  obtain ⟨-, rfl⟩ := e
  obtain ⟨i, hi, hix⟩ := hcov0
  have h1 : 1 ≤ cover_count (read_T inst) x0 j :=
    (cover_count_pos _ x0 j).mpr ⟨i, hix, (hI.memT i j).mpr ⟨hj, hi⟩⟩
  obtain ⟨i', hi', hji'⟩ := (cover_count_pos _ x' j).mp (hcov j h1)
  exact ⟨i', ((hI.memT i' j).mp hji').2, hi'⟩

/-- The claim on `inst_swap` from the infeasible selection `{0}` with every exchange on:
the run exchanges item 0 for item 2, which still covers requirement 0. -/
theorem C33_coverage_kept_witness :
    inst_swap.WellFormed ∧ inst_swap.Selection [0] ∧ inst_swap.check [0] = false ∧
      ∃ i, i ∈ inst_swap.S.getD 0 [] ∧
        i ∈ (scp_local_search.mk inst_swap.c inst_swap.S (read_T inst_swap) [2] 2)._x :=
  ⟨by decide, by decide, by decide,
    (C33_coverage_kept inst_swap (by decide) [0] (by decide) 7).2 1 true
      (scp_local_search.mk inst_swap.c inst_swap.S (read_T inst_swap) [2] 2) (by decide!)
      0 (by decide) ⟨0, by decide, by decide⟩⟩

/-- C34, amended (repair of a feasible selection is a no-op, the cost in exact arithmetic):
on a well-formed instance, from every seed `x0` within `[0, m)`: when `x0` covers every
requirement, `scp_repair::run` returns `true` for every fuel without reading a draw, leaves
`x()` equal to `x0` and sets `z()` to the sum of `c[i]` over `x0`; and whenever `run` from
`x0` (feasible or not) returns `true`, running it again on the object it leaves returns
`true` without reading a draw, with the same `x()`, and with the same `z()` when the costs
are added without rounding. -/
theorem C34_repair_feasible_noop (inst : scp_problem) (hwf : inst.WellFormed)
    (alpha epsilon : ℚ) (x0 : List Nat) (hx : inst.Selection x0) :
    (inst.check x0 = true → ∀ draws fuel,
      (repair_object inst alpha epsilon x0).run draws fuel
        = some (true, scp_repair.mk alpha epsilon inst.c inst.S (read_T inst) x0
            ((x0.map (fun i => inst.c.getD i 0)).sum), 0)) ∧
    ∀ draws fuel r' t', (repair_object inst alpha epsilon x0).run draws fuel
        = some (true, r', t') →
      ∀ draws2 fuel2, r'.run draws2 fuel2 = some (true, r', 0) := by
  have hI := indexed_read_T inst hwf
  constructor
  · intro hfeas draws fuel
    rw [← z_eq_sum]
    exact repair_feasible_noop inst hwf alpha epsilon x0 hx hfeas draws fuel
  · intro draws fuel r' t' hr draws2 fuel2
    obtain ⟨⟨u', v', nc', hinv, hfull, -⟩, -⟩ :=
      repair_run_spec inst hwf alpha epsilon x0 hx draws fuel true r' t' hr
    obtain ⟨s1, s2⟩ := repair_seed_spec inst hwf alpha epsilon x0 hx
    have hr2 := hr
    unfold scp_repair.run at hr2
    obtain ⟨a1, a2, a3, a4, a5, a6⟩ := repair_loop_fields draws _ fuel _ _ _ _ _ _ _ _ hr2
    have e1 := congrArg scp_grasp.alpha s2
    have e2 := congrArg scp_grasp.epsilon s2
    have e3 := congrArg scp_grasp._c s2
    have e4 := congrArg scp_grasp._S s2
    have e5 := congrArg scp_grasp._T s2
    have e6 := congrArg scp_grasp._x s2
    simp only [scp_repair.as_grasp] at e1 e2 e3 e4 e5 e6
    have hsel : inst.Selection r'._x := ⟨a6 (by rw [e6]; exact hx.1), hinv.xlt⟩
    have hfeas : inst.check r'._x = true :=
      (check_iff inst r'._x).mpr
        (fun j hj => selinv_full _ _ _ hI _ _ _ _ _ hinv (hfull rfl) j hj)
    have hobj : r' = scp_repair.mk alpha epsilon inst.c inst.S (read_T inst) r'._x
        (inst.z r'._x) := by
      have hz := hinv.zsum
      rw [← z_eq_sum] at hz
      rw [e1] at a1; rw [e2] at a2; rw [e3] at a3; rw [e4] at a4; rw [e5] at a5
      cases r'
      simp only at a1 a2 a3 a4 a5 hz
      subst a1 a2 a3 a4 a5 hz
      rfl
    have hnoop := repair_feasible_noop inst hwf alpha epsilon r'._x hsel hfeas draws2 fuel2
    rw [← hobj] at hnoop
    rw [← hnoop, hobj]
    rfl

/-- The claim at the three-item instance: from the feasible seed `{0, 1}` nothing changes;
from the seed `{0}` the run adds item 1 after one draw, and a second run on that output
returns it unchanged. -/
theorem C34_repair_feasible_noop_witness :
    inst3.WellFormed ∧ inst3.Selection [0] ∧
      (scp_repair.mk 1 (1 / 1000000000) inst3.c inst3.S (read_T inst3) [0, 1] 2).run
          (fun _ => 0) 0
        = some (true,
            scp_repair.mk 1 (1 / 1000000000) inst3.c inst3.S (read_T inst3) [0, 1] 2, 0) :=
  ⟨by decide, by decide,
    (C34_repair_feasible_noop inst3 (by decide) 1 (1 / 1000000000) [0] (by decide)).2
      (fun _ => 0) 3 (scp_repair.mk 1 (1 / 1000000000) inst3.c inst3.S (read_T inst3) [0, 1] 2)
      1 (by decide!) (fun _ => 0) 0⟩

/-- C36 (local search never grows the selection): on a well-formed instance, from every
selection `x0` within `[0, m)` and for every exchange mask, `run` returns (within
`|x0| * m` exchanges) and `x()` has at most `|x0|` items afterwards; a removal of
`run_1_0` takes one item out, the exchange performed by a scan of `run_1_1` keeps the
number of items, and the exchange performed by a scan of `run_2_1` lowers it by one
(`_x` being a set). -/
theorem C36_size_not_growing (inst : scp_problem) (hwf : inst.WellFormed)
    (x0 : List Nat) (hx : inst.Selection x0) (mask : Nat) :
    (∃ r, (ls_object inst x0).run mask (x0.length * inst.c.length) = some r) ∧
    (∀ fuel b ls', (ls_object inst x0).run mask fuel = some (b, ls') →
      ls'._x.length ≤ x0.length) ∧
    (∀ (ls : scp_local_search) (v : List Int) (it : Nat), it ∈ ls._x →
      is_useless ls._T v it = true →
      (run_1_0_step (ls, v) it).1._x.length + 1 = ls._x.length) ∧
    (∀ (ls : scp_local_search) (v : List Int) (p : Nat × Nat), find_1_1 ls v = some p →
      (apply_1_1 ls v p.1 p.2).1._x.length = ls._x.length) ∧
    ∀ (ls : scp_local_search) (v : List Int) (p : Nat × Nat × Nat), ls._x.Nodup →
      find_2_1 ls v = some p →
      (apply_2_1 ls v p.1 p.2.1 p.2.2).1._x.length + 1 = ls._x.length := by
  have hI := indexed_read_T inst hwf
  refine ⟨by
    rw [ls_object_mk]
    exact ls_run_total _ _ _ hI x0 0 hx.1.nodup hx.2 mask _ (le_refl _), ?_, ?_, ?_, ?_⟩
  · intro fuel b ls' hr
    rw [ls_object_mk] at hr
    obtain ⟨x', z', v', e, -, -, hlen, -⟩ :=
      ls_run_spec _ _ _ hI x0 0 hx.1.nodup hx.2 mask fuel _ hr
    simp only [Prod.mk.injEq] at e
    obtain ⟨-, rfl⟩ := e
    exact hlen
  · intro ls v it hit hu
    unfold run_1_0_step
    rw [if_pos hu]
    show (ls._x.erase it).length + 1 = ls._x.length
    have h1 := List.length_erase_of_mem hit
    have h2 : 0 < ls._x.length := List.length_pos_of_mem hit
    omega
  · intro ls v p hp
    obtain ⟨h1, -, h3⟩ := find_1_1_some ls v p hp
    have hni : p.2 ∉ ls._x.erase p.1 :=
      fun h => (cond_1_1_cost ls v p.1 p.2 h3).2 (List.mem_of_mem_erase h)
    show (set_insert p.2 (ls._x.erase p.1)).length = ls._x.length
    rw [length_set_insert_of_not_mem _ _ hni]
    have h4 := List.length_erase_of_mem h1
    have h5 : 0 < ls._x.length := List.length_pos_of_mem h1
    omega
  · intro ls v p hnd hp
    obtain ⟨h1, -, h3⟩ := find_2_1_some ls v p hp
    obtain ⟨m1, m2, hne⟩ := mem_pairs ls._x hnd p.1 p.2.1 h1
    have m3 : p.2.1 ∈ ls._x.erase p.1 := (List.mem_erase_of_ne (fun e => hne e.symm)).mpr m2
    have hni : p.2.2 ∉ (ls._x.erase p.1).erase p.2.1 :=
      fun h => (cond_2_1_cost ls v p.1 p.2.1 p.2.2 h3).2
        (List.mem_of_mem_erase (List.mem_of_mem_erase h))
    show (set_insert p.2.2 ((ls._x.erase p.1).erase p.2.1)).length + 1 = ls._x.length
    rw [length_set_insert_of_not_mem _ _ hni]
    have h4 := List.length_erase_of_mem m1
    have h5 := List.length_erase_of_mem m3
    have h6 : 0 < (ls._x.erase p.1).length := List.length_pos_of_mem m3
    omega

/-- The claim at the five-item instance, from `{0, 1, 2}` with every exchange on: the run
ends on the two items `{2, 3}`. -/
theorem C36_size_not_growing_witness :
    inst_pair.WellFormed ∧ inst_pair.Selection [0, 1, 2] ∧
      (scp_local_search.mk inst_pair.c inst_pair.S (read_T inst_pair) [2, 3] 8)._x.length
        ≤ [0, 1, 2].length :=
  ⟨by decide, by decide,
    (C36_size_not_growing inst_pair (by decide) [0, 1, 2] (by decide) 7).2.1 1 true
      (scp_local_search.mk inst_pair.c inst_pair.S (read_T inst_pair) [2, 3] 8)
      (by decide!)⟩

/-- C37 (index and division safety of the construction): on a well-formed instance, for
every `alpha`, `epsilon`, stream of draws and fuel, `scp_grasp::run` with every access to
`u`, `v`, `e`, `_c`, `_T` and `_S` tested against the size of the vector, every divisor
of a score tested against zero and the index `rand() % rcl.size()` tested against
`rcl.size()` (computed only after `rcl` was found non-empty) never faults: it answers
exactly what `run` answers. -/
theorem C37_access_safety (inst : scp_problem) (hwf : inst.WellFormed) (alpha epsilon : ℚ)
    (draws : Nat → Nat) (fuel : Nat) :
    (grasp_object inst alpha epsilon).run_checked draws fuel
      = some ((grasp_object inst alpha epsilon).run draws fuel) := by
  have hI := indexed_read_T inst hwf
  have h0 := selinv_init inst.c inst.S (read_T inst) hI
  unfold scp_grasp.run_checked scp_grasp.run
  have hi : init_checked (grasp_object inst alpha epsilon)._c (grasp_object inst alpha epsilon)._T
      (grasp_object inst alpha epsilon)._T.length
      = some (u_init (grasp_object inst alpha epsilon)._T
          (grasp_object inst alpha epsilon)._T.length,
        c_min_of (grasp_object inst alpha epsilon)._c
          (grasp_object inst alpha epsilon)._T.length) :=
    init_checked_eq _ _ (le_of_eq hI.lenT)
  rw [hi]
  simp only [Option.some_bind]
  exact grasp_loop_checked_eq draws fuel
    { grasp_object inst alpha epsilon with _z := 0, _x := [] } _ _ _ 0 hI h0

/-- The claim at the three-item instance with `alpha = 1` and every draw `0`: the tested
run picks item 0 and then item 1, as the run does. The test is a real one: an object whose
`_c` is shorter than `_T` faults at `_c[0]`. -/
theorem C37_access_safety_witness :
    inst3.WellFormed ∧
      (grasp_object inst3 1 (1 / 1000000000)).run_checked (fun _ => 0) 3
        = some (some (true,
            scp_grasp.mk 1 (1 / 1000000000) inst3.c inst3.S (read_T inst3) [0, 1] 2, 2)) ∧
      (scp_grasp.mk 1 0 [] [[0]] [[0]] [] 0).run_checked (fun _ => 0) 1 = none :=
  ⟨by decide,
    (C37_access_safety inst3 (by decide) 1 (1 / 1000000000) (fun _ => 0) 3).trans
      (congrArg some (by decide!)), by decide!⟩

/-- C38, amended (solution acceptance check): for every instance, selection `x`, reported
objective `obj` and tolerance `epsilon`, in exact arithmetic `check( x, obj, epsilon )` is
`true` exactly when `|z(x) - obj| <= epsilon` and `check( x )` holds, `z(x)` being the sum
of `c[i]` over `x`, and with `epsilon >= 0`, `check( x, z(x), epsilon )` is `true` exactly
when `check( x )` is; in `double`, whenever `z(x)` is finite and `epsilon >= 0` is
finite, `check( x, z(x), epsilon )` is `check( x )`. -/
theorem C38_acceptance_check (p : scp_problem) (x : List Nat) (obj epsilon : ℚ) :
    (p.check_obj x obj epsilon = true ↔
      |(x.map (fun i => p.c.getD i 0)).sum - obj| ≤ epsilon ∧ p.check x = true) ∧
    p.z x = (x.map (fun i => p.c.getD i 0)).sum ∧
    (0 ≤ epsilon → (p.check_obj x (p.z x) epsilon = true ↔ p.check x = true)) ∧
    ∀ q, p.z_fl x = double.fin q → 0 ≤ epsilon →
      p.check_obj_fl x (p.z_fl x) (double.fin epsilon) = p.check x := by
  have h1 : p.check_obj x obj epsilon = true ↔
      |(x.map (fun i => p.c.getD i 0)).sum - obj| ≤ epsilon ∧ p.check x = true := by
    unfold scp_problem.check_obj
    simp only [Bool.and_eq_true, decide_eq_true_eq]
    rw [z_eq_sum, abs_le]
  refine ⟨h1, z_eq_sum p x, ?_, ?_⟩
  · intro he
    unfold scp_problem.check_obj
    simp only [Bool.and_eq_true, decide_eq_true_eq, sub_self]
    constructor
    · intro h; exact h.2
    · intro h; exact ⟨⟨by linarith, he⟩, h⟩
  · intro q hq he
    unfold scp_problem.check_obj_fl
    rw [hq, double_sub_self]
    have e1 : (double.fin epsilon).neg.le (double.fin 0) = true := by
      show decide (-epsilon ≤ 0) = true
      exact decide_eq_true (by linarith)
    have e2 : (double.fin 0).le (double.fin epsilon) = true := by
      show decide (0 ≤ epsilon) = true
      exact decide_eq_true he
    rw [e1, e2]
    rfl

/-- C39, the code at the failing input. For every instance `reduce` leaves `c` and the
number of requirements as they are. On `inst_gap` (`c = [1, 1, 1]`, `S[0] = {1, 2}`,
well-formed) item 0 is in no set: at `i = 0` the member `1` found by `lower_bound( 0 )` is
stepped over, the member `2` is erased and `1` inserted, which is already there; `S[0]`
becomes `{1}`, and stays so at `i = 1` and `i = 2`. The two members of `S[0]` have been
merged: its cardinality went from 2 to 1. -/
theorem C39_reduce_divergence :
    (∀ p : scp_problem, p.reduce.c = p.c ∧ p.reduce.num_sets = p.num_sets) ∧
    inst_gap.WellFormed ∧
    inst_gap.S.any (fun s => s.contains 0) = false ∧
    reduce_set 0 [1, 2] = [1] ∧
    inst_gap.reduce.S = [[1]] ∧
    (inst_gap.S.getD 0 []).length = 2 ∧
    (inst_gap.reduce.S.getD 0 []).length = 1 := by
  refine ⟨fun p => ⟨rfl, ?_⟩, by decide, by decide, by decide, by decide, by decide,
    by decide⟩
  show ((List.range p.num_elements).foldl reduce_step p.S).length = p.S.length
  exact reduce_fold_length _ _

/-! ## The claims refuted in `double` -/

/-- C10, refuted as stated: in `double` the list `rcl` can be empty while a requirement is
uncovered and every covering set is non-empty. On `inst_round` (costs 9, 3, 1) with
`alpha = 1` and `epsilon = 1e-17` the scores are `e[0] = 0.1111111111111111` and
`e[1] = 0.6666666666666666`, the threshold `e_min + alpha * ( e_max - e_min )` rounds to
`0.6666666666666667`, above `e_max`, and `e[1] + epsilon` rounds to `e[1]`: `rcl` is
empty and `scp_grasp::run`, as `scp_repair::run` from the empty seed, returns `false`.
On `inst_big` (one item of cost `2^53`) with `alpha = 1/2` and `epsilon = 1e-9`,
`1 + c[0]` rounds to `2^53`, the divisor is `0`, the score is infinite, the threshold is
a NaN and `run` returns `false`. -/
theorem C10_counterexample :
    (inst_round.WellFormed ∧ (∀ j, j < inst_round.S.length → inst_round.S.getD j [] ≠ []) ∧
      inst_round.check [0, 1] = true ∧
      e_at_fl inst_round.c (c_min_fl inst_round.c 3) [1, 2, 0] 0
        = double.fin (2001599834386887 / 18014398509481984) ∧
      e_at_fl inst_round.c (c_min_fl inst_round.c 3) [1, 2, 0] 1
        = double.fin (6004799503160661 / 9007199254740992) ∧
      e_limit_fl (double.round 1) (e_bounds_fl inst_round.c (c_min_fl inst_round.c 3) [1, 2, 0] 3)
        = double.fin (3002399751580331 / 4503599627370496) ∧
      (double.fin (6004799503160661 / 9007199254740992)).add
          (double.round (1 / 100000000000000000))
        = double.fin (6004799503160661 / 9007199254740992) ∧
      (grasp_object inst_round 1 (1 / 100000000000000000)).run_fl (fun _ => 0) 3
        = some (false, [], double.fin 0, 0) ∧
      (repair_object inst_round 1 (1 / 100000000000000000) []).run_fl (fun _ => 0) 3
        = some (false, [], double.fin 0, 0)) ∧
    (inst_big.WellFormed ∧ (∀ j, j < inst_big.S.length → inst_big.S.getD j [] ≠ []) ∧
      inst_big.check [0] = true ∧
      divisor_fl inst_big.c (c_min_fl inst_big.c 1) 0 = double.fin 0 ∧
      e_at_fl inst_big.c (c_min_fl inst_big.c 1) [1] 0 = double.inf false ∧
      e_limit_fl (double.round (1 / 2)) (e_bounds_fl inst_big.c (c_min_fl inst_big.c 1) [1] 1)
        = double.nan ∧
      (grasp_object inst_big (1 / 2) (1 / 1000000000)).run_fl (fun _ => 0) 1
        = some (false, [], double.fin 0, 0)) := by
  refine ⟨⟨by decide, by decide, by decide, by decide!, by decide!, by decide!, by decide!,
    by decide!, by decide!⟩,
    ⟨by decide, by decide, by decide, by decide!, by decide!, by decide!, by decide!⟩⟩

/-- C15, refuted as stated: in `double`, with `alpha = 1` and `epsilon = 0`, a candidate of
maximal score can be left out of the list `rcl`. On `inst_round` in the first state of
the loop, `u = [1, 2, 0]`, the candidates are items 0 and 1 with scores
`0.1111111111111111` and `0.6666666666666666`; `e_max` is the score of item 1, and the
threshold `e_min + 1 * ( e_max - e_min )` rounds to `0.6666666666666667 > e_max`, so
`rcl` is empty. -/
theorem C15_counterexample :
    inst_round.WellFormed ∧
    ((grasp_object inst_round 1 0).run_visited (fun _ => 0) 0).map (fun s => s.2.1)
      = [[1, 2, 0]] ∧
    c_min_fl inst_round.c 3 = double.fin 1 ∧
    e_bounds_fl inst_round.c (c_min_fl inst_round.c 3) [1, 2, 0] 3
      = (double.fin (2001599834386887 / 18014398509481984),
          double.fin (6004799503160661 / 9007199254740992)) ∧
    e_at_fl inst_round.c (c_min_fl inst_round.c 3) [1, 2, 0] 1
      = double.fin (6004799503160661 / 9007199254740992) ∧
    e_limit_fl (double.round 1) (e_bounds_fl inst_round.c (c_min_fl inst_round.c 3) [1, 2, 0] 3)
      = double.fin (3002399751580331 / 4503599627370496) ∧
    (double.fin (6004799503160661 / 9007199254740992)).lt
      (double.fin (3002399751580331 / 4503599627370496)) = true ∧
    build_rcl_fl inst_round.c (c_min_fl inst_round.c 3) (double.round 1) (double.round 0)
      [1, 2, 0] 3 = [] := by
  refine ⟨by decide, by decide!, by decide!, by decide!, by decide!, by decide!, by decide!,
    by decide!⟩

/-- C26, refuted as stated: in `double` the divisor `1 + c[i] - c_min` can be below `1`, or
`0`. On `inst_cents` (one item of cost `0.13`), `1 + 0.13` rounds to `1.13` and
`1.13 - 0.13` to `0.9999999999999999`; with `u[0] = 1` the score is
`1.0000000000000002 > u[0]`. On `inst_big` (one item of cost `2^53`) the divisor is `0`
and the score is infinite. -/
theorem C26_counterexample :
    (0 < inst_cents.num_elements ∧
      c_min_fl inst_cents.c 1 = cost_fl inst_cents.c 0 ∧
      divisor_fl inst_cents.c (c_min_fl inst_cents.c 1) 0
        = double.fin (9007199254740991 / 9007199254740992) ∧
      (double.fin 1).le (divisor_fl inst_cents.c (c_min_fl inst_cents.c 1) 0) = false ∧
      e_at_fl inst_cents.c (c_min_fl inst_cents.c 1) [1] 0
        = double.fin (4503599627370497 / 4503599627370496) ∧
      (e_at_fl inst_cents.c (c_min_fl inst_cents.c 1) [1] 0).le (double.of_int 1) = false) ∧
    (0 < inst_big.num_elements ∧
      divisor_fl inst_big.c (c_min_fl inst_big.c 1) 0 = double.fin 0 ∧
      (double.fin 1).le (divisor_fl inst_big.c (c_min_fl inst_big.c 1) 0) = false ∧
      e_at_fl inst_big.c (c_min_fl inst_big.c 1) [1] 0 = double.inf false) := by
  refine ⟨⟨by decide, by decide!, by decide!, by decide!, by decide!, by decide!⟩,
    ⟨by decide, by decide!, by decide!, by decide!⟩⟩

/-- C34, refuted as stated: in `double` a second call of `scp_repair::run` on the output
of the first can report another `z()`. On `inst_tenths` (costs `0.1`, `0.2`, `0.3`) with
`alpha = 0`, from the empty seed with the draws 2, 1, 0, the run picks items 2, 1, 0 and
accumulates `0.3 + 0.2 + 0.1 = 0.6`; run again on `x() = {0, 1, 2}` it reads no draw,
leaves `x()` as it is and accumulates `0.1 + 0.2 + 0.3 = 0.6000000000000001`. -/
theorem C34_counterexample :
    inst_tenths.WellFormed ∧ inst_tenths.Selection [0, 1, 2] ∧
    inst_tenths.check [0, 1, 2] = true ∧
    (repair_object inst_tenths 0 (1 / 1000000000) []).run_fl (fun t => 2 - t) 3
      = some (true, [0, 1, 2], double.fin (5404319552844595 / 9007199254740992), 3) ∧
    (repair_object inst_tenths 0 (1 / 1000000000) [0, 1, 2]).run_fl (fun t => 2 - t) 3
      = some (true, [0, 1, 2], double.fin (1351079888211149 / 2251799813685248), 0) ∧
    double.fin (5404319552844595 / 9007199254740992)
      ≠ double.fin (1351079888211149 / 2251799813685248) := by
  refine ⟨by decide, by decide, by decide, by decide!, by decide!, by decide!⟩

/-- C38, refuted as stated: in `double`, `check( x, z(x), epsilon )` can be `false` while
`check( x )` is `true`. On `inst_overflow` (two items of cost `2^1023`) with
`x = {0, 1}` and `epsilon = 0`, `z(x)` overflows to `+infinity`, the difference
`z(x) - z(x)` is a NaN and both comparisons with it are false. -/
theorem C38_counterexample :
    inst_overflow.WellFormed ∧ inst_overflow.Selection [0, 1] ∧
    inst_overflow.check [0, 1] = true ∧
    inst_overflow.z_fl [0, 1] = double.inf false ∧
    (inst_overflow.z_fl [0, 1]).sub (inst_overflow.z_fl [0, 1]) = double.nan ∧
    inst_overflow.check_obj_fl [0, 1] (inst_overflow.z_fl [0, 1]) (double.fin 0) = false := by
  refine ⟨by decide, by decide, by decide, by decide!, by decide!, by decide!⟩
